import Mathlib

/-!
# UltraComposer: gate accounting, memory-record orderings, tags, constant assertions

A shallow embedding of parts of `plonk/composer/ultra_composer.hpp` (namespace `plonk`), of
`CheckGetter::get_value` of `honk/circuit_constructors/turbo_circuit_constructor.hpp`
(namespace `honk`) and of the circuit of `smt_verification/smt_polynomials.test.cpp`
(namespaces `proof_system` and `smt_polynomials`).

* Machine integers are natural numbers; every `size_t` operation is reduced
  modulo `2 ^ 64` and every `uint32_t` operation modulo `2 ^ 32`.
* `std::vector` is `List`, `std::map` is an association list in iteration order.
* `ultra_settings::program_width` (the `gate_width` of the gate counter) and
  `DUMMY_TAG` are declared outside the embedded header, so the functions that
  read them take them as arguments.
* Field elements are the elements of a commutative ring `F`; the scalar field of the test is
  `ZMod smt_polynomials.r`.
-/

namespace plonk

/-! ## Machine arithmetic -/

/-- Number of values of a 64-bit `size_t`. -/
def SIZE_T_MOD : Nat := 2 ^ 64

/-- Number of values of a `uint32_t`. -/
def UINT32_MOD : Nat := 2 ^ 32

/-- The constant `UINT32_MAX`. -/
def UINT32_MAX : Nat := 2 ^ 32 - 1

/-- Addition of two `size_t` values. -/
def size_add (a b : Nat) : Nat := (a + b) % SIZE_T_MOD

/-- Subtraction of two `size_t` values (wraps around below zero). -/
def size_sub (a b : Nat) : Nat := (a + (SIZE_T_MOD - b % SIZE_T_MOD)) % SIZE_T_MOD

/-- Multiplication of two `size_t` values. -/
def size_mul (a b : Nat) : Nat := (a * b) % SIZE_T_MOD

/-- Increment of a `uint32_t` (`x++`). -/
def u32_incr (a : Nat) : Nat := (a + 1) % UINT32_MOD

/-! ## Constants of `UltraComposer` -/

/-- The constant `DEFAULT_PLOOKUP_RANGE_BITNUM = 14`. -/
def DEFAULT_PLOOKUP_RANGE_BITNUM : Nat := 14

/-- The constant `DEFAULT_PLOOKUP_RANGE_SIZE = (1 << DEFAULT_PLOOKUP_RANGE_BITNUM) - 1`. -/
def DEFAULT_PLOOKUP_RANGE_SIZE : Nat := (1 <<< DEFAULT_PLOOKUP_RANGE_BITNUM) - 1

/-- The constant `UNINITIALIZED_MEMORY_RECORD = UINT32_MAX`. -/
def UNINITIALIZED_MEMORY_RECORD : Nat := UINT32_MAX

/-! ## Data model -/

/-- The struct `RangeList`. -/
structure RangeList where
  target_range : Nat
  range_tag : Nat
  tau_tag : Nat
  variable_indices : List Nat
deriving DecidableEq, Repr

/-- The struct `RomRecord`. -/
structure RomRecord where
  index_witness : Nat
  value_column1_witness : Nat
  value_column2_witness : Nat
  index : Nat
  record_witness : Nat
  gate_index : Nat
deriving DecidableEq, Repr

/-- The enum `RamRecord::AccessType`. -/
inductive AccessType where
  | READ
  | WRITE
deriving DecidableEq, Repr

/-- The struct `RamRecord`. -/
structure RamRecord where
  index_witness : Nat
  timestamp_witness : Nat
  value_witness : Nat
  index : Nat
  timestamp : Nat
  access_type : AccessType
  record_witness : Nat
  gate_index : Nat
deriving DecidableEq, Repr

/-- The struct `RamTranscript`. -/
structure RamTranscript where
  state : List Nat
  records : List RamRecord
  access_count : Nat
deriving DecidableEq, Repr

/-- The struct `RomTranscript`; a `std::array<uint32_t, 2>` slot is a pair. -/
structure RomTranscript where
  state : List (Nat × Nat)
  records : List RomRecord
deriving DecidableEq, Repr

/-- The part of `plookup::BasicTable` the composer header reads: its lookup gates. -/
structure BasicTable where
  lookup_gates : List Nat
deriving DecidableEq, Repr

/-- The members of `UltraComposer` (its own and the inherited ones the header uses).
`failed` and `err` are the failure flag and message of the composer base;
`variables_` is the member `variables` (a reserved word here). -/
structure UltraComposer (F : Type) where
  num_gates : Nat
  circuit_finalised : Bool
  variables_ : List F
  real_variable_index : List Nat
  real_variable_tags : List Nat
  current_tag : Nat
  tau : List (Nat × Nat)
  public_inputs : List Nat
  failed : Bool
  err : String
  lookup_tables : List BasicTable
  range_lists : List (Nat × RangeList)
  ram_arrays : List RamTranscript
  rom_arrays : List RomTranscript
  recursive_proof_public_input_indices : List Nat
  contains_recursive_proof : Bool

/-! ## Gate accounting -/

/-- The four output arguments of `get_num_gates_split_into_components`. -/
structure GateCounts where
  count : Nat
  rangecount : Nat
  romcount : Nat
  ramcount : Nat
deriving DecidableEq, Repr

/-- The `padding` of the gate counter for a list of `n` entries:
`(gate_width - (n % gate_width)) % gate_width`, plus `gate_width` when `n == gate_width`. -/
def range_list_padding (gate_width n : Nat) : Nat :=
  let padding := (gate_width - (n % gate_width)) % gate_width
  if n = gate_width then size_add padding gate_width else padding

/-- The padded size `list_size + padding` of the gate counter. -/
def range_list_padded_size (gate_width n : Nat) : Nat :=
  size_add n (range_list_padding gate_width n)

/-- Body of the loop over `rom_arrays`, acting on the running `romcount`. -/
def rom_loop_body (romcount : Nat) (arr : RomTranscript) : Nat :=
  let r1 := arr.state.foldl
    (fun rc slot => if slot.1 = UNINITIALIZED_MEMORY_RECORD then size_add rc 2 else rc) romcount
  let r2 := size_add r1 arr.records.length
  size_add r2 1

/-- Body of the loop over `ram_arrays`, acting on the running `ramcount`. -/
def ram_loop_body (gate_width : Nat) (ramcount : Nat) (arr : RamTranscript) : Nat :=
  let r1 := arr.state.foldl
    (fun rc slot => if slot = UNINITIALIZED_MEMORY_RECORD then size_add rc 2 else rc) ramcount
  let r2 := size_add r1 (size_mul arr.records.length 2)
  let r3 := size_add r2 1
  let max_timestamp := size_sub arr.access_count 1
  let padding := (gate_width - (max_timestamp % gate_width)) % gate_width
  let padding := if max_timestamp = gate_width then size_add padding gate_width else padding
  let ram_range_check_list_size := size_add max_timestamp padding
  let ram_range_check_gate_count := ram_range_check_list_size / gate_width
  let ram_range_check_gate_count := size_add ram_range_check_gate_count 1
  size_add r3 ram_range_check_gate_count

/-- Body of the loop over `range_lists`, acting on the running `rangecount`. -/
def range_loop_body (gate_width : Nat) (rangecount : Nat) (list : Nat × RangeList) : Nat :=
  let list_size := range_list_padded_size gate_width list.2.variable_indices.length
  let rangecount := size_add rangecount (list_size / gate_width)
  size_add rangecount 1

/-- The member function `UltraComposer::get_num_gates_split_into_components`. -/
def get_num_gates_split_into_components {F : Type} (gate_width : Nat) (c : UltraComposer F) :
    GateCounts :=
  { count := c.num_gates
    rangecount := c.range_lists.foldl (range_loop_body gate_width) 0
    romcount := c.rom_arrays.foldl rom_loop_body 0
    ramcount := c.ram_arrays.foldl (ram_loop_body gate_width) 0 }

/-- The member function `UltraComposer::get_num_gates`. -/
def get_num_gates {F : Type} (gate_width : Nat) (c : UltraComposer F) : Nat :=
  if c.circuit_finalised then c.num_gates
  else
    let r := get_num_gates_split_into_components gate_width c
    size_add (size_add (size_add r.count r.romcount) r.ramcount) r.rangecount

/-! ## Orderings of the memory records -/

/-- The member function `RomRecord::operator<`. -/
def RomRecord.operator_lt (self other : RomRecord) : Bool :=
  decide (self.index < other.index)

/-- The member function `RamRecord::operator<`. -/
def RamRecord.operator_lt (self other : RamRecord) : Bool :=
  let index_test := decide (self.index < other.index)
  index_test || (self.index == other.index && decide (self.timestamp < other.timestamp))

/-- The postcondition of `std::sort` with a comparison `comp`, as `std::is_sorted` checks it:
no element compares less than its predecessor. -/
def is_sorted {α : Type} (comp : α → α → Bool) : List α → Bool
  | [] => true
  | [_] => true
  | a :: b :: rest => !comp b a && is_sorted comp (b :: rest)

/-! ## Tags -/

/-- Modelled from the spec: the `ASSERT` macro is defined outside the embedded header; by the
spec a violated check makes the call fail at the call site. An outcome is `ok` with the
composer the call leaves, `assertion_failed` with the composer as it stood when the violated
`ASSERT` was evaluated, or `out_of_bounds` when a vector is indexed past its end. -/
inductive Outcome (σ : Type) where
  | ok : σ → Outcome σ
  | assertion_failed : σ → Outcome σ
  | out_of_bounds : Outcome σ

/-- Whether an outcome is a violated assertion. -/
def Outcome.is_assertion_failed {σ : Type} : Outcome σ → Bool
  | Outcome.assertion_failed _ => true
  | _ => false

/-- The member function `UltraComposer::assign_tag`; `DUMMY_TAG` is declared in the composer base. -/
def assign_tag {F : Type} (DUMMY_TAG : Nat) (c : UltraComposer F) (variable_index tag : Nat) :
    Outcome (UltraComposer F) :=
  if ¬ tag ≤ c.current_tag then Outcome.assertion_failed c
  else
    match c.real_variable_index[variable_index]? with
    | none => Outcome.out_of_bounds
    | some r =>
      match c.real_variable_tags[r]? with
      | none => Outcome.out_of_bounds
      | some t =>
        if ¬ t = DUMMY_TAG then Outcome.assertion_failed c
        else Outcome.ok { c with real_variable_tags := c.real_variable_tags.set r tag }

/-- The call `std::map::insert`: keeps an entry already stored under the key, otherwise adds
the pair at its place in key order. -/
def map_insert {β : Type} : List (Nat × β) → Nat → β → List (Nat × β)
  | [], k, v => [(k, v)]
  | (k0, v0) :: rest, k, v =>
    if k < k0 then (k, v) :: (k0, v0) :: rest
    else if k = k0 then (k0, v0) :: rest
    else (k0, v0) :: map_insert rest k v

/-- The member function `UltraComposer::create_tag`: the returned tag and the composer afterwards. -/
def create_tag {F : Type} (c : UltraComposer F) (tag_index tau_index : Nat) :
    Nat × UltraComposer F :=
  let c1 := { c with tau := map_insert c.tau tag_index tau_index }
  let c2 := { c1 with current_tag := u32_incr c1.current_tag }
  (c2.current_tag, c2)

/-- The member function `UltraComposer::get_new_tag`: the returned tag and the composer afterwards. -/
def get_new_tag {F : Type} (c : UltraComposer F) : Nat × UltraComposer F :=
  let c1 := { c with current_tag := u32_incr c.current_tag }
  (c1.current_tag, c1)

/-- A call to one of the two tag-producing member functions. -/
inductive TagCall where
  | get_new_tag : TagCall
  | create_tag (tag_index tau_index : Nat) : TagCall
deriving DecidableEq, Repr

/-- Runs one tag-producing call. -/
def TagCall.run {F : Type} (c : UltraComposer F) : TagCall → Nat × UltraComposer F
  | TagCall.get_new_tag => plonk.get_new_tag c
  | TagCall.create_tag tag_index tau_index => plonk.create_tag c tag_index tau_index

/-- Runs a sequence of tag-producing calls on one composer: the tags returned, in call order,
and the composer afterwards. -/
def run_tag_calls {F : Type} (c : UltraComposer F) : List TagCall → List Nat × UltraComposer F
  | [] => ([], c)
  | call :: rest =>
    let r := call.run c
    let rs := run_tag_calls r.2 rest
    (r.1 :: rs.1, rs.2)

/-! ## Failure recording and `assert_equal_constant` -/

/-- Modelled from the spec: `failure(msg)` of the composer base is not in the embedded header;
by the spec a failure is recorded as a persistent failed flag plus a message. `failed()` is
the field `failed`. -/
def failure {F : Type} (msg : String) (c : UltraComposer F) : UltraComposer F :=
  { c with failed := true, err := msg }

/-- The first statement of `assert_equal_constant`:
`if (variables[a_idx] != b && !failed()) { failure(msg); }`.
`none` when `a_idx` is past the end of `variables`. -/
def assert_equal_constant_value_check {F : Type} [DecidableEq F] (c : UltraComposer F)
    (a_idx : Nat) (b : F) (msg : String) : Option (UltraComposer F) :=
  match c.variables_[a_idx]? with
  | none => none
  | some va => some (if va ≠ b ∧ c.failed = false then failure msg c else c)

/-- The member function `UltraComposer::assert_equal_constant`. The member functions `put_constant_variable` and
`assert_equal` are defined outside the embedded header and are taken as arguments. -/
def assert_equal_constant {F : Type} [DecidableEq F]
    (put_constant_variable : F → UltraComposer F → Nat × UltraComposer F)
    (assert_equal : Nat → Nat → String → UltraComposer F → UltraComposer F)
    (c : UltraComposer F) (a_idx : Nat) (b : F) (msg : String) : Option (UltraComposer F) :=
  match assert_equal_constant_value_check c a_idx b msg with
  | none => none
  | some c1 =>
    let r := put_constant_variable b c1
    some (assert_equal a_idx r.1 msg r.2)

/-! ## Range constraints -/

/-- The expression `1ULL << num_bits` on 64-bit unsigned integers. -/
def u64_shift_left_one (num_bits : Nat) : Nat := (1 <<< num_bits) % 2 ^ 64

/-- The member function `UltraComposer::create_range_constraint`. The member functions
`create_new_range_constraint` and `decompose_into_default_range` are defined outside the
embedded header and are taken as arguments; the latter is called with its default arguments
`target_range_bitnum = DEFAULT_PLOOKUP_RANGE_BITNUM` and
`msg = "decompose_into_default_range"`, and the vector it returns is dropped. -/
def create_range_constraint {F : Type}
    (create_new_range_constraint : Nat → Nat → UltraComposer F → UltraComposer F)
    (decompose_into_default_range :
      Nat → Nat → Nat → String → UltraComposer F → List Nat × UltraComposer F)
    (c : UltraComposer F) (variable_index num_bits : Nat) (_msg : String) : UltraComposer F :=
  if num_bits ≤ DEFAULT_PLOOKUP_RANGE_BITNUM then
    create_new_range_constraint variable_index (u64_shift_left_one num_bits) c
  else
    (decompose_into_default_range variable_index num_bits DEFAULT_PLOOKUP_RANGE_BITNUM
      "decompose_into_default_range" c).2

/-! ## Printed gate counts -/

/-- The figures `print_num_gates` writes to the output stream, in the order it writes them:
`gates`, `arith`, `plookup`, `rom`, `ram`, `range`, `range table init cost`, `pubinp`. -/
structure PrintedGateCounts where
  total : Nat
  count : Nat
  plookupcount : Nat
  romcount : Nat
  ramcount : Nat
  rangecount : Nat
  constant_rangecount : Nat
  pubinp : Nat
deriving DecidableEq, Repr

/-- Body of the loop over `lookup_tables` of `print_num_gates`, acting on
`(plookupcount, count)`. -/
def print_lookup_loop_body (acc : Nat × Nat) (table : BasicTable) : Nat × Nat :=
  (size_add acc.1 table.lookup_gates.length, size_sub acc.2 table.lookup_gates.length)

/-- Body of the loop over `range_lists` of `print_num_gates`, acting on
`(constant_rangecount, rangecount)`. -/
def print_range_loop_body (acc : Nat × Nat) (list : Nat × RangeList) : Nat × Nat :=
  let constant_cost := list.2.target_range / 6
  (size_add acc.1 constant_cost, size_sub acc.2 constant_cost)

/-- The member function `UltraComposer::print_num_gates`: the figures it prints. -/
def print_num_gates {F : Type} (gate_width : Nat) (c : UltraComposer F) : PrintedGateCounts :=
  let r := get_num_gates_split_into_components gate_width c
  let lookups := c.lookup_tables.foldl print_lookup_loop_body (0, r.count)
  let ranges := c.range_lists.foldl print_range_loop_body (0, r.rangecount)
  let total := size_add (size_add lookups.2 r.romcount) ranges.2
  { total := total
    count := lookups.2
    plookupcount := lookups.1
    romcount := r.romcount
    ramcount := r.ramcount
    rangecount := ranges.2
    constant_rangecount := ranges.1
    pubinp := c.public_inputs.length }

/-! ## Recursive proofs -/

/-- Body of the loop of `add_recursive_proof`; the member function `set_public_input` of the
composer base is taken as an argument. -/
def add_recursive_proof_loop_body {F : Type}
    (set_public_input : Nat → UltraComposer F → UltraComposer F)
    (c : UltraComposer F) (idx : Nat) : UltraComposer F :=
  let c1 := set_public_input idx c
  { c1 with recursive_proof_public_input_indices :=
      c1.recursive_proof_public_input_indices ++
        [size_sub c1.public_inputs.length 1 % UINT32_MOD] }

/-- The member function `UltraComposer::add_recursive_proof`. -/
def add_recursive_proof {F : Type} (set_public_input : Nat → UltraComposer F → UltraComposer F)
    (c : UltraComposer F) (proof_output_witness_indices : List Nat) : UltraComposer F :=
  let c1 :=
    if c.contains_recursive_proof then
      failure "added recursive proof when one already exists" c
    else c
  let c2 := { c1 with contains_recursive_proof := true }
  proof_output_witness_indices.foldl (add_recursive_proof_loop_body set_public_input) c2

/-- The values `(uint32_t)(public_inputs.size() - 1)` observed right after each call of
`set_public_input` in the loop of `add_recursive_proof`, in call order. -/
def observed_public_input_indices {F : Type}
    (set_public_input : Nat → UltraComposer F → UltraComposer F) :
    UltraComposer F → List Nat → List Nat
  | _, [] => []
  | c, idx :: rest =>
    (size_sub (set_public_input idx c).public_inputs.length 1 % UINT32_MOD)
      :: observed_public_input_indices set_public_input
          (add_recursive_proof_loop_body set_public_input c idx) rest

/-- A `set_public_input` used in the examples: it appends the index to `public_inputs`. -/
def append_public_input (idx : Nat) (c : UltraComposer Int) : UltraComposer Int :=
  { c with public_inputs := c.public_inputs ++ [idx] }

/-! ## The transcript manifest -/

/-- An entry `{ name, num_bytes, derived_by_verifier, challenge_map_index }` of a round of the
manifest; `challenge_map_index` is `none` where the initialiser leaves it out. -/
structure ManifestEntry where
  name : String
  num_bytes : Nat
  derived_by_verifier : Bool
  challenge_map_index : Option Int
deriving DecidableEq, Repr

/-- The arguments of `transcript::Manifest::RoundManifest(...)`. -/
structure RoundManifest where
  elements : List ManifestEntry
  challenge : String
  num_challenges : Nat
  map_challenges : Bool
deriving DecidableEq, Repr

/-- The entries of the round "nu" of `create_manifest`, with `fr_size = 32`. -/
def nu_round_elements : List ManifestEntry :=
  [ ⟨"t", 32, true, some (-1)⟩,
    ⟨"w_1", 32, false, some 0⟩,
    ⟨"w_2", 32, false, some 1⟩,
    ⟨"w_3", 32, false, some 2⟩,
    ⟨"w_4", 32, false, some 3⟩,
    ⟨"s", 32, false, some 4⟩,
    ⟨"z_perm", 32, false, some 5⟩,
    ⟨"z_lookup", 32, false, some 6⟩,
    ⟨"q_1", 32, false, some 7⟩,
    ⟨"q_2", 32, false, some 8⟩,
    ⟨"q_3", 32, false, some 9⟩,
    ⟨"q_4", 32, false, some 10⟩,
    ⟨"q_m", 32, false, some 11⟩,
    ⟨"q_c", 32, false, some 12⟩,
    ⟨"q_arith", 32, false, some 13⟩,
    ⟨"q_sort", 32, false, some 14⟩,
    ⟨"q_elliptic", 32, false, some 15⟩,
    ⟨"q_aux", 32, false, some 16⟩,
    ⟨"q_fixed_base", 32, false, some 30⟩,
    ⟨"sigma_1", 32, false, some 17⟩,
    ⟨"sigma_2", 32, false, some 18⟩,
    ⟨"sigma_3", 32, false, some 19⟩,
    ⟨"sigma_4", 32, false, some 20⟩,
    ⟨"table_value_1", 32, false, some 21⟩,
    ⟨"table_value_2", 32, false, some 22⟩,
    ⟨"table_value_3", 32, false, some 23⟩,
    ⟨"table_value_4", 32, false, some 24⟩,
    ⟨"table_type", 32, false, some 25⟩,
    ⟨"id_1", 32, false, some 26⟩,
    ⟨"id_2", 32, false, some 27⟩,
    ⟨"id_3", 32, false, some 28⟩,
    ⟨"id_4", 32, false, some 29⟩,
    ⟨"w_1_omega", 32, false, some 0⟩,
    ⟨"w_2_omega", 32, false, some 1⟩,
    ⟨"w_3_omega", 32, false, some 2⟩,
    ⟨"w_4_omega", 32, false, some 3⟩,
    ⟨"s_omega", 32, false, some 4⟩,
    ⟨"z_perm_omega", 32, false, some 5⟩,
    ⟨"z_lookup_omega", 32, false, some 6⟩,
    ⟨"table_value_1_omega", 32, false, some 21⟩,
    ⟨"table_value_2_omega", 32, false, some 22⟩,
    ⟨"table_value_3_omega", 32, false, some 23⟩,
    ⟨"table_value_4_omega", 32, false, some 24⟩ ]

/-- The static member function `UltraComposer::create_manifest(num_public_inputs)`: the rounds
of the manifest, with `g1_size = 64` and `fr_size = 32`. The constant `ULTRA_MANIFEST_SIZE`
is declared outside the embedded header and is an argument. -/
def create_manifest (ULTRA_MANIFEST_SIZE : Nat) (num_public_inputs : Nat) : List RoundManifest :=
  let g1_size := 64
  let fr_size := 32
  let public_input_size := size_mul fr_size num_public_inputs
  [ { elements := [⟨"circuit_size", 4, true, none⟩, ⟨"public_input_size", 4, true, none⟩],
      challenge := "init", num_challenges := 1, map_challenges := false },
    { elements := [⟨"public_inputs", public_input_size, false, none⟩,
        ⟨"W_1", g1_size, false, none⟩, ⟨"W_2", g1_size, false, none⟩,
        ⟨"W_3", g1_size, false, none⟩],
      challenge := "eta", num_challenges := 1, map_challenges := false },
    { elements := [⟨"W_4", g1_size, false, none⟩, ⟨"S", g1_size, false, none⟩],
      challenge := "beta", num_challenges := 2, map_challenges := false },
    { elements := [⟨"Z_PERM", g1_size, false, none⟩, ⟨"Z_LOOKUP", g1_size, false, none⟩],
      challenge := "alpha", num_challenges := 1, map_challenges := false },
    { elements := [⟨"T_1", g1_size, false, none⟩, ⟨"T_2", g1_size, false, none⟩,
        ⟨"T_3", g1_size, false, none⟩, ⟨"T_4", g1_size, false, none⟩],
      challenge := "z", num_challenges := 1, map_challenges := false },
    { elements := nu_round_elements,
      challenge := "nu", num_challenges := ULTRA_MANIFEST_SIZE, map_challenges := true },
    { elements := [⟨"PI_Z", g1_size, false, none⟩, ⟨"PI_Z_OMEGA", g1_size, false, none⟩],
      challenge := "separator", num_challenges := 3, map_challenges := false } ]

/-- The names of the polynomials whose shifted evaluation is an entry of the round "nu". -/
def shifted_names : List String :=
  ["w_1", "w_2", "w_3", "w_4", "s", "z_perm", "z_lookup",
   "table_value_1", "table_value_2", "table_value_3", "table_value_4"]

/-! ## Concrete composers used in the examples -/

/-- A small composer over the integers: two variables, no pending lists or arrays. -/
def small_composer : UltraComposer Int :=
  { num_gates := 5
    circuit_finalised := false
    variables_ := [1, 7]
    real_variable_index := [0, 0]
    real_variable_tags := [0, 0]
    current_tag := 0
    tau := []
    public_inputs := []
    failed := false
    err := ""
    lookup_tables := []
    range_lists := []
    ram_arrays := []
    rom_arrays := []
    recursive_proof_public_input_indices := []
    contains_recursive_proof := false }

/-- A composer on which a failure with the message "first" was recorded earlier. -/
def failed_composer : UltraComposer Int :=
  { small_composer with failed := true, err := "first" }

/-- The composer `small_composer` after `get_new_tag()` returned 1 and the class of
variable 0 was tagged with 1. -/
def tagged_composer : UltraComposer Int :=
  { (get_new_tag small_composer).2 with real_variable_tags := [1, 0] }

/-- A ROM record at `index`, read through the given witnesses in the given gate. -/
def rom_record_at (index witness gate_index : Nat) : RomRecord :=
  { index_witness := witness, value_column1_witness := witness + 1,
    value_column2_witness := witness + 2, index := index, record_witness := witness + 3,
    gate_index := gate_index }

/-- A RAM read record at `index` with the given `timestamp`. -/
def ram_record_at (index timestamp : Nat) : RamRecord :=
  { index_witness := 0, timestamp_witness := 0, value_witness := 0, index := index,
    timestamp := timestamp, access_type := AccessType.READ, record_witness := 0,
    gate_index := 0 }

/-- A range list with the given variable indices. -/
def range_list_of (target_range : Nat) (variable_indices : List Nat) : RangeList :=
  { target_range := target_range, range_tag := 1, tau_tag := 2,
    variable_indices := variable_indices }

/-- A composer with two range lists (of 5 and of 4 variables), one ROM array and one RAM
array. -/
def busy_composer : UltraComposer Int :=
  { small_composer with
    range_lists := [(3, range_list_of 3 [0, 1, 0, 1, 0]), (16383, range_list_of 16383 [1, 1, 0, 0])]
    rom_arrays := [{ state := [(0, 0), (UNINITIALIZED_MEMORY_RECORD, 0)], records := [] }]
    ram_arrays := [{ state := [1, UNINITIALIZED_MEMORY_RECORD], records := [], access_count := 1 }] }

/-- The composer `small_composer` with two public inputs. -/
def public_input_composer : UltraComposer Int :=
  { small_composer with public_inputs := [0, 1] }

/-- The composer `small_composer` with one range list that holds no variable index. -/
def empty_list_composer : UltraComposer Int :=
  { small_composer with range_lists := [] ++ (255, range_list_of 255 []) :: [] }

/-- A composer with one ROM array (two slots never set, two read records) and two RAM arrays,
the first accessed five times, the second once. -/
def memory_composer : UltraComposer Int :=
  { small_composer with
    rom_arrays :=
      [{ state := [(3, 0), (UNINITIALIZED_MEMORY_RECORD, 0), (UNINITIALIZED_MEMORY_RECORD, 0)],
         records := [rom_record_at 0 4 10, rom_record_at 0 8 11] }]
    ram_arrays :=
      [{ state := [5, 6, UNINITIALIZED_MEMORY_RECORD],
         records := [ram_record_at 0 0, ram_record_at 1 1, ram_record_at 0 2,
           ram_record_at 1 3, ram_record_at 0 4],
         access_count := 5 },
       { state := [7], records := [ram_record_at 0 0], access_count := 1 }] }

end plonk

/-! ## The Turbo circuit constructor and `CheckGetter` -/

namespace honk

/-- The enum `TurboSelectors` (without its count `NUM`). -/
inductive TurboSelectors where
  | QM | QC | Q1 | Q2 | Q3 | Q4 | Q5 | QARITH | QFIXED | QRANGE | QLOGIC
deriving DecidableEq, Repr

/-- The integer value of a `TurboSelectors` enumerator. -/
def TurboSelectors.value : TurboSelectors → Nat
  | QM => 0 | QC => 1 | Q1 => 2 | Q2 => 3 | Q3 => 4 | Q4 => 5 | Q5 => 6
  | QARITH => 7 | QFIXED => 8 | QRANGE => 9 | QLOGIC => 10

/-- The enum `waffle::EvaluationType` (declared outside the embedded header). -/
inductive EvaluationType where
  | NON_SHIFTED
  | SHIFTED
deriving DecidableEq, Repr

/-- The enum `waffle::PolynomialIndex` (declared outside the embedded header): the ids the
switch of `CheckGetter::get_value` handles, and `OTHER` for every id it does not handle. -/
inductive PolynomialIndex where
  | Q_1 | Q_2 | Q_3 | Q_4 | Q_5 | Q_M | Q_C | Q_ARITHMETIC | Q_LOGIC | Q_RANGE | Q_FIXED_BASE
  | W_1 | W_2 | W_3 | W_4 | OTHER
deriving DecidableEq, Repr

/-- The members of `TurboCircuitConstructor` (inherited from its base) that
`CheckGetter::get_value` reads. -/
structure TurboCircuitConstructor (F : Type) where
  num_gates : Nat
  selectors : List (List F)
  w_l : List Nat
  w_r : List Nat
  w_o : List Nat
  w_4 : List Nat
  variables_ : List F
  real_variable_index : List Nat

/-- The constant `CheckGetter::random_value = fr(0xdead)`. -/
def CheckGetter.random_value {F : Type} [CommRing F] : F := 0xdead

/-- The constant `CheckGetter::zero`. -/
def CheckGetter.zero {F : Type} [CommRing F] : F := 0

/-- The entry `composer.selectors[selector][actual_index]`; `none` past the end. -/
def selector_value {F : Type} (composer : TurboCircuitConstructor F) (selector : TurboSelectors)
    (actual_index : Nat) : Option F :=
  match composer.selectors[selector.value]? with
  | none => none
  | some column => column[actual_index]?

/-- The value `composer.get_variable_reference(wire[actual_index])`; `none` past the end of
the wire. The member function `get_variable_reference` of the base is taken as an argument. -/
def wire_value {F : Type}
    (get_variable_reference : TurboCircuitConstructor F → Nat → Option F)
    (composer : TurboCircuitConstructor F) (wire : List Nat) (actual_index : Nat) : Option F :=
  match wire[actual_index]? with
  | none => none
  | some variable_index => get_variable_reference composer variable_index

/-- The `switch (id)` of `CheckGetter::get_value` and the `return` after it. -/
def CheckGetter.get_value_switch {F : Type} [CommRing F]
    (get_variable_reference : TurboCircuitConstructor F → Nat → Option F)
    (id : PolynomialIndex) (composer : TurboCircuitConstructor F) (actual_index : Nat) :
    Option F :=
  match id with
  | PolynomialIndex.Q_1 => selector_value composer TurboSelectors.Q1 actual_index
  | PolynomialIndex.Q_2 => selector_value composer TurboSelectors.Q2 actual_index
  | PolynomialIndex.Q_3 => selector_value composer TurboSelectors.Q3 actual_index
  | PolynomialIndex.Q_4 => selector_value composer TurboSelectors.Q4 actual_index
  | PolynomialIndex.Q_5 => selector_value composer TurboSelectors.Q5 actual_index
  | PolynomialIndex.Q_M => selector_value composer TurboSelectors.QM actual_index
  | PolynomialIndex.Q_C => selector_value composer TurboSelectors.QC actual_index
  | PolynomialIndex.Q_ARITHMETIC => selector_value composer TurboSelectors.QARITH actual_index
  | PolynomialIndex.Q_LOGIC => selector_value composer TurboSelectors.QLOGIC actual_index
  | PolynomialIndex.Q_RANGE => selector_value composer TurboSelectors.QRANGE actual_index
  | PolynomialIndex.Q_FIXED_BASE => selector_value composer TurboSelectors.QFIXED actual_index
  | PolynomialIndex.W_1 => wire_value get_variable_reference composer composer.w_l actual_index
  | PolynomialIndex.W_2 => wire_value get_variable_reference composer composer.w_r actual_index
  | PolynomialIndex.W_3 => wire_value get_variable_reference composer composer.w_o actual_index
  | PolynomialIndex.W_4 => wire_value get_variable_reference composer composer.w_4 actual_index
  | PolynomialIndex.OTHER => some CheckGetter.random_value

/-- The member function `CheckGetter::get_value<value_type, id>(composer, index)`; `none`
when a vector is indexed past its end. -/
def CheckGetter.get_value {F : Type} [CommRing F]
    (get_variable_reference : TurboCircuitConstructor F → Nat → Option F)
    (value_type : EvaluationType) (id : PolynomialIndex)
    (composer : TurboCircuitConstructor F) (index : Nat) : Option F :=
  let actual_index := index
  match value_type with
  | EvaluationType.SHIFTED =>
    let actual_index := plonk.size_add actual_index 1
    if actual_index ≥ composer.num_gates then some CheckGetter.zero
    else CheckGetter.get_value_switch get_variable_reference id composer actual_index
  | EvaluationType.NON_SHIFTED =>
    CheckGetter.get_value_switch get_variable_reference id composer actual_index

/-- The value of a variable through its representative, `variables[real_variable_index[i]]`,
used for `get_variable_reference` in the examples. -/
def variable_through_representative {F : Type} (composer : TurboCircuitConstructor F)
    (variable_index : Nat) : Option F :=
  match composer.real_variable_index[variable_index]? with
  | none => none
  | some r => composer.variables_[r]?

/-- A constructor over the integers with three gates and three variables. -/
def three_gate_constructor : TurboCircuitConstructor Int :=
  { num_gates := 3
    selectors := [[1, 0, 2], [0, 0, 0], [1, 1, 5], [1, 1, 0], [1, 1, 0], [0, 0, 0], [0, 0, 0],
      [1, 1, 1], [0, 0, 0], [0, 0, 0], [0, 0, 0]]
    w_l := [0, 1, 2]
    w_r := [0, 1, 1]
    w_o := [0, 2, 0]
    w_4 := [0, 0, 0]
    variables_ := [0, 1, 9]
    real_variable_index := [0, 1, 2] }

end honk

/-! ## The standard circuit builder

The test `smt_polynomials.test.cpp` builds its circuit through `StandardCircuitBuilder`, whose
constructor is in the embedded `standard_circuit_constructor.hpp` and whose member functions
are defined outside the embedded sources. The gate table is kept as a list of rows. -/

namespace proof_system

/-- The argument of `create_add_gate`, in the order the test lists its members. -/
structure add_triple (F : Type) where
  a : Nat
  b : Nat
  c : Nat
  a_scaling : F
  b_scaling : F
  c_scaling : F
  const_scaling : F

/-- The argument of `create_mul_gate`, in the order the test lists its members. -/
structure mul_triple (F : Type) where
  a : Nat
  b : Nat
  c : Nat
  mul_scaling : F
  c_scaling : F
  const_scaling : F

/-- The argument of `create_poly_gate`, in the order the constructor lists its members
(`m, l, r, o, c`). -/
structure poly_triple (F : Type) where
  a : Nat
  b : Nat
  c : Nat
  q_m : F
  q_l : F
  q_r : F
  q_o : F
  q_c : F

/-- One row of the gate table: the wires `w_l, w_r, w_o` (variable indices) and the
selectors `q_m, q_1, q_2, q_3, q_c` of `standard_selector_names`. -/
structure GateRow (F : Type) where
  w_l : Nat
  w_r : Nat
  w_o : Nat
  q_m : F
  q_1 : F
  q_2 : F
  q_3 : F
  q_c : F

/-- The polynomial identity of a row under an assignment `w` of values to variable indices:
`q_m * a * b + q_1 * a + q_2 * b + q_3 * c + q_c = 0`. -/
def GateRow.holds {F : Type} [CommRing F] (g : GateRow F) (w : Nat → F) : Prop :=
  g.q_m * w g.w_l * w g.w_r + g.q_1 * w g.w_l + g.q_2 * w g.w_r + g.q_3 * w g.w_o + g.q_c = 0

instance {F : Type} [CommRing F] [DecidableEq F] (g : GateRow F) (w : Nat → F) :
    Decidable (g.holds w) := by
  unfold GateRow.holds
  infer_instance

/-- The members of `StandardCircuitBuilder`: the variable store, the names given to
variables, the public inputs, the gate table, the copy constraints recorded by
`assert_equal`, the constant registry and the indices of the constants 0 and 1. -/
structure StandardCircuitBuilder (F : Type) where
  variables_ : List F
  variable_names : List (Nat × String)
  public_inputs : List Nat
  gates : List (GateRow F)
  copy_constraints : List (Nat × Nat)
  constant_variable_indices : List (F × Nat)
  zero_idx : Nat
  one_idx : Nat

/-- The member `num_gates`: the number of rows of the gate table. -/
def StandardCircuitBuilder.num_gates {F : Type} (builder : StandardCircuitBuilder F) : Nat :=
  builder.gates.length

/-- Modelled from the spec: `add_variable` is defined outside the embedded sources; by the spec
(`allocate(value) -> VariableIndex`) it appends the value as a new variable and returns its
index. -/
def StandardCircuitBuilder.add_variable {F : Type} (builder : StandardCircuitBuilder F)
    (value : F) : Nat × StandardCircuitBuilder F :=
  (builder.variables_.length, { builder with variables_ := builder.variables_ ++ [value] })

/-- Modelled from the spec: `add_public_variable` is defined outside the embedded sources; it
allocates the variable and records its index among the public inputs. -/
def StandardCircuitBuilder.add_public_variable {F : Type} (builder : StandardCircuitBuilder F)
    (value : F) : Nat × StandardCircuitBuilder F :=
  let r := builder.add_variable value
  (r.1, { r.2 with public_inputs := r.2.public_inputs ++ [r.1] })

/-- Modelled from the spec: `set_variable_name` is defined outside the embedded sources; it
records the name of the variable (most recent first). -/
def StandardCircuitBuilder.set_variable_name {F : Type} (builder : StandardCircuitBuilder F)
    (index : Nat) (name : String) : StandardCircuitBuilder F :=
  { builder with variable_names := (index, name) :: builder.variable_names }

/-- Modelled from the spec: `assert_equal` is defined outside the embedded sources; by the spec
it records the copy constraint that the two variables hold equal values. -/
def StandardCircuitBuilder.assert_equal {F : Type} (builder : StandardCircuitBuilder F)
    (a_idx b_idx : Nat) : StandardCircuitBuilder F :=
  { builder with copy_constraints := builder.copy_constraints ++ [(a_idx, b_idx)] }

/-- Modelled from the spec: `create_poly_gate` is defined outside the embedded sources; by the
spec it appends one row whose selectors are the coefficients the caller supplies. -/
def StandardCircuitBuilder.create_poly_gate {F : Type} (builder : StandardCircuitBuilder F)
    (g : poly_triple F) : StandardCircuitBuilder F :=
  { builder with gates := builder.gates ++
      [{ w_l := g.a, w_r := g.b, w_o := g.c, q_m := g.q_m, q_1 := g.q_l, q_2 := g.q_r,
         q_3 := g.q_o, q_c := g.q_c }] }

/-- Modelled from the spec: `create_mul_gate` is defined outside the embedded sources; it
appends the row `mul_scaling * a * b + c_scaling * c + const_scaling = 0`. -/
def StandardCircuitBuilder.create_mul_gate {F : Type} [CommRing F]
    (builder : StandardCircuitBuilder F) (g : mul_triple F) : StandardCircuitBuilder F :=
  { builder with gates := builder.gates ++
      [{ w_l := g.a, w_r := g.b, w_o := g.c, q_m := g.mul_scaling, q_1 := 0, q_2 := 0,
         q_3 := g.c_scaling, q_c := g.const_scaling }] }

/-- Modelled from the spec: `create_add_gate` is defined outside the embedded sources; it
appends the row `a_scaling * a + b_scaling * b + c_scaling * c + const_scaling = 0`. -/
def StandardCircuitBuilder.create_add_gate {F : Type} [CommRing F]
    (builder : StandardCircuitBuilder F) (g : add_triple F) : StandardCircuitBuilder F :=
  { builder with gates := builder.gates ++
      [{ w_l := g.a, w_r := g.b, w_o := g.c, q_m := 0, q_1 := g.a_scaling, q_2 := g.b_scaling,
         q_3 := g.c_scaling, q_c := g.const_scaling }] }

/-- Modelled from the spec: `put_constant_variable` is defined outside the embedded sources; by
the spec the constant registry maps a value to the variable already constrained equal to it
by a dedicated gate, and a value is never constrained twice. The dedicated gate is the row
`1 * variable - value = 0`. -/
def StandardCircuitBuilder.put_constant_variable {F : Type} [CommRing F] [DecidableEq F]
    (builder : StandardCircuitBuilder F) (value : F) : Nat × StandardCircuitBuilder F :=
  match builder.constant_variable_indices.find? (fun entry => entry.1 = value) with
  | some entry => (entry.2, builder)
  | none =>
    let r := builder.add_variable value
    let fixed := r.2.create_poly_gate
      { a := r.1, b := r.2.zero_idx, c := r.2.zero_idx, q_m := 0, q_l := 1, q_r := 0, q_o := 0,
        q_c := -value }
    (r.1, { fixed with
      constant_variable_indices := fixed.constant_variable_indices ++ [(value, r.1)] })

/-- The builder before the body of the constructor runs: empty tables. -/
def StandardCircuitBuilder.empty {F : Type} : StandardCircuitBuilder F :=
  { variables_ := [], variable_names := [], public_inputs := [], gates := [],
    copy_constraints := [], constant_variable_indices := [], zero_idx := 0, one_idx := 0 }

/-- The constructor `StandardCircuitConstructor_::StandardCircuitConstructor_`: the constants
0 and 1 are put, then the gate `{ one_idx, one_idx, one_idx, 1, 1, 1, 1, -4 }` is created. -/
def StandardCircuitBuilder.new {F : Type} [CommRing F] [DecidableEq F] :
    StandardCircuitBuilder F :=
  let r0 := (StandardCircuitBuilder.empty : StandardCircuitBuilder F).put_constant_variable 0
  let b0 := { r0.2 with zero_idx := r0.1 }
  let r1 := b0.put_constant_variable 1
  let b1 := { r1.2 with one_idx := r1.1 }
  b1.create_poly_gate
    { a := b1.one_idx, b := b1.one_idx, c := b1.one_idx, q_m := 1, q_l := 1, q_r := 1,
      q_o := 1, q_c := -4 }

/-- The polynomial identity of a `poly_triple` under an assignment `w`, as the comment of the
constructors writes it (`m, l, r, o, c`): `q_m * a * b + q_l * a + q_r * b + q_o * c + q_c = 0`. -/
def poly_triple.holds {F : Type} [CommRing F] (g : poly_triple F) (w : Nat → F) : Prop :=
  g.q_m * w g.a * w g.b + g.q_l * w g.a + g.q_r * w g.b + g.q_o * w g.c + g.q_c = 0

/-- The argument `{ one_idx, one_idx, one_idx, 1, 1, 1, 1, -4 }` that the constructors of
`StandardCircuitConstructor_` and `TurboCircuitConstructor` pass to `create_poly_gate`. -/
def constructor_gate {F : Type} [CommRing F] (one_idx : Nat) : poly_triple F :=
  { a := one_idx, b := one_idx, c := one_idx, q_m := 1, q_l := 1, q_r := 1, q_o := 1, q_c := -4 }

/-- The row of the gate table that `create_poly_gate` appends for a `poly_triple`. -/
def poly_triple.row {F : Type} (g : poly_triple F) : GateRow F :=
  { w_l := g.a, w_r := g.b, w_o := g.c, q_m := g.q_m, q_1 := g.q_l, q_2 := g.q_r,
    q_3 := g.q_o, q_c := g.q_c }

end proof_system

/-! ## The polynomial evaluation test -/

namespace smt_polynomials

open proof_system

/-- The modulus `r` of the test: the order of the scalar field `fr`. -/
def r : Nat := 21888242871839275222246405745257275088548364400416034343698204186575808495617

/-- The locals of the first loop of `polynomial_evaluation_circuit`. -/
structure CoeffLoop (F : Type) where
  builder : StandardCircuitBuilder F
  coeffs : List F
  idxs : List Nat

/-- Body of the first loop of `polynomial_evaluation_circuit`; `random_element i` is the
value the `i`-th call of `fr::random_element()` returns. -/
def coeff_loop_body {F : Type} (random_element : Nat → F) (pub_coeffs : Bool)
    (st : CoeffLoop F) (i : Nat) : CoeffLoop F :=
  let tmp_coeff := random_element i
  let added :=
    if pub_coeffs then st.builder.add_public_variable tmp_coeff
    else st.builder.add_variable tmp_coeff
  { builder := added.2.set_variable_name added.1 ("coeff_" ++ toString i)
    coeffs := st.coeffs ++ [tmp_coeff]
    idxs := st.idxs ++ [added.1] }

/-- The locals of the second loop of `polynomial_evaluation_circuit`. -/
structure EvalLoop (F : Type) where
  builder : StandardCircuitBuilder F
  res : F
  res_idx : Nat

/-- Body of the second loop of `polynomial_evaluation_circuit`, for the `i`-th coefficient
`coeff.1 = coeffs[i]` and its variable `coeff.2 = idxs[i]`. -/
def eval_loop_body {F : Type} [CommRing F] (z_idx : Nat) (z : F)
    (st : EvalLoop F) (coeff : F × Nat) : EvalLoop F :=
  let res := st.res * z
  let mul := st.builder.add_variable res
  let b1 := mul.2.create_mul_gate
    { a := st.res_idx, b := z_idx, c := mul.1, mul_scaling := 1, c_scaling := -1,
      const_scaling := 0 }
  let res := res + coeff.1
  let add := b1.add_variable res
  let b2 := add.2.create_add_gate
    { a := mul.1, b := coeff.2, c := add.1, a_scaling := 1, b_scaling := 1, c_scaling := -1,
      const_scaling := 0 }
  { builder := b2, res := res, res_idx := add.1 }

/-- The locals of `polynomial_evaluation_circuit` after its first loop. -/
def coeff_loop {F : Type} [CommRing F] [DecidableEq F] (random_element : Nat → F) (n : Nat)
    (pub_coeffs : Bool) : CoeffLoop F :=
  (List.range n).foldl (coeff_loop_body random_element pub_coeffs)
    { builder := StandardCircuitBuilder.new, coeffs := [], idxs := [] }

/-- The locals of `polynomial_evaluation_circuit` after its second loop, which pairs
`coeffs[i]` with `idxs[i]` for `i < n` (both vectors have `n` entries). -/
def eval_loop {F : Type} [CommRing F] [DecidableEq F] (random_element : Nat → F) (n : Nat)
    (pub_coeffs : Bool) : EvalLoop F :=
  let st := coeff_loop random_element n pub_coeffs
  let z : F := 10
  let added := st.builder.add_variable z
  let builder := added.2.set_variable_name added.1 "point"
  let res : F := 0
  let res_idx := builder.zero_idx
  let builder := builder.assert_equal res_idx 0
  (st.coeffs.zip st.idxs).foldl (eval_loop_body added.1 z)
    { builder := builder, res := res, res_idx := res_idx }

/-- The function `polynomial_evaluation_circuit(n, pub_coeffs)`: the builder whose circuit it
exports. -/
def polynomial_evaluation_circuit {F : Type} [CommRing F] [DecidableEq F]
    (random_element : Nat → F) (n : Nat) (pub_coeffs : Bool) : StandardCircuitBuilder F :=
  let st := eval_loop random_element n pub_coeffs
  st.builder.set_variable_name st.res_idx "result"

/-- The lookup `c[name]` of the SMT circuit (defined outside the embedded sources): "zero" and
"one" are the variables of the constants 0 and 1, any other name is the variable that was
given this name. -/
def circuit_variable {F : Type} (c : StandardCircuitBuilder F) (name : String) : Nat :=
  if name = "zero" then c.zero_idx
  else if name = "one" then c.one_idx
  else
    match c.variable_names.find? (fun entry => entry.2 = name) with
    | some entry => entry.1
    | none => 0

/-- The constraints the SMT circuit puts on an assignment `w`: every row of the gate table
holds, copy-constrained variables are equal, and the variables "zero" and "one" are 0 and 1. -/
def satisfied_by {F : Type} [CommRing F] (c : StandardCircuitBuilder F) (w : Nat → F) : Prop :=
  (∀ g ∈ c.gates, g.holds w) ∧ (∀ p ∈ c.copy_constraints, w p.1 = w p.2) ∧
  w (circuit_variable c "zero") = 0 ∧ w (circuit_variable c "one") = 1

/-- The term `ev` that `polynomial_evaluation(c, n, is_correct)` returns, under an
assignment `w`. -/
def polynomial_evaluation {F : Type} [CommRing F] (c : StandardCircuitBuilder F) (w : Nat → F)
    (n : Nat) (is_correct : Bool) : F :=
  let coeffs := (List.range n).map (fun i => w (circuit_variable c ("coeff_" ++ toString i)))
  let point := w (circuit_variable c "point")
  let ev := if is_correct then w (circuit_variable c "zero") else w (circuit_variable c "one")
  coeffs.foldl (fun ev coeff => ev * point + coeff) ev

/-- The constraint `result != ev` that `polynomial_evaluation` adds to the solver. -/
def result_differs {F : Type} [CommRing F] (c : StandardCircuitBuilder F) (w : Nat → F)
    (n : Nat) (is_correct : Bool) : Prop :=
  w (circuit_variable c "result") ≠ polynomial_evaluation c w n is_correct

/-- The pairs of rows (multiplication row, addition row) that the second loop of
`polynomial_evaluation_circuit` is expected to append, one pair per coefficient variable:
starting from the variable `res_idx` and the next free index `next`, the pair for a
coefficient is `res * point - mul = 0` with `mul = next` and `mul + coeff - add = 0` with
`add = next + 1`, which is the `res_idx` of the following pair. -/
def evaluation_gate_pairs {F : Type} [CommRing F] (z_idx : Nat) :
    Nat → Nat → List Nat → List (GateRow F × GateRow F)
  | _, _, [] => []
  | res_idx, next, coeff_idx :: rest =>
    (GateRow.mk res_idx z_idx next 1 0 0 (-1) 0,
      GateRow.mk next coeff_idx (next + 1) 0 1 1 (-1) 0)
      :: evaluation_gate_pairs z_idx (next + 1) (next + 2) rest

/-- The assignment that gives every variable the value the builder stored for it. -/
def builder_assignment {F : Type} [CommRing F] (c : StandardCircuitBuilder F) : Nat → F :=
  fun i => c.variables_.getD i 0

end smt_polynomials

namespace plonk

/-! ## Gate accounting: theorems -/

theorem size_add_eq (a b : Nat) : size_add a b = (a + b) % 2 ^ 64 := rfl

theorem range_loop_foldl (gate_width : Nat) (lists : List (Nat × RangeList)) (a : Nat) :
    lists.foldl (range_loop_body gate_width) (a % 2 ^ 64) =
      (a + (lists.map (fun l =>
        range_list_padded_size gate_width l.2.variable_indices.length / gate_width + 1)).sum)
        % 2 ^ 64 := by
  induction lists generalizing a with
  | nil => simp
  | cons x xs ih =>
    have hstep : range_loop_body gate_width (a % 2 ^ 64) x =
        (a + (range_list_padded_size gate_width x.2.variable_indices.length / gate_width + 1))
          % 2 ^ 64 := by
      simp only [range_loop_body, size_add_eq]
      omega
    rw [List.foldl_cons, hstep, ih]
    simp only [List.map_cons, List.sum_cons]
    congr 1
    omega

/-- C1: `get_num_gates()` returns exactly `num_gates` when `circuit_finalised` is set, and
otherwise the (64-bit) sum `count + romcount + ramcount + rangecount` of the four values
produced by `get_num_gates_split_into_components` on the same state, where `count = num_gates`;
when the sum fits in 64 bits the returned value is the plain sum. -/
theorem get_num_gates_eq_components {F : Type} (gate_width : Nat) (c : UltraComposer F) :
    (get_num_gates_split_into_components gate_width c).count = c.num_gates ∧
    (c.circuit_finalised = true → get_num_gates gate_width c = c.num_gates) ∧
    (c.circuit_finalised = false →
      get_num_gates gate_width c =
        ((get_num_gates_split_into_components gate_width c).count
          + (get_num_gates_split_into_components gate_width c).romcount
          + (get_num_gates_split_into_components gate_width c).ramcount
          + (get_num_gates_split_into_components gate_width c).rangecount) % 2 ^ 64) ∧
    (c.circuit_finalised = false →
      (get_num_gates_split_into_components gate_width c).count
          + (get_num_gates_split_into_components gate_width c).romcount
          + (get_num_gates_split_into_components gate_width c).ramcount
          + (get_num_gates_split_into_components gate_width c).rangecount < 2 ^ 64 →
      get_num_gates gate_width c =
        (get_num_gates_split_into_components gate_width c).count
          + (get_num_gates_split_into_components gate_width c).romcount
          + (get_num_gates_split_into_components gate_width c).ramcount
          + (get_num_gates_split_into_components gate_width c).rangecount) := by
  refine ⟨rfl, ?_, ?_, ?_⟩
  · intro h
    simp [get_num_gates, h]
  · intro h
    simp only [get_num_gates, h, size_add_eq]
    simp
  · intro h hlt
    simp only [get_num_gates, h, size_add_eq]
    simp only [Bool.false_eq_true, if_false]
    omega

/-- C2: for a range list of `n` entries with `n + gate_width < 2 ^ 64` (no `size_t` overflow),
the padded size is a multiple of `gate_width`; when `n ≠ gate_width` it is the smallest
multiple of `gate_width` that is `≥ n`, and when `n = gate_width` it is `2 * gate_width`. -/
theorem range_list_padded_size_spec (gate_width n : Nat) (hw : 0 < gate_width)
    (hn : n + gate_width < 2 ^ 64) :
    gate_width ∣ range_list_padded_size gate_width n ∧
    (n ≠ gate_width →
      n ≤ range_list_padded_size gate_width n ∧
      ∀ m, gate_width ∣ m → n ≤ m → range_list_padded_size gate_width n ≤ m) ∧
    (n = gate_width → range_list_padded_size gate_width n = 2 * gate_width) := by
  have hmodlt : n % gate_width < gate_width := Nat.mod_lt _ hw
  have hdiv : gate_width * (n / gate_width) + n % gate_width = n := Nat.div_add_mod n gate_width
  by_cases hng : n = gate_width
  · subst hng
    have hp : range_list_padded_size n n = 2 * n := by
      simp only [range_list_padded_size, range_list_padding, size_add_eq]
      simp only [Nat.mod_self, Nat.sub_zero, if_true, Nat.zero_add]
      rw [Nat.mod_eq_of_lt (by omega : n < 2 ^ 64)]
      omega
    refine ⟨?_, fun h => absurd rfl h, fun _ => hp⟩
    rw [hp]
    exact Dvd.intro_left 2 rfl
  · have hpad : range_list_padded_size gate_width n =
        n + (gate_width - n % gate_width) % gate_width := by
      simp only [range_list_padded_size, range_list_padding, size_add_eq, hng, if_false]
      have : (gate_width - n % gate_width) % gate_width < gate_width := Nat.mod_lt _ hw
      omega
    by_cases hr : n % gate_width = 0
    · have hp : range_list_padded_size gate_width n = n := by
        rw [hpad, hr]
        simp
      refine ⟨?_, fun _ => ⟨?_, ?_⟩, fun h => absurd h hng⟩
      · rw [hp]
        exact Nat.dvd_of_mod_eq_zero hr
      · omega
      · intro m _ hm
        omega
    · have hsub : (gate_width - n % gate_width) % gate_width = gate_width - n % gate_width :=
        Nat.mod_eq_of_lt (by omega)
      have hp : range_list_padded_size gate_width n = gate_width * (n / gate_width + 1) := by
        rw [hpad, hsub, Nat.mul_add, Nat.mul_one]
        omega
      refine ⟨?_, fun _ => ⟨?_, ?_⟩, fun h => absurd h hng⟩
      · rw [hp]
        exact Dvd.intro _ rfl
      · rw [hp, Nat.mul_add, Nat.mul_one]
        omega
      · rintro m ⟨k, rfl⟩ hm
        rw [hp]
        apply Nat.mul_le_mul_left
        by_contra hk
        have hk2 : k ≤ n / gate_width := by omega
        have := Nat.mul_le_mul_left gate_width hk2
        omega

/-- C3: the `rangecount` produced by `get_num_gates_split_into_components` is the sum, over
all range lists, of `padded_size / gate_width + 1` (reduced modulo `2 ^ 64` as every `size_t`;
the plain sum whenever that sum fits in 64 bits). -/
theorem rangecount_eq_sum {F : Type} (gate_width : Nat) (c : UltraComposer F) :
    (get_num_gates_split_into_components gate_width c).rangecount =
      (c.range_lists.map (fun l =>
        range_list_padded_size gate_width l.2.variable_indices.length / gate_width + 1)).sum
        % 2 ^ 64 ∧
    ((c.range_lists.map (fun l =>
        range_list_padded_size gate_width l.2.variable_indices.length / gate_width + 1)).sum
        < 2 ^ 64 →
      (get_num_gates_split_into_components gate_width c).rangecount =
        (c.range_lists.map (fun l =>
          range_list_padded_size gate_width l.2.variable_indices.length / gate_width + 1)).sum) := by
  have h := range_loop_foldl gate_width c.range_lists 0
  simp only [Nat.zero_mod, Nat.zero_add] at h
  refine ⟨h, fun hlt => ?_⟩
  show c.range_lists.foldl (range_loop_body gate_width) 0 = _
  rw [h]
  exact Nat.mod_eq_of_lt hlt

/-- Witness for C1 on a composer with pending range lists, a ROM and a RAM array:
`5 + 3 + 4 + 6 = 18` gates before finalisation, `num_gates = 5` once finalised. -/
theorem get_num_gates_eq_components_witness :
    busy_composer.circuit_finalised = false ∧
    get_num_gates_split_into_components 4 busy_composer =
      { count := 5, rangecount := 6, romcount := 3, ramcount := 4 } ∧
    get_num_gates 4 busy_composer = 18 ∧
    get_num_gates 4 { busy_composer with circuit_finalised := true } = 5 :=
  ⟨rfl, by decide,
   ((get_num_gates_eq_components 4 busy_composer).2.2.2 rfl (by decide)).trans (by decide),
   (get_num_gates_eq_components 4 { busy_composer with circuit_finalised := true }).2.1 rfl⟩

/-- Witness for C2 at `gate_width = 4`: five entries are padded to 8, four entries to 8. -/
theorem range_list_padded_size_spec_witness :
    range_list_padded_size 4 5 = 8 ∧ range_list_padded_size 4 4 = 2 * 4 ∧
    4 ∣ range_list_padded_size 4 5 :=
  ⟨by decide,
   (range_list_padded_size_spec 4 4 (by decide) (by decide)).2.2 rfl,
   (range_list_padded_size_spec 4 5 (by decide) (by decide)).1⟩

/-- Witness for C3: two range lists of 5 and 4 variables give `(8 / 4 + 1) + (8 / 4 + 1) = 6`. -/
theorem rangecount_eq_sum_witness :
    (get_num_gates_split_into_components 4 busy_composer).rangecount = (8 / 4 + 1) + (8 / 4 + 1) :=
  ((rangecount_eq_sum 4 busy_composer).2 (by decide)).trans (by decide)

/-! ## Orderings of the memory records: theorems -/

theorem is_sorted_pairwise {α : Type} (comp : α → α → Bool)
    (htrans : ∀ x y z, comp y x = false → comp z y = false → comp z x = false) :
    ∀ l : List α, is_sorted comp l = true → l.Pairwise (fun a b => comp b a = false) := by
  intro l
  induction l with
  | nil => intro _; exact List.Pairwise.nil
  | cons a l ih =>
    intro h
    cases l with
    | nil => exact List.pairwise_singleton _ _
    | cons b rest =>
      simp only [is_sorted, Bool.and_eq_true, Bool.not_eq_true'] at h
      have hp := ih h.2
      refine List.Pairwise.cons ?_ hp
      intro x hx
      rcases List.mem_cons.mp hx with rfl | hx
      · exact h.1
      · exact htrans a b x h.1 (List.rel_of_pairwise_cons hp hx)

theorem ram_operator_lt_iff (a b : RamRecord) :
    a.operator_lt b = true ↔
      a.index < b.index ∨ (a.index = b.index ∧ a.timestamp < b.timestamp) := by
  simp [RamRecord.operator_lt]

theorem ram_operator_lt_eq_false_iff (a b : RamRecord) :
    b.operator_lt a = false ↔
      a.index < b.index ∨ (a.index = b.index ∧ a.timestamp ≤ b.timestamp) := by
  rw [← Bool.not_eq_true, ram_operator_lt_iff]
  omega

theorem rom_operator_lt_iff (a b : RomRecord) :
    a.operator_lt b = true ↔ a.index < b.index := by
  simp [RomRecord.operator_lt]

theorem rom_operator_lt_eq_false_iff (a b : RomRecord) :
    b.operator_lt a = false ↔ a.index ≤ b.index := by
  rw [← Bool.not_eq_true, rom_operator_lt_iff]
  omega

/-- C4: `RamRecord::operator<` is the lexicographic order on `(index, timestamp)`, and every
list of records sorted with it is non-decreasing in `index` and, among records of equal
`index`, non-decreasing in `timestamp`. -/
theorem ram_operator_lt_lexicographic :
    (∀ a b : RamRecord, a.operator_lt b = true ↔
      a.index < b.index ∨ (a.index = b.index ∧ a.timestamp < b.timestamp)) ∧
    (∀ l : List RamRecord, is_sorted RamRecord.operator_lt l = true →
      l.Pairwise (fun a b => a.index ≤ b.index) ∧
      l.Pairwise (fun a b => a.index = b.index → a.timestamp ≤ b.timestamp)) := by
  refine ⟨ram_operator_lt_iff, fun l hl => ?_⟩
  have hp := is_sorted_pairwise RamRecord.operator_lt (by
    intro x y z hxy hyz
    rw [ram_operator_lt_eq_false_iff] at hxy hyz ⊢
    omega) l hl
  constructor
  · refine hp.imp ?_
    intro a b hab
    rw [ram_operator_lt_eq_false_iff] at hab
    omega
  · refine hp.imp ?_
    intro a b hab
    rw [ram_operator_lt_eq_false_iff] at hab
    omega

/-- C5: `RomRecord::operator<` reads only the `index` fields and is a strict weak ordering:
irreflexive, transitive, two records are equivalent (neither less than the other) exactly when
their `index` fields are equal, so equivalence is transitive; every list sorted with it is
non-decreasing in `index`. -/
theorem rom_operator_lt_strict_weak :
    (∀ a b : RomRecord, a.operator_lt b = true ↔ a.index < b.index) ∧
    (∀ a : RomRecord, a.operator_lt a = false) ∧
    (∀ a b c : RomRecord, a.operator_lt b = true → b.operator_lt c = true →
      a.operator_lt c = true) ∧
    (∀ a b : RomRecord, (a.operator_lt b = false ∧ b.operator_lt a = false) ↔
      a.index = b.index) ∧
    (∀ l : List RomRecord, is_sorted RomRecord.operator_lt l = true →
      l.Pairwise (fun a b => a.index ≤ b.index)) := by
  refine ⟨rom_operator_lt_iff, ?_, ?_, ?_, ?_⟩
  · intro a
    simp [RomRecord.operator_lt]
  · intro a b c hab hbc
    rw [rom_operator_lt_iff] at hab hbc ⊢
    omega
  · intro a b
    rw [rom_operator_lt_eq_false_iff, rom_operator_lt_eq_false_iff]
    omega
  · intro l hl
    have hp := is_sorted_pairwise RomRecord.operator_lt (by
      intro x y z hxy hyz
      rw [rom_operator_lt_eq_false_iff] at hxy hyz ⊢
      omega) l hl
    refine hp.imp ?_
    intro a b hab
    rw [rom_operator_lt_eq_false_iff] at hab
    exact hab

/-- Witness for C4: a list sorted with `RamRecord::operator<`. -/
theorem ram_operator_lt_lexicographic_witness :
    is_sorted RamRecord.operator_lt
      [ram_record_at 0 2, ram_record_at 0 5, ram_record_at 1 1, ram_record_at 3 0] = true ∧
    [ram_record_at 0 2, ram_record_at 0 5, ram_record_at 1 1, ram_record_at 3 0].Pairwise
      (fun a b => a.index = b.index → a.timestamp ≤ b.timestamp) ∧
    (ram_record_at 0 5).operator_lt (ram_record_at 1 1) = true :=
  ⟨by decide,
   (ram_operator_lt_lexicographic.2 _ (by decide)).2,
   (ram_operator_lt_lexicographic.1 _ _).2 (Or.inl (by decide))⟩

/-- Witness for C5: records with equal `index` and different witnesses are equivalent, and a
list sorted with `RomRecord::operator<` is non-decreasing in `index`. -/
theorem rom_operator_lt_strict_weak_witness :
    ((rom_record_at 2 10 0).operator_lt (rom_record_at 2 20 7) = false ∧
      (rom_record_at 2 20 7).operator_lt (rom_record_at 2 10 0) = false) ∧
    [rom_record_at 0 5 1, rom_record_at 2 20 7, rom_record_at 2 10 0].Pairwise
      (fun a b => a.index ≤ b.index) :=
  ⟨(rom_operator_lt_strict_weak.2.2.2.1 _ _).2 rfl,
   rom_operator_lt_strict_weak.2.2.2.2 _ (by decide)⟩

/-! ## Tags: theorems -/

theorem assign_tag_of_tagged {F : Type} (DUMMY_TAG : Nat) (c : UltraComposer F)
    (v r t : Nat) (hr : c.real_variable_index[v]? = some r)
    (ht : c.real_variable_tags[r]? = some t) (hne : t ≠ DUMMY_TAG) (tag : Nat) :
    assign_tag DUMMY_TAG c v tag = Outcome.assertion_failed c := by
  unfold assign_tag
  by_cases h : tag ≤ c.current_tag
  · simp [h, hr, ht, hne]
  · simp [h]

theorem assign_tag_ok_inv {F : Type} (DUMMY_TAG : Nat) (c c1 : UltraComposer F)
    (v tag : Nat) (h : assign_tag DUMMY_TAG c v tag = Outcome.ok c1) :
    tag ≤ c.current_tag ∧
    ∃ r, c.real_variable_index[v]? = some r ∧ c.real_variable_tags[r]? = some DUMMY_TAG ∧
      c1 = { c with real_variable_tags := c.real_variable_tags.set r tag } := by
  unfold assign_tag at h
  by_cases hle : tag ≤ c.current_tag
  · refine ⟨hle, ?_⟩
    simp only [hle, not_true_eq_false, if_false] at h
    cases hr : c.real_variable_index[v]? with
    | none => simp [hr] at h
    | some r =>
      simp only [hr] at h
      cases ht : c.real_variable_tags[r]? with
      | none => simp [ht] at h
      | some t =>
        simp only [ht] at h
        by_cases hd : t = DUMMY_TAG
        · subst hd
          simp only [not_true_eq_false, if_false] at h
          injection h with h
          exact ⟨r, rfl, ht, h.symm⟩
        · simp [hd] at h
  · simp [hle] at h

/-- C6: when the class of a variable (the entry of `real_variable_tags` at
`real_variable_index[variable_index]`) carries a tag other than `DUMMY_TAG`, `assign_tag`
fails on a violated assertion for every tag argument, the same tag included, with the
composer (and so the tag table) as it was; in particular, after a successful `assign_tag` of
a tag other than `DUMMY_TAG`, `assign_tag` on any variable with the same representative
fails. -/
theorem assign_tag_fails_on_tagged_class {F : Type} (DUMMY_TAG : Nat) :
    (∀ (c : UltraComposer F) (v r t : Nat), c.real_variable_index[v]? = some r →
      c.real_variable_tags[r]? = some t → t ≠ DUMMY_TAG →
      ∀ tag, assign_tag DUMMY_TAG c v tag = Outcome.assertion_failed c) ∧
    (∀ (c c1 : UltraComposer F) (v tag : Nat), tag ≠ DUMMY_TAG →
      assign_tag DUMMY_TAG c v tag = Outcome.ok c1 →
      ∀ v2, c.real_variable_index[v2]? = c.real_variable_index[v]? →
      ∀ tag2, assign_tag DUMMY_TAG c1 v2 tag2 = Outcome.assertion_failed c1) := by
  refine ⟨fun c v r t hr ht hne tag => assign_tag_of_tagged DUMMY_TAG c v r t hr ht hne tag, ?_⟩
  intro c c1 v tag hne hok v2 hv2 tag2
  obtain ⟨_, r, hr, ht, rfl⟩ := assign_tag_ok_inv DUMMY_TAG c c1 v tag hok
  have hlt : r < c.real_variable_tags.length := by
    rcases List.getElem?_eq_some_iff.mp ht with ⟨h, _⟩
    exact h
  refine assign_tag_of_tagged DUMMY_TAG _ v2 r tag ?_ ?_ hne tag2
  · show c.real_variable_index[v2]? = some r
    rw [hv2, hr]
  · show (c.real_variable_tags.set r tag)[r]? = some tag
    simp [hlt]

/-- Witness for C6 with `DUMMY_TAG = 0`: after `get_new_tag` returned 1, tagging variable 0
with 1 succeeds; tagging variable 1 (same representative) with 1 again, or with another
tag, then fails and the tag table stays `[1, 0]`. -/
theorem assign_tag_fails_on_tagged_class_witness :
    assign_tag 0 (get_new_tag small_composer).2 0 1 = Outcome.ok tagged_composer ∧
    tagged_composer.real_variable_tags = [1, 0] ∧
    assign_tag 0 tagged_composer 1 1 = Outcome.assertion_failed tagged_composer ∧
    assign_tag 0 tagged_composer 1 0 = Outcome.assertion_failed tagged_composer :=
  ⟨rfl, rfl,
   (assign_tag_fails_on_tagged_class 0).2 (get_new_tag small_composer).2 tagged_composer 0 1
     (by decide) rfl 1 rfl 1,
   (assign_tag_fails_on_tagged_class 0).1 tagged_composer 1 0 1 rfl rfl (by decide) 0⟩

theorem tag_call_run_spec {F : Type} (c : UltraComposer F) (call : TagCall)
    (h : c.current_tag + 1 < 2 ^ 32) :
    (call.run c).1 = c.current_tag + 1 ∧ (call.run c).2.current_tag = c.current_tag + 1 := by
  have hm : (c.current_tag + 1) % 2 ^ 32 = c.current_tag + 1 := Nat.mod_eq_of_lt h
  cases call <;>
    simp only [TagCall.run, plonk.get_new_tag, plonk.create_tag, u32_incr, UINT32_MOD, hm,
      and_self]

theorem run_tag_calls_current_tag_lt {F : Type} (calls : List TagCall) :
    ∀ (c : UltraComposer F) (tag : Nat), tag ∉ (run_tag_calls c calls).1 →
      c.current_tag < tag → tag < 2 ^ 32 → (run_tag_calls c calls).2.current_tag < tag := by
  induction calls with
  | nil => intro c tag _ h _; exact h
  | cons call rest ih =>
    intro c tag hnot habove hlt
    obtain ⟨h1, h2⟩ := tag_call_run_spec c call (by omega)
    simp only [run_tag_calls, List.mem_cons, not_or] at hnot
    refine ih (call.run c).2 tag hnot.2 ?_ hlt
    have hne : tag ≠ c.current_tag + 1 := by
      rw [← h1]
      exact hnot.1
    omega

theorem run_tag_calls_spec {F : Type} (calls : List TagCall) :
    ∀ (c : UltraComposer F), c.current_tag + calls.length < 2 ^ 32 →
      (run_tag_calls c calls).1
          = (List.range calls.length).map (fun i => c.current_tag + 1 + i) ∧
      (run_tag_calls c calls).2.current_tag = c.current_tag + calls.length := by
  induction calls with
  | nil => intro c _; simp [run_tag_calls]
  | cons call rest ih =>
    intro c h
    simp only [List.length_cons] at h
    obtain ⟨h1, h2⟩ := tag_call_run_spec c call (by omega)
    obtain ⟨ih1, ih2⟩ := ih (call.run c).2 (by omega)
    constructor
    · simp only [run_tag_calls, List.length_cons, ih1, h1, h2, List.range_succ_eq_map,
        List.map_cons, List.map_map]
      congr 1
      apply List.map_congr_left
      intro i _
      simp only [Function.comp]
      omega
    · simp only [run_tag_calls, List.length_cons, ih2, h2]
      omega

/-- C7 (as amended): after any sequence of `get_new_tag` and `create_tag` calls, for every
32-bit tag value that none of the calls returned and that is greater than the counter value
the sequence started from, `assign_tag` fails on a violated assertion, whatever the variable. -/
theorem assign_tag_fails_on_unreturned_tag_above_start {F : Type} (DUMMY_TAG : Nat)
    (c : UltraComposer F) (calls : List TagCall) (variable_index tag : Nat)
    (hnot : tag ∉ (run_tag_calls c calls).1) (habove : c.current_tag < tag)
    (htag : tag < 2 ^ 32) :
    assign_tag DUMMY_TAG (run_tag_calls c calls).2 variable_index tag
      = Outcome.assertion_failed (run_tag_calls c calls).2 := by
  have h := run_tag_calls_current_tag_lt calls c tag hnot habove htag
  unfold assign_tag
  simp [Nat.not_le.mpr h]

/-- Witness for C7 (as amended): two tags were returned (1 and 2); the tag 7 was not. -/
theorem assign_tag_fails_on_unreturned_tag_above_start_witness :
    (run_tag_calls small_composer [TagCall.get_new_tag, TagCall.create_tag 1 2]).1 = [1, 2] ∧
    assign_tag 0
        (run_tag_calls small_composer [TagCall.get_new_tag, TagCall.create_tag 1 2]).2 0 7
      = Outcome.assertion_failed
        (run_tag_calls small_composer [TagCall.get_new_tag, TagCall.create_tag 1 2]).2 :=
  ⟨by decide,
   assign_tag_fails_on_unreturned_tag_above_start 0 small_composer
     [TagCall.get_new_tag, TagCall.create_tag 1 2] 0 7 (by decide) (by decide) (by decide)⟩

/-- Counterexample to C7 as stated: on a composer whose counter started at 0, with
`DUMMY_TAG = 0`, the calls `get_new_tag()` and `create_tag(1, 2)` return 1 and 2; the tag 0
was never returned, yet `assign_tag(0, 0)` does not fail. -/
theorem assign_tag_accepts_never_returned_tag :
    (run_tag_calls small_composer [TagCall.get_new_tag, TagCall.create_tag 1 2]).1 = [1, 2] ∧
    0 ∉ (run_tag_calls small_composer [TagCall.get_new_tag, TagCall.create_tag 1 2]).1 ∧
    (assign_tag 0
      (run_tag_calls small_composer [TagCall.get_new_tag, TagCall.create_tag 1 2]).2 0 0
      ).is_assertion_failed = false ∧
    assign_tag 0
        (run_tag_calls small_composer [TagCall.get_new_tag, TagCall.create_tag 1 2]).2 0 0
      = Outcome.ok
        (run_tag_calls small_composer [TagCall.get_new_tag, TagCall.create_tag 1 2]).2 :=
  ⟨by decide, by decide, by decide, rfl⟩

/-- C8: along a sequence of `get_new_tag` and `create_tag` calls during which `current_tag`
does not overflow 32 bits, each call returns `current_tag + 1` and advances the counter by
one; the tags returned are `c + 1, c + 2, ...` for the initial counter value `c`, so they are
strictly increasing in call order, all greater than `c`, and pairwise distinct. -/
theorem tags_strictly_increasing {F : Type} (c : UltraComposer F) (calls : List TagCall)
    (h : c.current_tag + calls.length < 2 ^ 32) :
    (∀ (c1 : UltraComposer F) (call : TagCall), c1.current_tag + 1 < 2 ^ 32 →
      (call.run c1).1 = c1.current_tag + 1 ∧
      (call.run c1).2.current_tag = c1.current_tag + 1) ∧
    (run_tag_calls c calls).1 = (List.range calls.length).map (fun i => c.current_tag + 1 + i) ∧
    (run_tag_calls c calls).2.current_tag = c.current_tag + calls.length ∧
    (run_tag_calls c calls).1.Pairwise (fun earlier later => earlier < later) ∧
    (∀ t ∈ (run_tag_calls c calls).1, c.current_tag < t) ∧
    (run_tag_calls c calls).1.Nodup := by
  obtain ⟨h1, h2⟩ := run_tag_calls_spec calls c h
  have hpw : (run_tag_calls c calls).1.Pairwise (fun earlier later => earlier < later) := by
    rw [h1, List.pairwise_map]
    refine (List.pairwise_lt_range calls.length).imp ?_
    intro a b hab
    omega
  refine ⟨fun c1 call hc => tag_call_run_spec c1 call hc, h1, h2, hpw, ?_, ?_⟩
  · intro t ht
    rw [h1, List.mem_map] at ht
    obtain ⟨i, _, rfl⟩ := ht
    omega
  · exact hpw.imp (fun hab => Nat.ne_of_lt hab)

/-- Witness for C8: three calls on a composer whose counter is 0 return 1, 2, 3. -/
theorem tags_strictly_increasing_witness :
    (run_tag_calls small_composer
      [TagCall.get_new_tag, TagCall.create_tag 1 2, TagCall.get_new_tag]).1 = [1, 2, 3] ∧
    (run_tag_calls small_composer
      [TagCall.get_new_tag, TagCall.create_tag 1 2, TagCall.get_new_tag]).2.current_tag = 3 :=
  ⟨(tags_strictly_increasing small_composer
      [TagCall.get_new_tag, TagCall.create_tag 1 2, TagCall.get_new_tag]
      (by decide)).2.1.trans (by decide),
   (tags_strictly_increasing small_composer
      [TagCall.get_new_tag, TagCall.create_tag 1 2, TagCall.get_new_tag]
      (by decide)).2.2.1⟩

/-! ## `assert_equal_constant`: theorems -/

theorem assert_equal_constant_unfold {F : Type} [DecidableEq F]
    (put_constant_variable : F → UltraComposer F → Nat × UltraComposer F)
    (assert_equal : Nat → Nat → String → UltraComposer F → UltraComposer F)
    (c c1 : UltraComposer F) (a_idx : Nat) (b : F) (msg : String)
    (h : assert_equal_constant_value_check c a_idx b msg = some c1) :
    assert_equal_constant put_constant_variable assert_equal c a_idx b msg
      = some (assert_equal a_idx (put_constant_variable b c1).1 msg
          (put_constant_variable b c1).2) := by
  simp [assert_equal_constant, h]

/-- C9: on a composer that has not failed, the value check of
`assert_equal_constant(a_idx, b, msg)` records a failure with message `msg` exactly when
`variables[a_idx] != b` (and otherwise leaves the composer as it is); either way the call
goes on to `put_constant_variable(b)` and then `assert_equal(a_idx, b_idx, msg)`. -/
theorem assert_equal_constant_on_unfailed {F : Type} [DecidableEq F]
    (put_constant_variable : F → UltraComposer F → Nat × UltraComposer F)
    (assert_equal : Nat → Nat → String → UltraComposer F → UltraComposer F)
    (c : UltraComposer F) (a_idx : Nat) (b va : F) (msg : String)
    (hnf : c.failed = false) (ha : c.variables_[a_idx]? = some va) :
    ∃ c1, assert_equal_constant_value_check c a_idx b msg = some c1 ∧
      c1 = (if va ≠ b then failure msg c else c) ∧
      ((c1.failed = true ∧ c1.err = msg) ↔ va ≠ b) ∧
      assert_equal_constant put_constant_variable assert_equal c a_idx b msg
        = some (assert_equal a_idx (put_constant_variable b c1).1 msg
            (put_constant_variable b c1).2) := by
  have hc : assert_equal_constant_value_check c a_idx b msg
      = some (if va ≠ b then failure msg c else c) := by
    simp [assert_equal_constant_value_check, ha, hnf]
  refine ⟨_, hc, rfl, ?_, assert_equal_constant_unfold _ _ c _ a_idx b msg hc⟩
  by_cases hv : va = b
  · simp [hv, hnf]
  · simp [hv, failure]

/-- Witness for C9: variable 1 holds 7; asserting it equal to 7 records nothing, asserting it
equal to 8 records the failure "seven is not eight". -/
theorem assert_equal_constant_on_unfailed_witness :
    assert_equal_constant_value_check small_composer 1 7 "ok" = some small_composer ∧
    (assert_equal_constant_value_check small_composer 1 8 "seven is not eight").map
        (fun c => (c.failed, c.err)) = some (true, "seven is not eight") ∧
    ∃ c1, assert_equal_constant_value_check small_composer 1 8 "seven is not eight" = some c1 ∧
      c1 = (if (7 : Int) ≠ 8 then failure "seven is not eight" small_composer
        else small_composer) ∧
      ((c1.failed = true ∧ c1.err = "seven is not eight") ↔ (7 : Int) ≠ 8) ∧
      assert_equal_constant (fun _ c => (c.variables_.length, c)) (fun _ _ _ c => c)
          small_composer 1 8 "seven is not eight"
        = some ((fun _ _ _ c => c) 1
            ((fun (_ : Int) (c : UltraComposer Int) => (c.variables_.length, c)) 8 c1).1
            "seven is not eight"
            ((fun (_ : Int) (c : UltraComposer Int) => (c.variables_.length, c)) 8 c1).2) :=
  ⟨rfl, rfl,
   assert_equal_constant_on_unfailed (fun _ c => (c.variables_.length, c)) (fun _ _ _ c => c)
     small_composer 1 8 7 "seven is not eight" rfl rfl⟩

/-- C10 (as amended): on a composer on which a failure is already recorded, the value check
of `assert_equal_constant(a_idx, b, msg)` leaves the composer as it is, whether or not
`variables[a_idx] != b` (the flag stays set and the earlier message is kept); the call still
goes on to `put_constant_variable(b)` and `assert_equal(a_idx, b_idx, msg)`. -/
theorem assert_equal_constant_on_failed {F : Type} [DecidableEq F]
    (put_constant_variable : F → UltraComposer F → Nat × UltraComposer F)
    (assert_equal : Nat → Nat → String → UltraComposer F → UltraComposer F)
    (c : UltraComposer F) (a_idx : Nat) (b va : F) (msg : String)
    (hf : c.failed = true) (ha : c.variables_[a_idx]? = some va) :
    assert_equal_constant_value_check c a_idx b msg = some c ∧
    assert_equal_constant put_constant_variable assert_equal c a_idx b msg
      = some (assert_equal a_idx (put_constant_variable b c).1 msg
          (put_constant_variable b c).2) := by
  have hc : assert_equal_constant_value_check c a_idx b msg = some c := by
    simp [assert_equal_constant_value_check, ha, hf]
  exact ⟨hc, assert_equal_constant_unfold _ _ c c a_idx b msg hc⟩

/-- Witness for C10 (as amended): the composer that failed with "first" is left as it is by
the value check of a later mismatching `assert_equal_constant`. -/
theorem assert_equal_constant_on_failed_witness :
    failed_composer.failed = true ∧ failed_composer.variables_[0]? = some 1 ∧
    assert_equal_constant_value_check failed_composer 0 2 "second" = some failed_composer :=
  ⟨rfl, rfl,
   (assert_equal_constant_on_failed (fun _ c => (0, c)) (fun _ _ _ c => c) failed_composer
     0 2 1 "second" rfl rfl).1⟩

/-- Counterexample to C10 as stated: a failure "first" is recorded, variable 0 holds 1 and is
asserted equal to 2 with message "second"; the value check does not call `failure("second")`:
its result is not the composer `failure("second")` would leave, the message stays "first". -/
theorem assert_equal_constant_keeps_first_failure :
    failed_composer.failed = true ∧
    failed_composer.variables_[0]? = some 1 ∧ (1 : Int) ≠ 2 ∧
    (assert_equal_constant_value_check failed_composer 0 2 "second").map (fun c => c.err)
      = some "first" ∧
    (failure "second" failed_composer).err = "second" ∧
    assert_equal_constant_value_check failed_composer 0 2 "second"
      ≠ some (failure "second" failed_composer) := by
  refine ⟨rfl, rfl, by decide, rfl, rfl, ?_⟩
  intro h
  have herr := congrArg (fun o : Option (UltraComposer Int) => o.map (fun c => c.err)) h
  revert herr
  decide

/-! ## Gate accounting: pending lists and arrays -/

theorem slot_foldl_count {α : Type} (p : α → Prop) [DecidablePred p] (state : List α) (a : Nat) :
    state.foldl (fun rc slot => if p slot then size_add rc 2 else rc) (a % 2 ^ 64) =
      (a + 2 * state.countP (fun slot => decide (p slot))) % 2 ^ 64 := by
  induction state generalizing a with
  | nil => simp
  | cons x xs ih =>
    by_cases hx : p x
    · have hstep : size_add (a % 2 ^ 64) 2 = (a + 2) % 2 ^ 64 := by
        simp only [size_add_eq]
        omega
      simp only [List.foldl_cons, hx, if_true, hstep, ih, List.countP_cons, decide_True]
      congr 1
      omega
    · simp only [List.foldl_cons, hx, if_false, ih, List.countP_cons, decide_False]
      congr 1

/-- The gates the counter attributes to one ROM array. -/
theorem rom_loop_body_eq (arr : RomTranscript) (a : Nat) :
    rom_loop_body (a % 2 ^ 64) arr =
      (a + (2 * arr.state.countP (fun slot => decide (slot.1 = UNINITIALIZED_MEMORY_RECORD))
        + arr.records.length + 1)) % 2 ^ 64 := by
  have h := slot_foldl_count (fun slot : Nat × Nat => slot.1 = UNINITIALIZED_MEMORY_RECORD)
    arr.state a
  unfold rom_loop_body
  simp only []
  rw [h]
  simp only [size_add_eq]
  omega

theorem rom_loop_foldl (arrays : List RomTranscript) (a : Nat) :
    arrays.foldl rom_loop_body (a % 2 ^ 64) =
      (a + (arrays.map (fun arr =>
        2 * arr.state.countP (fun slot => decide (slot.1 = UNINITIALIZED_MEMORY_RECORD))
          + arr.records.length + 1)).sum) % 2 ^ 64 := by
  induction arrays generalizing a with
  | nil => simp
  | cons x xs ih =>
    rw [List.foldl_cons, rom_loop_body_eq, ih]
    simp only [List.map_cons, List.sum_cons]
    congr 1
    omega

/-- The gates the counter attributes to one RAM array; the timestamp list size is the padded
size of `max_timestamp = access_count - 1` (computed on `size_t`). -/
theorem ram_loop_body_eq (gate_width : Nat) (arr : RamTranscript) (a : Nat) :
    ram_loop_body gate_width (a % 2 ^ 64) arr =
      (a + (2 * arr.state.countP (fun slot => decide (slot = UNINITIALIZED_MEMORY_RECORD))
        + 2 * arr.records.length + 1
        + (range_list_padded_size gate_width (size_sub arr.access_count 1) / gate_width + 1)))
        % 2 ^ 64 := by
  have h := slot_foldl_count (fun slot : Nat => slot = UNINITIALIZED_MEMORY_RECORD) arr.state a
  have hp : range_list_padded_size gate_width (size_sub arr.access_count 1)
      = size_add (size_sub arr.access_count 1)
        (if size_sub arr.access_count 1 = gate_width then
          size_add ((gate_width - size_sub arr.access_count 1 % gate_width) % gate_width)
            gate_width
         else (gate_width - size_sub arr.access_count 1 % gate_width) % gate_width) := rfl
  unfold ram_loop_body
  simp only []
  rw [h, ← hp]
  generalize range_list_padded_size gate_width (size_sub arr.access_count 1) / gate_width = t
  simp only [size_add_eq, size_mul, SIZE_T_MOD]
  omega

theorem ram_loop_foldl (gate_width : Nat) (arrays : List RamTranscript) (a : Nat) :
    arrays.foldl (ram_loop_body gate_width) (a % 2 ^ 64) =
      (a + (arrays.map (fun arr =>
        2 * arr.state.countP (fun slot => decide (slot = UNINITIALIZED_MEMORY_RECORD))
          + 2 * arr.records.length + 1
          + (range_list_padded_size gate_width (size_sub arr.access_count 1) / gate_width + 1)
        )).sum) % 2 ^ 64 := by
  induction arrays generalizing a with
  | nil => simp
  | cons x xs ih =>
    rw [List.foldl_cons, ram_loop_body_eq, ih]
    simp only [List.map_cons, List.sum_cons]
    congr 1
    omega

theorem sum_pos_of_ne_nil {α : Type} (l : List α) (f : α → Nat) (h : ∀ x, 1 ≤ f x)
    (hne : l ≠ []) : 1 ≤ (l.map f).sum := by
  cases l with
  | nil => exact absurd rfl hne
  | cons x xs =>
    have := h x
    simp only [List.map_cons, List.sum_cons]
    omega

/-- C11 (as amended): on a composer that is not finalised, `get_num_gates()` includes the gates
pending from range-list, ROM and RAM compilation: it is the 64-bit sum of `num_gates` and of
the gates counted for every ROM array, RAM array and range list; it equals `num_gates` when
no range list, ROM array or RAM array is pending, and when the sum fits in 64 bits it is
greater than `num_gates` as soon as one is pending. -/
theorem get_num_gates_includes_pending {F : Type} (gate_width : Nat) (c : UltraComposer F)
    (hc : c.circuit_finalised = false) :
    get_num_gates gate_width c =
      (c.num_gates
        + (c.rom_arrays.map (fun arr =>
            2 * arr.state.countP (fun slot => decide (slot.1 = UNINITIALIZED_MEMORY_RECORD))
              + arr.records.length + 1)).sum
        + (c.ram_arrays.map (fun arr =>
            2 * arr.state.countP (fun slot => decide (slot = UNINITIALIZED_MEMORY_RECORD))
              + 2 * arr.records.length + 1
              + (range_list_padded_size gate_width (size_sub arr.access_count 1) / gate_width
                + 1))).sum
        + (c.range_lists.map (fun l =>
            range_list_padded_size gate_width l.2.variable_indices.length / gate_width + 1)).sum)
        % 2 ^ 64 ∧
    (c.range_lists = [] → c.rom_arrays = [] → c.ram_arrays = [] → c.num_gates < 2 ^ 64 →
      get_num_gates gate_width c = c.num_gates) ∧
    (c.num_gates
        + (c.rom_arrays.map (fun arr =>
            2 * arr.state.countP (fun slot => decide (slot.1 = UNINITIALIZED_MEMORY_RECORD))
              + arr.records.length + 1)).sum
        + (c.ram_arrays.map (fun arr =>
            2 * arr.state.countP (fun slot => decide (slot = UNINITIALIZED_MEMORY_RECORD))
              + 2 * arr.records.length + 1
              + (range_list_padded_size gate_width (size_sub arr.access_count 1) / gate_width
                + 1))).sum
        + (c.range_lists.map (fun l =>
            range_list_padded_size gate_width l.2.variable_indices.length / gate_width + 1)).sum
        < 2 ^ 64 →
      (c.range_lists ≠ [] ∨ c.rom_arrays ≠ [] ∨ c.ram_arrays ≠ []) →
      c.num_gates < get_num_gates gate_width c) := by
  have hrom := rom_loop_foldl c.rom_arrays 0
  have hram := ram_loop_foldl gate_width c.ram_arrays 0
  have hrange := range_loop_foldl gate_width c.range_lists 0
  simp only [Nat.zero_mod, Nat.zero_add] at hrom hram hrange
  have hmain : get_num_gates gate_width c =
      (((c.num_gates + c.rom_arrays.foldl rom_loop_body 0) % 2 ^ 64
        + c.ram_arrays.foldl (ram_loop_body gate_width) 0) % 2 ^ 64
        + c.range_lists.foldl (range_loop_body gate_width) 0) % 2 ^ 64 := by
    simp [get_num_gates, get_num_gates_split_into_components, hc, size_add_eq]
  have hexplicit : get_num_gates gate_width c =
      (c.num_gates
        + (c.rom_arrays.map (fun arr =>
            2 * arr.state.countP (fun slot => decide (slot.1 = UNINITIALIZED_MEMORY_RECORD))
              + arr.records.length + 1)).sum
        + (c.ram_arrays.map (fun arr =>
            2 * arr.state.countP (fun slot => decide (slot = UNINITIALIZED_MEMORY_RECORD))
              + 2 * arr.records.length + 1
              + (range_list_padded_size gate_width (size_sub arr.access_count 1) / gate_width
                + 1))).sum
        + (c.range_lists.map (fun l =>
            range_list_padded_size gate_width l.2.variable_indices.length / gate_width + 1)).sum)
        % 2 ^ 64 := by
    rw [hmain, hrom, hram, hrange]
    omega
  refine ⟨hexplicit, ?_, ?_⟩
  · intro h1 h2 h3 hn
    rw [hmain, h1, h2, h3]
    simp only [List.foldl_nil, Nat.add_zero, Nat.mod_mod]
    exact Nat.mod_eq_of_lt hn
  · intro hfit hpending
    rw [hexplicit, Nat.mod_eq_of_lt hfit]
    rcases hpending with h | h | h
    · have := sum_pos_of_ne_nil c.range_lists (fun l =>
        range_list_padded_size gate_width l.2.variable_indices.length / gate_width + 1)
        (fun _ => Nat.le_add_left 1 _) h
      omega
    · have := sum_pos_of_ne_nil c.rom_arrays (fun arr =>
        2 * arr.state.countP (fun slot => decide (slot.1 = UNINITIALIZED_MEMORY_RECORD))
          + arr.records.length + 1) (fun _ => Nat.le_add_left 1 _) h
      omega
    · have := sum_pos_of_ne_nil c.ram_arrays (fun arr =>
        2 * arr.state.countP (fun slot => decide (slot = UNINITIALIZED_MEMORY_RECORD))
          + 2 * arr.records.length + 1
          + (range_list_padded_size gate_width (size_sub arr.access_count 1) / gate_width + 1))
        (fun _ => Nat.le_trans (Nat.le_add_left 1 _) (Nat.le_add_left _ _)) h
      omega

/-- Witness for C11 (as amended): the pending lists and arrays of `busy_composer` add
`3 + 4 + 6` gates to its 5 gates; without pending lists or arrays the count is `num_gates`. -/
theorem get_num_gates_includes_pending_witness :
    get_num_gates 4 busy_composer = (5 + (2 * 1 + 0 + 1) + (2 * 1 + 2 * 0 + 1 + (0 / 4 + 1))
      + ((8 / 4 + 1) + (8 / 4 + 1))) % 2 ^ 64 ∧
    get_num_gates 4 small_composer = 5 :=
  ⟨(get_num_gates_includes_pending 4 busy_composer rfl).1.trans (by decide),
   (get_num_gates_includes_pending 4 small_composer rfl).2.1 rfl rfl rfl (by decide)⟩

/-- Counterexample to C11 as stated: `busy_composer` is not finalised and has 5 gates in its
gate table, two range lists, a ROM array and a RAM array pending; `get_num_gates()` is 18. -/
theorem get_num_gates_counts_pending :
    busy_composer.circuit_finalised = false ∧ busy_composer.num_gates = 5 ∧
    get_num_gates 4 busy_composer = 18 ∧
    get_num_gates 4 busy_composer ≠ busy_composer.num_gates := by
  decide

/-- C12 (the code at the failing input): a composer that is not finalised, with 5 gates, two
public inputs and nothing pending, has `get_num_gates() = 5`, the same as without the public
inputs; the public inputs are not counted. -/
theorem get_num_gates_ignores_public_inputs :
    public_input_composer.circuit_finalised = false ∧
    public_input_composer.public_inputs.length = 2 ∧
    public_input_composer.num_gates = 5 ∧
    get_num_gates 4 public_input_composer = 5 ∧
    get_num_gates 4 public_input_composer = get_num_gates 4 small_composer := by
  decide

/-- C13 (as amended): a range list with no variable index is counted as exactly one range
gate (the extra gate of every distinct list; its padded size is 0), so on a composer that is
not finalised `get_num_gates()` is one more (on `size_t`) with that list in `range_lists` than
without it. -/
theorem empty_range_list_counts_one_gate {F : Type} (gate_width : Nat) (c : UltraComposer F)
    (before after : List (Nat × RangeList)) (key : Nat) (list : RangeList)
    (hw : 0 < gate_width) (hempty : list.variable_indices = [])
    (hc : c.circuit_finalised = false) :
    range_list_padded_size gate_width list.variable_indices.length = 0 ∧
    (∀ rangecount, range_loop_body gate_width rangecount (key, list)
      = size_add (size_add rangecount 0) 1) ∧
    (get_num_gates_split_into_components gate_width
        { c with range_lists := before ++ (key, list) :: after }).rangecount
      = size_add (get_num_gates_split_into_components gate_width
        { c with range_lists := before ++ after }).rangecount 1 ∧
    get_num_gates gate_width { c with range_lists := before ++ (key, list) :: after }
      = size_add (get_num_gates gate_width { c with range_lists := before ++ after }) 1 := by
  have hpad : range_list_padded_size gate_width list.variable_indices.length = 0 := by
    have hne : (0 : Nat) ≠ gate_width := by omega
    simp [hempty, range_list_padded_size, range_list_padding, size_add_eq, hne]
  have hbody : ∀ rangecount, range_loop_body gate_width rangecount (key, list)
      = size_add (size_add rangecount 0) 1 := by
    intro rangecount
    simp only [range_loop_body, hpad, Nat.zero_div]
  have h1 := range_loop_foldl gate_width (before ++ (key, list) :: after) 0
  have h2 := range_loop_foldl gate_width (before ++ after) 0
  simp only [Nat.zero_mod, Nat.zero_add, List.map_append, List.map_cons, List.sum_append,
    List.sum_cons, hpad, Nat.zero_div] at h1 h2
  refine ⟨hpad, hbody, ?_, ?_⟩
  · show (before ++ (key, list) :: after).foldl (range_loop_body gate_width) 0
      = size_add ((before ++ after).foldl (range_loop_body gate_width) 0) 1
    rw [h1, h2, size_add_eq]
    omega
  · simp only [get_num_gates, get_num_gates_split_into_components, hc, h1, h2, size_add_eq]
    simp only [Bool.false_eq_true, if_false]
    omega

/-- Witness for C13 (as amended): adding an empty range list to `small_composer` takes the
count from 5 to 6. -/
theorem empty_range_list_counts_one_gate_witness :
    get_num_gates 4 empty_list_composer = size_add (get_num_gates 4 small_composer) 1 ∧
    get_num_gates 4 small_composer = 5 :=
  ⟨(empty_range_list_counts_one_gate 4 small_composer [] [] 255 (range_list_of 255 [])
      (by decide) rfl rfl).2.2.2,
   by decide⟩

/-- Counterexample to C13 as stated: with an empty range list the range gates counted are 1,
not 0, and `get_num_gates()` is 6 instead of the 5 it is without the list. -/
theorem empty_range_list_is_counted :
    (empty_list_composer.range_lists.map (fun l => l.2.variable_indices.length)) = [0] ∧
    (get_num_gates_split_into_components 4 empty_list_composer).rangecount = 1 ∧
    get_num_gates 4 empty_list_composer = 6 ∧
    get_num_gates 4 { empty_list_composer with range_lists := [] } = 5 := by
  decide

/-- C14: `create_range_constraint` hands the composer to
`create_new_range_constraint(variable_index, 2 ^ num_bits)` exactly when
`num_bits <= DEFAULT_PLOOKUP_RANGE_BITNUM = 14`, where `1ULL << num_bits` is `2 ^ num_bits`
and fits in 64 bits, and otherwise to `decompose_into_default_range(variable_index, num_bits)`;
the composer it leaves is the one the callee leaves. -/
theorem create_range_constraint_delegates {F : Type}
    (create_new_range_constraint : Nat → Nat → UltraComposer F → UltraComposer F)
    (decompose_into_default_range :
      Nat → Nat → Nat → String → UltraComposer F → List Nat × UltraComposer F)
    (c : UltraComposer F) (variable_index num_bits : Nat) (msg : String) :
    DEFAULT_PLOOKUP_RANGE_BITNUM = 14 ∧
    (num_bits ≤ 14 →
      create_range_constraint create_new_range_constraint decompose_into_default_range
          c variable_index num_bits msg
        = create_new_range_constraint variable_index (2 ^ num_bits) c ∧
      u64_shift_left_one num_bits = 2 ^ num_bits ∧ 2 ^ num_bits < 2 ^ 64) ∧
    (14 < num_bits →
      create_range_constraint create_new_range_constraint decompose_into_default_range
          c variable_index num_bits msg
        = (decompose_into_default_range variable_index num_bits 14
            "decompose_into_default_range" c).2) := by
  refine ⟨rfl, ?_, ?_⟩
  · intro h
    have hlt : 2 ^ num_bits < 2 ^ 64 := Nat.pow_lt_pow_right (by decide) (by omega)
    have hs : u64_shift_left_one num_bits = 2 ^ num_bits := by
      simp only [u64_shift_left_one, Nat.shiftLeft_eq, Nat.one_mul]
      exact Nat.mod_eq_of_lt hlt
    refine ⟨?_, hs, hlt⟩
    simp only [create_range_constraint, DEFAULT_PLOOKUP_RANGE_BITNUM, h, if_true, hs]
  · intro h
    have hn : ¬ num_bits ≤ 14 := by omega
    simp only [create_range_constraint, DEFAULT_PLOOKUP_RANGE_BITNUM, hn, if_false]

/-- Witness for C14 with callees that record their arguments in `num_gates`: 14 bits go to
`create_new_range_constraint` with range `2 ^ 14`, 15 bits to `decompose_into_default_range`. -/
theorem create_range_constraint_delegates_witness :
    (create_range_constraint (fun _ range c => { c with num_gates := range })
      (fun _ bits _ _ c => ([], { c with num_gates := bits })) small_composer 0 14 "").num_gates
      = 16384 ∧
    (create_range_constraint (fun _ range c => { c with num_gates := range })
      (fun _ bits _ _ c => ([], { c with num_gates := bits })) small_composer 0 15 "").num_gates
      = 15 :=
  ⟨congrArg UltraComposer.num_gates
      ((create_range_constraint_delegates (fun _ range c => { c with num_gates := range })
        (fun _ bits _ _ c => ([], { c with num_gates := bits })) small_composer 0 14 "").2.1
        (by decide)).1,
   congrArg UltraComposer.num_gates
      ((create_range_constraint_delegates (fun _ range c => { c with num_gates := range })
        (fun _ bits _ _ c => ([], { c with num_gates := bits })) small_composer 0 15 "").2.2
        (by decide))⟩

/-- C15: the `romcount` produced by `get_num_gates_split_into_components` is the sum, over the
ROM arrays, of `2 * (number of slots whose first entry is UNINITIALIZED_MEMORY_RECORD)
+ records.size() + 1` (reduced modulo `2 ^ 64` as every `size_t`; the plain sum when it fits). -/
theorem romcount_eq_sum {F : Type} (gate_width : Nat) (c : UltraComposer F) :
    (get_num_gates_split_into_components gate_width c).romcount =
      (c.rom_arrays.map (fun arr =>
        2 * arr.state.countP (fun slot => decide (slot.1 = UNINITIALIZED_MEMORY_RECORD))
          + arr.records.length + 1)).sum % 2 ^ 64 ∧
    ((c.rom_arrays.map (fun arr =>
        2 * arr.state.countP (fun slot => decide (slot.1 = UNINITIALIZED_MEMORY_RECORD))
          + arr.records.length + 1)).sum < 2 ^ 64 →
      (get_num_gates_split_into_components gate_width c).romcount =
        (c.rom_arrays.map (fun arr =>
          2 * arr.state.countP (fun slot => decide (slot.1 = UNINITIALIZED_MEMORY_RECORD))
            + arr.records.length + 1)).sum) := by
  have h := rom_loop_foldl c.rom_arrays 0
  simp only [Nat.zero_mod, Nat.zero_add] at h
  refine ⟨h, fun hlt => ?_⟩
  show c.rom_arrays.foldl rom_loop_body 0 = _
  rw [h]
  exact Nat.mod_eq_of_lt hlt

/-- Witness for C15: one ROM array with two slots never set and two read records gives
`2 * 2 + 2 + 1 = 7`. -/
theorem romcount_eq_sum_witness :
    (get_num_gates_split_into_components 4 memory_composer).romcount = 2 * 2 + 2 + 1 :=
  ((romcount_eq_sum 4 memory_composer).2 (by decide)).trans (by decide)

/-- C16: when every RAM array has `1 <= access_count` (a `size_t`), the `ramcount` produced by
`get_num_gates_split_into_components` is the sum, over the RAM arrays, of
`2 * (number of slots equal to UNINITIALIZED_MEMORY_RECORD) + 2 * records.size() + 1
+ (T / gate_width + 1)`, where `T` is the padded size of `max_timestamp = access_count - 1`
(reduced modulo `2 ^ 64` as every `size_t`; the plain sum when it fits). -/
theorem ramcount_eq_sum {F : Type} (gate_width : Nat) (c : UltraComposer F)
    (hacc : ∀ arr ∈ c.ram_arrays, 1 ≤ arr.access_count ∧ arr.access_count < 2 ^ 64) :
    (get_num_gates_split_into_components gate_width c).ramcount =
      (c.ram_arrays.map (fun arr =>
        2 * arr.state.countP (fun slot => decide (slot = UNINITIALIZED_MEMORY_RECORD))
          + 2 * arr.records.length + 1
          + (range_list_padded_size gate_width (arr.access_count - 1) / gate_width + 1))).sum
        % 2 ^ 64 ∧
    ((c.ram_arrays.map (fun arr =>
        2 * arr.state.countP (fun slot => decide (slot = UNINITIALIZED_MEMORY_RECORD))
          + 2 * arr.records.length + 1
          + (range_list_padded_size gate_width (arr.access_count - 1) / gate_width + 1))).sum
        < 2 ^ 64 →
      (get_num_gates_split_into_components gate_width c).ramcount =
        (c.ram_arrays.map (fun arr =>
          2 * arr.state.countP (fun slot => decide (slot = UNINITIALIZED_MEMORY_RECORD))
            + 2 * arr.records.length + 1
            + (range_list_padded_size gate_width (arr.access_count - 1) / gate_width + 1))).sum)
    := by
  have h := ram_loop_foldl gate_width c.ram_arrays 0
  simp only [Nat.zero_mod, Nat.zero_add] at h
  have hmap : c.ram_arrays.map (fun arr =>
        2 * arr.state.countP (fun slot => decide (slot = UNINITIALIZED_MEMORY_RECORD))
          + 2 * arr.records.length + 1
          + (range_list_padded_size gate_width (size_sub arr.access_count 1) / gate_width + 1))
      = c.ram_arrays.map (fun arr =>
        2 * arr.state.countP (fun slot => decide (slot = UNINITIALIZED_MEMORY_RECORD))
          + 2 * arr.records.length + 1
          + (range_list_padded_size gate_width (arr.access_count - 1) / gate_width + 1)) := by
    apply List.map_congr_left
    intro arr harr
    obtain ⟨h1, h2⟩ := hacc arr harr
    have hsub : size_sub arr.access_count 1 = arr.access_count - 1 := by
      simp only [size_sub, SIZE_T_MOD]
      omega
    rw [hsub]
  rw [hmap] at h
  refine ⟨h, fun hlt => ?_⟩
  show c.ram_arrays.foldl (ram_loop_body gate_width) 0 = _
  rw [h]
  exact Nat.mod_eq_of_lt hlt

/-- Witness for C16 at `gate_width = 4`: an array accessed five times (`max_timestamp = 4`,
padded to 8) with one slot never set and five records gives `2 + 10 + 1 + 3 = 16`; an array
accessed once gives `0 + 2 + 1 + 1 = 4`. -/
theorem ramcount_eq_sum_witness :
    (get_num_gates_split_into_components 4 memory_composer).ramcount
      = (2 * 1 + 2 * 5 + 1 + (8 / 4 + 1)) + (2 * 0 + 2 * 1 + 1 + (0 / 4 + 1)) :=
  ((ramcount_eq_sum 4 memory_composer (by decide)).2 (by decide)).trans (by decide)

end plonk

/-! ## `CheckGetter::get_value`: theorems -/

namespace honk

/-- C20: for every polynomial id and every row index `index` (with `index + 1` representable
in `size_t`), the SHIFTED value at `index` is the non-shifted value at `index + 1` when
`index + 1 < num_gates`, and the field zero when `index + 1 >= num_gates`. -/
theorem shifted_value_is_next_row {F : Type} [CommRing F]
    (get_variable_reference : TurboCircuitConstructor F → Nat → Option F)
    (id : PolynomialIndex) (composer : TurboCircuitConstructor F) (index : Nat)
    (hindex : index + 1 < 2 ^ 64) :
    (index + 1 < composer.num_gates →
      CheckGetter.get_value get_variable_reference EvaluationType.SHIFTED id composer index
        = CheckGetter.get_value get_variable_reference EvaluationType.NON_SHIFTED id composer
            (index + 1)) ∧
    (composer.num_gates ≤ index + 1 →
      CheckGetter.get_value get_variable_reference EvaluationType.SHIFTED id composer index
        = some 0) := by
  have hadd : plonk.size_add index 1 = index + 1 := by
    rw [plonk.size_add_eq]
    exact Nat.mod_eq_of_lt hindex
  constructor
  · intro h
    have hn : ¬ index + 1 ≥ composer.num_gates := by omega
    simp only [CheckGetter.get_value, hadd, hn, if_false]
  · intro h
    have hn : index + 1 ≥ composer.num_gates := h
    simp only [CheckGetter.get_value, hadd, hn, if_true, CheckGetter.zero]

/-- Witness for C20 on a constructor with three gates: the shifted `q_1` at row 1 is the
`q_1` of row 2, the shifted `w_1` at row 0 is the value of the `w_1` variable of row 1, and
the shifted values at the last row are zero. -/
theorem shifted_value_is_next_row_witness :
    CheckGetter.get_value variable_through_representative EvaluationType.SHIFTED
      PolynomialIndex.Q_1 three_gate_constructor 1 = some 5 ∧
    CheckGetter.get_value variable_through_representative EvaluationType.SHIFTED
      PolynomialIndex.W_1 three_gate_constructor 0 = some 1 ∧
    CheckGetter.get_value variable_through_representative EvaluationType.SHIFTED
      PolynomialIndex.W_1 three_gate_constructor 2 = some 0 :=
  ⟨((shifted_value_is_next_row variable_through_representative PolynomialIndex.Q_1
      three_gate_constructor 1 (by decide)).1 (by decide)).trans (by decide),
   ((shifted_value_is_next_row variable_through_representative PolynomialIndex.W_1
      three_gate_constructor 0 (by decide)).1 (by decide)).trans (by decide),
   (shifted_value_is_next_row variable_through_representative PolynomialIndex.W_1
      three_gate_constructor 2 (by decide)).2 (by decide)⟩

end honk

/-! ## The polynomial evaluation test: theorems -/

namespace smt_polynomials

open proof_system

/-- The value of a decimal digit character. -/
theorem digit_value_digitChar (k : Nat) (h : k < 10) : (Nat.digitChar k).toNat - 48 = k := by
  interval_cases k <;> rfl

theorem decode_toDigitsCore (fuel : Nat) : ∀ (n : Nat) (ds : List Char), n < fuel →
    (Nat.toDigitsCore 10 fuel n ds).foldl (fun acc c => 10 * acc + (c.toNat - 48)) 0
      = ds.foldl (fun acc c => 10 * acc + (c.toNat - 48)) n := by
  induction fuel with
  | zero => intro n ds h; omega
  | succ fuel ih =>
    intro n ds h
    unfold Nat.toDigitsCore
    simp only []
    by_cases h0 : n / 10 = 0
    · simp only [h0, if_true, List.foldl_cons, Nat.mul_zero, Nat.zero_add]
      rw [digit_value_digitChar _ (Nat.mod_lt _ (by decide))]
      congr 1
      omega
    · simp only [h0, if_false]
      rw [ih (n / 10) _ (by omega)]
      simp only [List.foldl_cons]
      rw [digit_value_digitChar _ (Nat.mod_lt _ (by decide))]
      congr 1
      omega

/-- Distinct numbers have distinct decimal representations. -/
theorem toString_nat_injective (a b : Nat) (h : toString a = toString b) : a = b := by
  have h2 : Nat.toDigits 10 a = Nat.toDigits 10 b := by
    have := congrArg String.data h
    simpa [toString, Nat.repr, List.asString] using this
  have ha := decode_toDigitsCore (a + 1) a [] (by omega)
  have hb := decode_toDigitsCore (b + 1) b [] (by omega)
  simp only [List.foldl_nil] at ha hb
  unfold Nat.toDigits at h2
  rw [← ha, ← hb, h2]

theorem coeff_name_ne (s : String) :
    "coeff_" ++ s ≠ "point" ∧ "coeff_" ++ s ≠ "result" ∧ "coeff_" ++ s ≠ "zero" ∧
    "coeff_" ++ s ≠ "one" := by
  refine ⟨?_, ?_, ?_, ?_⟩ <;>
  · intro h
    have := congrArg String.data h
    simp [String.data_append] at this

theorem coeff_name_injective (i j : Nat)
    (h : "coeff_" ++ toString i = "coeff_" ++ toString j) : i = j := by
  have h1 := congrArg String.data h
  simp only [String.data_append, List.append_cancel_left_eq] at h1
  exact toString_nat_injective i j (String.ext h1)

theorem getElem?_of_extension {α : Type} {l l2 : List α} (hp : l <+: l2) (i : Nat) (v : α)
    (h : l[i]? = some v) : l2[i]? = some v := by
  obtain ⟨t, rfl⟩ := hp
  have hi : i < l.length := (List.getElem?_eq_some_iff.mp h).1
  rw [List.getElem?_append_left hi]
  exact h

theorem coeff_loop_succ {F : Type} [CommRing F] [DecidableEq F] (random_element : Nat → F)
    (n : Nat) (pub_coeffs : Bool) :
    coeff_loop random_element (n + 1) pub_coeffs
      = coeff_loop_body random_element pub_coeffs (coeff_loop random_element n pub_coeffs) n := by
  simp [coeff_loop, List.range_succ, List.foldl_append]

/-- What one run of the body of the first loop does to the builder. -/
theorem coeff_loop_body_spec {F : Type} (random_element : Nat → F) (pub_coeffs : Bool)
    (st : CoeffLoop F) (i : Nat) :
    (coeff_loop_body random_element pub_coeffs st i).builder.variables_
      = st.builder.variables_ ++ [random_element i] ∧
    (coeff_loop_body random_element pub_coeffs st i).builder.variable_names
      = (st.builder.variables_.length, "coeff_" ++ toString i) :: st.builder.variable_names ∧
    (coeff_loop_body random_element pub_coeffs st i).builder.gates = st.builder.gates ∧
    (coeff_loop_body random_element pub_coeffs st i).builder.copy_constraints
      = st.builder.copy_constraints ∧
    (coeff_loop_body random_element pub_coeffs st i).builder.zero_idx = st.builder.zero_idx ∧
    (coeff_loop_body random_element pub_coeffs st i).builder.one_idx = st.builder.one_idx ∧
    (coeff_loop_body random_element pub_coeffs st i).coeffs = st.coeffs ++ [random_element i] ∧
    (coeff_loop_body random_element pub_coeffs st i).idxs
      = st.idxs ++ [st.builder.variables_.length] := by
  cases pub_coeffs <;>
    simp [coeff_loop_body, StandardCircuitBuilder.add_variable,
      StandardCircuitBuilder.add_public_variable, StandardCircuitBuilder.set_variable_name]

/-- The state of the builder after the first loop of `polynomial_evaluation_circuit`. -/
theorem coeff_loop_spec {F : Type} [CommRing F] [DecidableEq F] (random_element : Nat → F)
    (pub_coeffs : Bool) (n : Nat) :
    (coeff_loop random_element n pub_coeffs).idxs.length = n ∧
    (coeff_loop random_element n pub_coeffs).coeffs.length = n ∧
    (coeff_loop random_element n pub_coeffs).builder.gates
      = (StandardCircuitBuilder.new : StandardCircuitBuilder F).gates ∧
    (coeff_loop random_element n pub_coeffs).builder.copy_constraints
      = (StandardCircuitBuilder.new : StandardCircuitBuilder F).copy_constraints ∧
    (coeff_loop random_element n pub_coeffs).builder.zero_idx
      = (StandardCircuitBuilder.new : StandardCircuitBuilder F).zero_idx ∧
    (coeff_loop random_element n pub_coeffs).builder.one_idx
      = (StandardCircuitBuilder.new : StandardCircuitBuilder F).one_idx ∧
    (StandardCircuitBuilder.new : StandardCircuitBuilder F).variables_
      <+: (coeff_loop random_element n pub_coeffs).builder.variables_ ∧
    (∀ (i idx : Nat), (coeff_loop random_element n pub_coeffs).idxs[i]? = some idx →
      (coeff_loop random_element n pub_coeffs).builder.variable_names.find?
          (fun entry => entry.2 = "coeff_" ++ toString i)
        = some (idx, "coeff_" ++ toString i)) ∧
    (∀ p ∈ (coeff_loop random_element n pub_coeffs).coeffs.zip
        (coeff_loop random_element n pub_coeffs).idxs,
      (coeff_loop random_element n pub_coeffs).builder.variables_[p.2]? = some p.1) := by
  induction n with
  | zero =>
    simp [coeff_loop]
  | succ n ih =>
    obtain ⟨hi, hc, hg, hcc, hz, ho, hv, hn, hzip⟩ := ih
    obtain ⟨bv, bn, bg, bcc, bz, bo, bc, bi⟩ :=
      coeff_loop_body_spec random_element pub_coeffs (coeff_loop random_element n pub_coeffs) n
    rw [coeff_loop_succ]
    refine ⟨?_, ?_, ?_, ?_, ?_, ?_, ?_, ?_, ?_⟩
    · rw [bi, List.length_append, hi]
      rfl
    · rw [bc, List.length_append, hc]
      rfl
    · rw [bg, hg]
    · rw [bcc, hcc]
    · rw [bz, hz]
    · rw [bo, ho]
    · rw [bv]
      exact hv.trans (List.prefix_append _ _)
    · intro i idx hidx
      rw [bi] at hidx
      rw [bn]
      by_cases hlt : i < n
      · rw [List.getElem?_append_left (by omega)] at hidx
        have hne : ¬ ("coeff_" ++ toString n = "coeff_" ++ toString i) := by
          intro h
          have := coeff_name_injective n i h
          omega
        rw [List.find?_cons_of_neg _ (by simpa using hne)]
        exact hn i idx hidx
      · by_cases heq : i = n
        · subst heq
          rw [List.getElem?_append_right (by omega)] at hidx
          simp only [hi, Nat.sub_self, List.getElem?_cons_zero, Option.some.injEq] at hidx
          rw [List.find?_cons_of_pos _ (by simp), hidx]
        · have hlen : (coeff_loop random_element n pub_coeffs).idxs.length + 1 ≤ i := by omega
          rw [List.getElem?_eq_none (by simpa using hlen)] at hidx
          exact absurd hidx (by simp)
    · intro p hp
      rw [bc, bi, List.zip_append (by rw [hc, hi])] at hp
      rw [bv]
      rcases List.mem_append.mp hp with hp | hp
      · exact getElem?_of_extension (List.prefix_append _ _) _ _ (hzip p hp)
      · simp only [List.zip_cons_cons, List.zip_nil_right, List.mem_singleton] at hp
        subst hp
        simp

/-- What one run of the body of the second loop does: two variables and two rows are
appended, the multiplication row `res * point - mul = 0` and the addition row
`mul + coeff - add = 0`. -/
theorem eval_loop_body_spec {F : Type} [CommRing F] (z_idx : Nat) (z : F) (st : EvalLoop F)
    (coeff : F × Nat) :
    (eval_loop_body z_idx z st coeff).builder.variables_
      = st.builder.variables_ ++ [st.res * z, st.res * z + coeff.1] ∧
    (eval_loop_body z_idx z st coeff).builder.gates
      = st.builder.gates ++
        [{ w_l := st.res_idx, w_r := z_idx, w_o := st.builder.variables_.length, q_m := 1,
           q_1 := 0, q_2 := 0, q_3 := -1, q_c := 0 },
         { w_l := st.builder.variables_.length, w_r := coeff.2,
           w_o := st.builder.variables_.length + 1, q_m := 0, q_1 := 1, q_2 := 1, q_3 := -1,
           q_c := 0 }] ∧
    (eval_loop_body z_idx z st coeff).builder.variable_names = st.builder.variable_names ∧
    (eval_loop_body z_idx z st coeff).builder.copy_constraints = st.builder.copy_constraints ∧
    (eval_loop_body z_idx z st coeff).builder.zero_idx = st.builder.zero_idx ∧
    (eval_loop_body z_idx z st coeff).builder.one_idx = st.builder.one_idx ∧
    (eval_loop_body z_idx z st coeff).res = st.res * z + coeff.1 ∧
    (eval_loop_body z_idx z st coeff).res_idx = st.builder.variables_.length + 1 := by
  simp [eval_loop_body, StandardCircuitBuilder.add_variable,
    StandardCircuitBuilder.create_mul_gate, StandardCircuitBuilder.create_add_gate]

/-- The second loop only appends variables and rows and leaves the rest of the builder. -/
theorem eval_fold_frame {F : Type} [CommRing F] (z_idx : Nat) (z : F)
    (coeffs : List (F × Nat)) : ∀ st : EvalLoop F,
    st.builder.gates <+: (coeffs.foldl (eval_loop_body z_idx z) st).builder.gates ∧
    st.builder.variables_ <+: (coeffs.foldl (eval_loop_body z_idx z) st).builder.variables_ ∧
    (coeffs.foldl (eval_loop_body z_idx z) st).builder.variable_names
      = st.builder.variable_names ∧
    (coeffs.foldl (eval_loop_body z_idx z) st).builder.copy_constraints
      = st.builder.copy_constraints ∧
    (coeffs.foldl (eval_loop_body z_idx z) st).builder.zero_idx = st.builder.zero_idx ∧
    (coeffs.foldl (eval_loop_body z_idx z) st).builder.one_idx = st.builder.one_idx := by
  induction coeffs with
  | nil =>
    intro st
    exact ⟨List.prefix_refl _, List.prefix_refl _, rfl, rfl, rfl, rfl⟩
  | cons coeff rest ih =>
    intro st
    obtain ⟨bv, bg, bn, bcc, bz, bo, _, _⟩ := eval_loop_body_spec z_idx z st coeff
    obtain ⟨h1, h2, h3, h4, h5, h6⟩ := ih (eval_loop_body z_idx z st coeff)
    rw [List.foldl_cons]
    refine ⟨?_, ?_, ?_, ?_, ?_, ?_⟩
    · exact (bg ▸ List.prefix_append _ _ : st.builder.gates <+: _).trans h1
    · exact (bv ▸ List.prefix_append _ _ : st.builder.variables_ <+: _).trans h2
    · rw [h3, bn]
    · rw [h4, bcc]
    · rw [h5, bz]
    · rw [h6, bo]

/-- Soundness of the second loop: under every assignment `w` under which all rows of the
final gate table hold, the final `res_idx` holds the Horner evaluation, started from the
value of the initial `res_idx`, of the values of the coefficient variables at the value of
`z_idx`. -/
theorem eval_fold_sound {F : Type} [CommRing F] (z_idx : Nat) (z : F) (w : Nat → F)
    (coeffs : List (F × Nat)) : ∀ st : EvalLoop F,
    (∀ g ∈ (coeffs.foldl (eval_loop_body z_idx z) st).builder.gates, g.holds w) →
    w (coeffs.foldl (eval_loop_body z_idx z) st).res_idx
      = (coeffs.map (fun coeff => w coeff.2)).foldl (fun ev coeff => ev * w z_idx + coeff)
          (w st.res_idx) := by
  induction coeffs with
  | nil => intro st _; rfl
  | cons coeff rest ih =>
    intro st hg
    obtain ⟨_, bg, _, _, _, _, _, bi⟩ := eval_loop_body_spec z_idx z st coeff
    rw [List.foldl_cons] at hg ⊢
    rw [ih (eval_loop_body z_idx z st coeff) hg]
    simp only [List.map_cons, List.foldl_cons]
    congr 1
    have hsub := (eval_fold_frame z_idx z rest (eval_loop_body z_idx z st coeff)).1.subset
    have hmem1 : (GateRow.mk st.res_idx z_idx st.builder.variables_.length 1 0 0 (-1) 0)
        ∈ (eval_loop_body z_idx z st coeff).builder.gates := by
      rw [bg]
      simp
    have hmem2 : (GateRow.mk st.builder.variables_.length coeff.2
        (st.builder.variables_.length + 1) 0 1 1 (-1) 0)
        ∈ (eval_loop_body z_idx z st coeff).builder.gates := by
      rw [bg]
      simp
    have hmul := hg _ (hsub hmem1)
    have hadd := hg _ (hsub hmem2)
    simp only [GateRow.holds] at hmul hadd
    rw [bi]
    linear_combination (-1 : F) * hadd - hmul

/-- The constructor records no copy constraint and no name, and puts the constant 0 at
index 0. -/
theorem new_frame {F : Type} [CommRing F] [DecidableEq F] :
    (StandardCircuitBuilder.new : StandardCircuitBuilder F).copy_constraints = [] ∧
    (StandardCircuitBuilder.new : StandardCircuitBuilder F).variable_names = [] ∧
    (StandardCircuitBuilder.new : StandardCircuitBuilder F).zero_idx = 0 := by
  by_cases h : (0 : F) = 1 <;>
    simp [StandardCircuitBuilder.new, StandardCircuitBuilder.put_constant_variable,
      StandardCircuitBuilder.empty, StandardCircuitBuilder.add_variable,
      StandardCircuitBuilder.create_poly_gate, h]

/-- The builder the constructor leaves when `0 ≠ 1`: the variables 0 and 1 and three rows,
`w_0 = 0`, `w_1 - 1 = 0` and `w_1 * w_1 + w_1 + w_1 + w_1 - 4 = 0`. -/
theorem new_spec {F : Type} [CommRing F] [DecidableEq F] (h01 : (0 : F) ≠ 1) :
    (StandardCircuitBuilder.new : StandardCircuitBuilder F).variables_ = [0, 1] ∧
    (StandardCircuitBuilder.new : StandardCircuitBuilder F).zero_idx = 0 ∧
    (StandardCircuitBuilder.new : StandardCircuitBuilder F).one_idx = 1 ∧
    (StandardCircuitBuilder.new : StandardCircuitBuilder F).gates
      = [GateRow.mk 0 0 0 0 1 0 0 (-0), GateRow.mk 1 0 0 0 1 0 0 (-1),
         GateRow.mk 1 1 1 1 1 1 1 (-4)] := by
  simp [StandardCircuitBuilder.new, StandardCircuitBuilder.put_constant_variable,
    StandardCircuitBuilder.empty, StandardCircuitBuilder.add_variable,
    StandardCircuitBuilder.create_poly_gate, h01]

theorem map_range_eq_map {α : Type} (n : Nat) (l : List Nat) (f : Nat → α) (g : Nat → α)
    (hlen : l.length = n) (h : ∀ (i idx : Nat), l[i]? = some idx → f i = g idx) :
    (List.range n).map f = l.map g := by
  apply List.ext_getElem?
  intro i
  by_cases hi : i < n
  · have hli : i < l.length := by omega
    have hget : l[i]? = some l[i] := List.getElem?_eq_getElem hli
    simp only [List.getElem?_map, List.getElem?_range hi, hget, Option.map_some']
    rw [h i l[i] hget]
  · have h1 : (List.range n)[i]? = none := List.getElem?_eq_none (by simpa using hi)
    have h2 : l[i]? = none := List.getElem?_eq_none (by omega)
    simp only [List.getElem?_map, h1, h2, Option.map_none']

/-- The variables behind the names of the circuit that `polynomial_evaluation_circuit`
builds, and its gate table. -/
theorem circuit_names {F : Type} [CommRing F] [DecidableEq F] (random_element : Nat → F)
    (n : Nat) (pub_coeffs : Bool) :
    circuit_variable (polynomial_evaluation_circuit random_element n pub_coeffs) "result"
      = (eval_loop random_element n pub_coeffs).res_idx ∧
    circuit_variable (polynomial_evaluation_circuit random_element n pub_coeffs) "point"
      = (coeff_loop random_element n pub_coeffs).builder.variables_.length ∧
    circuit_variable (polynomial_evaluation_circuit random_element n pub_coeffs) "zero"
      = (StandardCircuitBuilder.new : StandardCircuitBuilder F).zero_idx ∧
    circuit_variable (polynomial_evaluation_circuit random_element n pub_coeffs) "one"
      = (StandardCircuitBuilder.new : StandardCircuitBuilder F).one_idx ∧
    (∀ (i idx : Nat), (coeff_loop random_element n pub_coeffs).idxs[i]? = some idx →
      circuit_variable (polynomial_evaluation_circuit random_element n pub_coeffs)
        ("coeff_" ++ toString i) = idx) ∧
    (polynomial_evaluation_circuit random_element n pub_coeffs).gates
      = (eval_loop random_element n pub_coeffs).builder.gates ∧
    (polynomial_evaluation_circuit random_element n pub_coeffs).variables_
      = (eval_loop random_element n pub_coeffs).builder.variables_ ∧
    (polynomial_evaluation_circuit random_element n pub_coeffs).copy_constraints
      = [((StandardCircuitBuilder.new : StandardCircuitBuilder F).zero_idx, 0)] := by
  obtain ⟨_, _, _, hcc, hz, ho, _, hn, _⟩ := coeff_loop_spec random_element pub_coeffs n
  obtain ⟨_, _, fn, fcc, fz, fo⟩ := eval_fold_frame
    ((coeff_loop random_element n pub_coeffs).builder.add_variable (10 : F)).1 (10 : F)
    ((coeff_loop random_element n pub_coeffs).coeffs.zip
      (coeff_loop random_element n pub_coeffs).idxs)
    { builder := ((((coeff_loop random_element n pub_coeffs).builder.add_variable
          (10 : F)).2.set_variable_name
          ((coeff_loop random_element n pub_coeffs).builder.add_variable (10 : F)).1
          "point").assert_equal
          (coeff_loop random_element n pub_coeffs).builder.zero_idx 0)
      res := 0
      res_idx := (coeff_loop random_element n pub_coeffs).builder.zero_idx }
  have hnames : (polynomial_evaluation_circuit random_element n pub_coeffs).variable_names
      = ((eval_loop random_element n pub_coeffs).res_idx, "result")
        :: ((coeff_loop random_element n pub_coeffs).builder.variables_.length, "point")
        :: (coeff_loop random_element n pub_coeffs).builder.variable_names := by
    show _ :: (eval_loop random_element n pub_coeffs).builder.variable_names = _
    congr 1
  have hzero : (polynomial_evaluation_circuit random_element n pub_coeffs).zero_idx
      = (StandardCircuitBuilder.new : StandardCircuitBuilder F).zero_idx := by
    show (eval_loop random_element n pub_coeffs).builder.zero_idx = _
    exact fz.trans hz
  have hone : (polynomial_evaluation_circuit random_element n pub_coeffs).one_idx
      = (StandardCircuitBuilder.new : StandardCircuitBuilder F).one_idx := by
    show (eval_loop random_element n pub_coeffs).builder.one_idx = _
    exact fo.trans ho
  have hcopy : (polynomial_evaluation_circuit random_element n pub_coeffs).copy_constraints
      = [((StandardCircuitBuilder.new : StandardCircuitBuilder F).zero_idx, 0)] := by
    show (eval_loop random_element n pub_coeffs).builder.copy_constraints = _
    rw [show (eval_loop random_element n pub_coeffs).builder.copy_constraints = _ from fcc]
    simp only [StandardCircuitBuilder.assert_equal, StandardCircuitBuilder.set_variable_name,
      StandardCircuitBuilder.add_variable, hcc, hz, new_frame.1, List.nil_append]
  refine ⟨?_, ?_, ?_, ?_, ?_, rfl, rfl, hcopy⟩
  · simp [circuit_variable, hnames]
  · simp [circuit_variable, hnames]
  · simp [circuit_variable, hzero]
  · simp [circuit_variable, hone]
  · intro i idx hidx
    obtain ⟨h1, h2, h3, h4⟩ := coeff_name_ne (toString i)
    have hf := hn i idx hidx
    simp only [circuit_variable, hnames, h3, h4, if_false]
    rw [List.find?_cons_of_neg _ (by simpa using fun h => h2 h.symm),
      List.find?_cons_of_neg _ (by simpa using fun h => h1 h.symm), hf]

/-- Under every assignment under which all rows of the gate table hold, the variable "result"
holds the Horner evaluation, started from the value of the variable "zero", of the values of
the variables "coeff_i" at the value of the variable "point". -/
theorem result_eq_horner {F : Type} [CommRing F] [DecidableEq F] (random_element : Nat → F)
    (n : Nat) (pub_coeffs : Bool) (w : Nat → F)
    (hgates : ∀ g ∈ (polynomial_evaluation_circuit random_element n pub_coeffs).gates,
      g.holds w) :
    w (circuit_variable (polynomial_evaluation_circuit random_element n pub_coeffs) "result")
      = ((List.range n).map (fun i => w (circuit_variable
            (polynomial_evaluation_circuit random_element n pub_coeffs)
            ("coeff_" ++ toString i)))).foldl
          (fun ev coeff => ev * w (circuit_variable
            (polynomial_evaluation_circuit random_element n pub_coeffs) "point") + coeff)
          (w (circuit_variable
            (polynomial_evaluation_circuit random_element n pub_coeffs) "zero")) := by
  obtain ⟨hres, hpoint, hzero, _, hcoeff, hg, _, _⟩ :=
    circuit_names random_element n pub_coeffs
  obtain ⟨hi, hc, _, _, hz, _, _, _, _⟩ := coeff_loop_spec random_element pub_coeffs n
  rw [hg] at hgates
  have hsound : w (eval_loop random_element n pub_coeffs).res_idx
      = (((coeff_loop random_element n pub_coeffs).coeffs.zip
          (coeff_loop random_element n pub_coeffs).idxs).map (fun coeff => w coeff.2)).foldl
          (fun ev coeff =>
            ev * w (coeff_loop random_element n pub_coeffs).builder.variables_.length + coeff)
          (w (coeff_loop random_element n pub_coeffs).builder.zero_idx) :=
    eval_fold_sound _ _ w _ _ hgates
  have hmap : (List.range n).map (fun i => w (circuit_variable
        (polynomial_evaluation_circuit random_element n pub_coeffs) ("coeff_" ++ toString i)))
      = (coeff_loop random_element n pub_coeffs).idxs.map w :=
    map_range_eq_map n _ _ w hi (fun i idx h => by rw [hcoeff i idx h])
  have hsnd : ((coeff_loop random_element n pub_coeffs).coeffs.zip
        (coeff_loop random_element n pub_coeffs).idxs).map (fun coeff => w coeff.2)
      = (coeff_loop random_element n pub_coeffs).idxs.map w := by
    have h2 := List.map_snd_zip (coeff_loop random_element n pub_coeffs).coeffs
      (coeff_loop random_element n pub_coeffs).idxs (by rw [hc, hi])
    calc ((coeff_loop random_element n pub_coeffs).coeffs.zip
          (coeff_loop random_element n pub_coeffs).idxs).map (fun coeff => w coeff.2)
        = (((coeff_loop random_element n pub_coeffs).coeffs.zip
          (coeff_loop random_element n pub_coeffs).idxs).map Prod.snd).map w := by
          rw [List.map_map]
          rfl
      _ = (coeff_loop random_element n pub_coeffs).idxs.map w := by rw [h2]
  rw [hres, hpoint, hzero, hsound, hmap, hsnd, hz]

theorem getD_of_getElem? {F : Type} [CommRing F] (vars : List F) (i : Nat) (v : F)
    (h : vars[i]? = some v) : vars.getD i 0 = v := by
  rw [List.getD_eq_getElem?_getD, h]
  rfl

/-- Completeness of the second loop: the values the builder stores satisfy the rows it
creates. For every list `vars` of values that extends the final variable store, if the rows
present before the loop hold under `vars` and the variables `res_idx`, `z_idx` and those of
the coefficients hold `res`, `z` and the coefficients, then all rows of the final gate table
hold under `vars` and the final `res_idx` holds the final `res`. -/
theorem eval_fold_witness {F : Type} [CommRing F] (z_idx : Nat) (z : F)
    (coeffs : List (F × Nat)) : ∀ (st : EvalLoop F) (vars : List F),
    (coeffs.foldl (eval_loop_body z_idx z) st).builder.variables_ <+: vars →
    (∀ g ∈ st.builder.gates, g.holds (fun i => vars.getD i 0)) →
    st.builder.variables_[st.res_idx]? = some st.res →
    st.builder.variables_[z_idx]? = some z →
    (∀ p ∈ coeffs, st.builder.variables_[p.2]? = some p.1) →
    (∀ g ∈ (coeffs.foldl (eval_loop_body z_idx z) st).builder.gates,
      g.holds (fun i => vars.getD i 0)) ∧
    (coeffs.foldl (eval_loop_body z_idx z) st).builder.variables_[
      (coeffs.foldl (eval_loop_body z_idx z) st).res_idx]?
      = some (coeffs.foldl (eval_loop_body z_idx z) st).res := by
  induction coeffs with
  | nil =>
    intro st vars _ hg hres _ _
    exact ⟨hg, hres⟩
  | cons coeff rest ih =>
    intro st vars hpre hg hres hz hco
    obtain ⟨bv, bg, _, _, _, _, br, bi⟩ := eval_loop_body_spec z_idx z st coeff
    rw [List.foldl_cons] at hpre ⊢
    have hstep : st.builder.variables_ <+: (eval_loop_body z_idx z st coeff).builder.variables_ :=
      bv ▸ List.prefix_append _ _
    have hfin : (eval_loop_body z_idx z st coeff).builder.variables_ <+: vars :=
      (eval_fold_frame z_idx z rest (eval_loop_body z_idx z st coeff)).2.1.trans hpre
    have hmulv : (eval_loop_body z_idx z st coeff).builder.variables_[
        st.builder.variables_.length]? = some (st.res * z) := by
      rw [bv, List.getElem?_append_right (Nat.le_refl _)]
      simp
    have haddv : (eval_loop_body z_idx z st coeff).builder.variables_[
        st.builder.variables_.length + 1]? = some (st.res * z + coeff.1) := by
      rw [bv, List.getElem?_append_right (Nat.le_succ _)]
      simp
    have vres := getD_of_getElem? vars _ _
      (getElem?_of_extension hfin _ _ (getElem?_of_extension hstep _ _ hres))
    have vz := getD_of_getElem? vars _ _
      (getElem?_of_extension hfin _ _ (getElem?_of_extension hstep _ _ hz))
    have vco := getD_of_getElem? vars _ _
      (getElem?_of_extension hfin _ _ (getElem?_of_extension hstep _ _
        (hco coeff (List.mem_cons_self _ _))))
    have vmul := getD_of_getElem? vars _ _ (getElem?_of_extension hfin _ _ hmulv)
    have vadd := getD_of_getElem? vars _ _ (getElem?_of_extension hfin _ _ haddv)
    refine ih (eval_loop_body z_idx z st coeff) vars hpre ?_ ?_ ?_ ?_
    · intro g hgm
      rw [bg] at hgm
      rcases List.mem_append.mp hgm with hgm | hgm
      · exact hg g hgm
      · simp only [List.mem_cons, List.mem_singleton, List.not_mem_nil, or_false] at hgm
        rcases hgm with rfl | rfl
        · simp only [GateRow.holds, vres, vz, vmul]
          ring
        · simp only [GateRow.holds, vco, vmul, vadd]
          ring
    · rw [bi, br]
      exact haddv
    · exact getElem?_of_extension hstep _ _ hz
    · intro p hp
      exact getElem?_of_extension hstep _ _ (hco p (List.mem_cons_of_mem _ hp))

/-- The Horner evaluation started from `s` is the one started from 0 plus `s * x ^ n`. -/
theorem horner_seed {F : Type} [CommRing F] (x : F) (coeffs : List F) : ∀ s : F,
    coeffs.foldl (fun ev coeff => ev * x + coeff) s
      = coeffs.foldl (fun ev coeff => ev * x + coeff) 0 + s * x ^ coeffs.length := by
  induction coeffs with
  | nil => intro s; simp
  | cons c rest ih =>
    intro s
    simp only [List.foldl_cons, List.length_cons]
    rw [ih (s * x + c), ih (0 * x + c)]
    ring

/-- The values the builder stores are a satisfying assignment of the circuit it builds (when
`0 ≠ 1` in the ring); under it "point" is 10. -/
theorem builder_assignment_satisfies {F : Type} [CommRing F] [DecidableEq F]
    (random_element : Nat → F) (n : Nat) (pub_coeffs : Bool) (h01 : (0 : F) ≠ 1) :
    satisfied_by (polynomial_evaluation_circuit random_element n pub_coeffs)
      (builder_assignment (polynomial_evaluation_circuit random_element n pub_coeffs)) ∧
    builder_assignment (polynomial_evaluation_circuit random_element n pub_coeffs)
      (circuit_variable (polynomial_evaluation_circuit random_element n pub_coeffs) "point")
      = 10 := by
  obtain ⟨_, hpoint, hzero, hone, _, hg, hv, hcopy⟩ :=
    circuit_names random_element n pub_coeffs
  obtain ⟨_, _, cg, _, cz, _, cv, _, czip⟩ := coeff_loop_spec random_element pub_coeffs n
  obtain ⟨nv, nz, no, ng⟩ := new_spec h01
  have hfr := eval_fold_frame
    ((coeff_loop random_element n pub_coeffs).builder.add_variable (10 : F)).1 (10 : F)
    ((coeff_loop random_element n pub_coeffs).coeffs.zip
      (coeff_loop random_element n pub_coeffs).idxs)
    { builder := ((((coeff_loop random_element n pub_coeffs).builder.add_variable
          (10 : F)).2.set_variable_name
          ((coeff_loop random_element n pub_coeffs).builder.add_variable (10 : F)).1
          "point").assert_equal
          (coeff_loop random_element n pub_coeffs).builder.zero_idx 0)
      res := 0
      res_idx := (coeff_loop random_element n pub_coeffs).builder.zero_idx }
  have hstart : (coeff_loop random_element n pub_coeffs).builder.variables_ ++ [(10 : F)]
      <+: (eval_loop random_element n pub_coeffs).builder.variables_ := hfr.2.1
  have hbase : (coeff_loop random_element n pub_coeffs).builder.variables_
      <+: (coeff_loop random_element n pub_coeffs).builder.variables_ ++ [(10 : F)] :=
    List.prefix_append _ _
  have h0 : (coeff_loop random_element n pub_coeffs).builder.variables_[0]? = some (0 : F) :=
    getElem?_of_extension cv 0 0 (by rw [nv]; rfl)
  have h1 : (coeff_loop random_element n pub_coeffs).builder.variables_[1]? = some (1 : F) :=
    getElem?_of_extension cv 1 1 (by rw [nv]; rfl)
  have hz10 : ((coeff_loop random_element n pub_coeffs).builder.variables_ ++ [(10 : F)])[
      (coeff_loop random_element n pub_coeffs).builder.variables_.length]? = some (10 : F) := by
    rw [List.getElem?_append_right (Nat.le_refl _)]
    simp
  have v0 := getD_of_getElem? (eval_loop random_element n pub_coeffs).builder.variables_ _ _
    (getElem?_of_extension hstart _ _ (getElem?_of_extension hbase _ _ h0))
  have v1 := getD_of_getElem? (eval_loop random_element n pub_coeffs).builder.variables_ _ _
    (getElem?_of_extension hstart _ _ (getElem?_of_extension hbase _ _ h1))
  have vz := getD_of_getElem? (eval_loop random_element n pub_coeffs).builder.variables_ _ _
    (getElem?_of_extension hstart _ _ hz10)
  have hwit := eval_fold_witness
    ((coeff_loop random_element n pub_coeffs).builder.add_variable (10 : F)).1 (10 : F)
    ((coeff_loop random_element n pub_coeffs).coeffs.zip
      (coeff_loop random_element n pub_coeffs).idxs)
    { builder := ((((coeff_loop random_element n pub_coeffs).builder.add_variable
          (10 : F)).2.set_variable_name
          ((coeff_loop random_element n pub_coeffs).builder.add_variable (10 : F)).1
          "point").assert_equal
          (coeff_loop random_element n pub_coeffs).builder.zero_idx 0)
      res := 0
      res_idx := (coeff_loop random_element n pub_coeffs).builder.zero_idx }
    (eval_loop random_element n pub_coeffs).builder.variables_ (List.prefix_refl _)
    (by
      intro g hgm
      have hgm2 : g ∈ (StandardCircuitBuilder.new : StandardCircuitBuilder F).gates := by
        rw [← cg]
        exact hgm
      rw [ng] at hgm2
      simp only [List.mem_cons, List.mem_singleton, List.not_mem_nil, or_false] at hgm2
      rcases hgm2 with rfl | rfl | rfl
      · simp only [GateRow.holds, v0]
        ring
      · simp only [GateRow.holds, v0, v1]
        ring
      · simp only [GateRow.holds, v1]
        ring)
    (by
      show ((coeff_loop random_element n pub_coeffs).builder.variables_ ++ [(10 : F)])[
        (coeff_loop random_element n pub_coeffs).builder.zero_idx]? = some (0 : F)
      rw [cz, nz]
      exact getElem?_of_extension hbase _ _ h0)
    hz10
    (by
      intro p hp
      exact getElem?_of_extension hbase _ _ (czip p hp))
  have hba : builder_assignment (polynomial_evaluation_circuit random_element n pub_coeffs)
      = fun i => (eval_loop random_element n pub_coeffs).builder.variables_.getD i 0 := rfl
  rw [hba]
  refine ⟨⟨?_, ?_, ?_, ?_⟩, ?_⟩
  · intro g hgm
    rw [hg] at hgm
    exact hwit.1 g hgm
  · intro p hp
    rw [hcopy] at hp
    simp only [List.mem_singleton] at hp
    subst hp
    simp only [nz]
  · rw [hzero, nz]
    exact v0
  · rw [hone, no]
    exact v1
  · rw [hpoint]
    exact vz

/-- In every satisfying assignment the evaluation seeded with "one" is the value of "result"
plus the `n`-th power of the value of "point". -/
theorem seed_one_evaluation {F : Type} [CommRing F] [DecidableEq F] (random_element : Nat → F)
    (n : Nat) (pub_coeffs : Bool) (w : Nat → F)
    (hsat : satisfied_by (polynomial_evaluation_circuit random_element n pub_coeffs) w) :
    polynomial_evaluation (polynomial_evaluation_circuit random_element n pub_coeffs) w n false
      = w (circuit_variable (polynomial_evaluation_circuit random_element n pub_coeffs) "result")
        + w (circuit_variable (polynomial_evaluation_circuit random_element n pub_coeffs)
            "point") ^ n := by
  obtain ⟨hgates, _, hzero, hone⟩ := hsat
  rw [result_eq_horner random_element n pub_coeffs w hgates, hzero]
  simp only [polynomial_evaluation, Bool.false_eq_true, if_false, hone]
  rw [horner_seed _ _ 1]
  simp

theorem zero_ne_one_mod_r : (0 : ZMod r) ≠ 1 := by
  intro h
  have h2 : ((1 : ℕ) : ZMod r) = 0 := by
    simpa using h.symm
  rw [ZMod.natCast_zmod_eq_zero_iff_dvd] at h2
  have h3 := Nat.le_of_dvd (by norm_num) h2
  unfold r at h3
  norm_num at h3

theorem ten_pow_thirty_ne_zero_mod_r : (10 : ZMod r) ^ 30 ≠ 0 := by
  intro h
  have h2 : ((10 ^ 30 : ℕ) : ZMod r) = 0 := by
    push_cast
    exact h
  rw [ZMod.natCast_zmod_eq_zero_iff_dvd] at h2
  have h3 := Nat.le_of_dvd (by norm_num) h2
  unfold r at h3
  norm_num at h3

/-- The evaluation seeded with one, for every outcome of the random coefficients: in a ring
with `0 ≠ 1` and `10 ^ n ≠ 0` (the scalar field of the test for `n = 30`), under every
satisfying assignment of the circuit built by `polynomial_evaluation_circuit(n, pub_coeffs)`
the Horner evaluation seeded with one is `result + point ^ n`, so "result" differs from it
exactly when `point ^ n ≠ 0`; the values the builder stores (with `point = 10`) are such an
assignment, so the constraint system "circuit and `result != ev`" has a solution. -/
theorem incorrect_evaluation_is_satisfiable {F : Type} [CommRing F] [DecidableEq F]
    (random_element : Nat → F) (n : Nat) (pub_coeffs : Bool) (h01 : (0 : F) ≠ 1)
    (hpow : (10 : F) ^ n ≠ 0) :
    (∀ w, satisfied_by (polynomial_evaluation_circuit random_element n pub_coeffs) w →
      polynomial_evaluation (polynomial_evaluation_circuit random_element n pub_coeffs)
          w n false
        = w (circuit_variable (polynomial_evaluation_circuit random_element n pub_coeffs)
            "result")
          + w (circuit_variable (polynomial_evaluation_circuit random_element n pub_coeffs)
            "point") ^ n) ∧
    (∀ w, satisfied_by (polynomial_evaluation_circuit random_element n pub_coeffs) w →
      (result_differs (polynomial_evaluation_circuit random_element n pub_coeffs) w n false ↔
        w (circuit_variable (polynomial_evaluation_circuit random_element n pub_coeffs)
          "point") ^ n ≠ 0)) ∧
    ∃ w, satisfied_by (polynomial_evaluation_circuit random_element n pub_coeffs) w ∧
      result_differs (polynomial_evaluation_circuit random_element n pub_coeffs) w n false := by
  have hiff : ∀ w, satisfied_by (polynomial_evaluation_circuit random_element n pub_coeffs) w →
      (result_differs (polynomial_evaluation_circuit random_element n pub_coeffs) w n false ↔
        w (circuit_variable (polynomial_evaluation_circuit random_element n pub_coeffs)
          "point") ^ n ≠ 0) := by
    intro w hsat
    unfold result_differs
    rw [seed_one_evaluation random_element n pub_coeffs w hsat]
    constructor
    · intro hne hp
      exact hne (by rw [hp, add_zero])
    · intro hne heq
      exact hne (by simpa using heq.symm)
  refine ⟨fun w hsat => seed_one_evaluation random_element n pub_coeffs w hsat, hiff, ?_⟩
  obtain ⟨hsat, hpoint⟩ := builder_assignment_satisfies random_element n pub_coeffs h01
  exact ⟨_, hsat, (hiff _ hsat).2 (by rw [hpoint]; exact hpow)⟩

/-- The evaluation seeded with one in the scalar field of the test, `n = 30`, public
coefficients `1, 2, ..., 30`: the constraint system has a solution. -/
theorem incorrect_evaluation_is_satisfiable_witness :
    (0 : ZMod r) ≠ 1 ∧ (10 : ZMod r) ^ 30 ≠ 0 ∧
    ∃ w, satisfied_by (polynomial_evaluation_circuit (fun i => (i : ZMod r) + 1) 30 true) w ∧
      result_differs (polynomial_evaluation_circuit (fun i => (i : ZMod r) + 1) 30 true)
        w 30 false :=
  ⟨zero_ne_one_mod_r, ten_pow_thirty_ne_zero_mod_r,
   (incorrect_evaluation_is_satisfiable (fun i => (i : ZMod r) + 1) 30 true zero_ne_one_mod_r
     ten_pow_thirty_ne_zero_mod_r).2.2⟩

/-- C18 (the code of `TEST(polynomial_evaluation, incorrect)`): over the scalar field of the
test, for `n = 30` and public coefficients `1, 2, ..., 30`, the values the builder stores
satisfy every constraint of the circuit, and under them "result" differs from the Horner
evaluation seeded with one (by `10 ^ 30`). The constraint system "circuit and `result != ev`"
that the test hands to the solver therefore has a solution, whereas the test asserts
`ASSERT_FALSE(res)` on the result of `s.check()`. -/
theorem seed_one_constraint_satisfiable :
    satisfied_by (polynomial_evaluation_circuit (fun i => (i : ZMod r) + 1) 30 true)
      (builder_assignment (polynomial_evaluation_circuit (fun i => (i : ZMod r) + 1) 30 true)) ∧
    result_differs (polynomial_evaluation_circuit (fun i => (i : ZMod r) + 1) 30 true)
      (builder_assignment (polynomial_evaluation_circuit (fun i => (i : ZMod r) + 1) 30 true))
      30 false ∧
    polynomial_evaluation (polynomial_evaluation_circuit (fun i => (i : ZMod r) + 1) 30 true)
      (builder_assignment (polynomial_evaluation_circuit (fun i => (i : ZMod r) + 1) 30 true))
      30 false
      = builder_assignment (polynomial_evaluation_circuit (fun i => (i : ZMod r) + 1) 30 true)
          (circuit_variable (polynomial_evaluation_circuit (fun i => (i : ZMod r) + 1) 30 true)
            "result") + 10 ^ 30 := by
  obtain ⟨hsat, hpoint⟩ :=
    builder_assignment_satisfies (fun i => (i : ZMod r) + 1) 30 true zero_ne_one_mod_r
  have hev := seed_one_evaluation (fun i => (i : ZMod r) + 1) 30 true _ hsat
  rw [hpoint] at hev
  refine ⟨hsat, ?_, hev⟩
  unfold result_differs
  rw [hev]
  intro heq
  exact ten_pow_thirty_ne_zero_mod_r (by simpa using heq.symm)

end smt_polynomials

/-! ## The transcript manifest, tags, range bounds and orderings: further theorems -/

namespace plonk

/-- C22: in the manifest `create_manifest(n)` the round "nu" has the entries
`nu_round_elements`, in which every shifted entry `X_omega` (for `X` among `w_1..w_4`, `s`,
`z_perm`, `z_lookup`, `table_value_1..table_value_4`) is present with the same
`challenge_map_index` as the entry `X`; and the entry "public_inputs" (of the round "eta")
has `num_bytes = 32 * n` (on `size_t`; the plain product when it fits in 64 bits). -/
theorem manifest_shifted_indices (ULTRA_MANIFEST_SIZE n : Nat) :
    (∀ round ∈ create_manifest ULTRA_MANIFEST_SIZE n, round.challenge = "nu" →
      round.elements = nu_round_elements) ∧
    (∃ round ∈ create_manifest ULTRA_MANIFEST_SIZE n, round.challenge = "nu") ∧
    (∀ x ∈ shifted_names, ∃ e ∈ nu_round_elements, ∃ e2 ∈ nu_round_elements,
      e.name = x ∧ e2.name = x ++ "_omega" ∧
      e2.challenge_map_index = e.challenge_map_index) ∧
    (∀ e ∈ nu_round_elements, ∀ e2 ∈ nu_round_elements, e2.name = e.name ++ "_omega" →
      e2.challenge_map_index = e.challenge_map_index) ∧
    (∀ round ∈ create_manifest ULTRA_MANIFEST_SIZE n, ∀ e ∈ round.elements,
      e.name = "public_inputs" → e.num_bytes = (32 * n) % 2 ^ 64) ∧
    (∃ round ∈ create_manifest ULTRA_MANIFEST_SIZE n, ∃ e ∈ round.elements,
      e.name = "public_inputs" ∧ e.num_bytes = (32 * n) % 2 ^ 64) ∧
    (32 * n < 2 ^ 64 → ∀ round ∈ create_manifest ULTRA_MANIFEST_SIZE n,
      ∀ e ∈ round.elements, e.name = "public_inputs" → e.num_bytes = 32 * n) := by
  have hpub : ∀ round ∈ create_manifest ULTRA_MANIFEST_SIZE n, ∀ e ∈ round.elements,
      e.name = "public_inputs" → e.num_bytes = (32 * n) % 2 ^ 64 := by
    intro round hr e he hname
    simp only [create_manifest, List.mem_cons, List.mem_singleton, List.not_mem_nil,
      or_false] at hr
    rcases hr with rfl | rfl | rfl | rfl | rfl | rfl | rfl
    · simp only [List.mem_cons, List.mem_singleton, List.not_mem_nil, or_false] at he
      rcases he with rfl | rfl <;> exact absurd hname (by decide)
    · simp only [List.mem_cons, List.mem_singleton, List.not_mem_nil, or_false] at he
      rcases he with rfl | rfl | rfl | rfl
      · rfl
      all_goals exact absurd hname (by decide)
    · simp only [List.mem_cons, List.mem_singleton, List.not_mem_nil, or_false] at he
      rcases he with rfl | rfl <;> exact absurd hname (by decide)
    · simp only [List.mem_cons, List.mem_singleton, List.not_mem_nil, or_false] at he
      rcases he with rfl | rfl <;> exact absurd hname (by decide)
    · simp only [List.mem_cons, List.mem_singleton, List.not_mem_nil, or_false] at he
      rcases he with rfl | rfl | rfl | rfl <;> exact absurd hname (by decide)
    · have hnone : ∀ e ∈ nu_round_elements, e.name ≠ "public_inputs" := by decide
      exact absurd hname (hnone e he)
    · simp only [List.mem_cons, List.mem_singleton, List.not_mem_nil, or_false] at he
      rcases he with rfl | rfl <;> exact absurd hname (by decide)
  refine ⟨?_, ?_, by decide, by decide, hpub, ?_, ?_⟩
  · intro round hr hc
    simp only [create_manifest, List.mem_cons, List.mem_singleton, List.not_mem_nil,
      or_false] at hr
    rcases hr with rfl | rfl | rfl | rfl | rfl | rfl | rfl
    all_goals first
      | rfl
      | exact absurd hc (by simp)
  · exact ⟨⟨nu_round_elements, "nu", ULTRA_MANIFEST_SIZE, true⟩, by simp [create_manifest], rfl⟩
  · refine ⟨_, List.mem_cons_of_mem _ (List.mem_cons_self _ _), _, List.mem_cons_self _ _,
      rfl, rfl⟩
  · intro hfit round hr e he hname
    rw [hpub round hr e he hname]
    exact Nat.mod_eq_of_lt hfit

/-- Witness for C22 with three public inputs: "public_inputs" has 96 bytes, and "w_1_omega"
has the challenge index 0 of "w_1". -/
theorem manifest_shifted_indices_witness :
    (∃ round ∈ create_manifest 31 3, ∃ e ∈ round.elements,
      e.name = "public_inputs" ∧ e.num_bytes = 96) ∧
    (∃ e ∈ nu_round_elements, ∃ e2 ∈ nu_round_elements,
      e.name = "w_1" ∧ e2.name = "w_1" ++ "_omega" ∧
      e2.challenge_map_index = e.challenge_map_index) :=
  ⟨(manifest_shifted_indices 31 3).2.2.2.2.2.1,
   (manifest_shifted_indices 31 3).2.2.1 "w_1" (by decide)⟩

/-- C23: when the class of a variable carries `DUMMY_TAG` and `tag <= current_tag`,
`assign_tag(variable_index, tag)` succeeds; afterwards the tag stored for the representative
`real_variable_index[variable_index]` is `tag` (so every variable with the same
representative observes it), the tag of every other representative is as before, and
`current_tag`, `tau` and `real_variable_index` are unchanged. -/
theorem assign_tag_sets_class_tag {F : Type} (DUMMY_TAG : Nat) (c : UltraComposer F)
    (variable_index tag r : Nat) (hr : c.real_variable_index[variable_index]? = some r)
    (ht : c.real_variable_tags[r]? = some DUMMY_TAG) (htag : tag ≤ c.current_tag) :
    ∃ c1, assign_tag DUMMY_TAG c variable_index tag = Outcome.ok c1 ∧
      c1.real_variable_tags[r]? = some tag ∧
      (∀ (v2 : Nat), c.real_variable_index[v2]? = some r →
        (c1.real_variable_index[v2]?.bind (fun (r2 : Nat) => c1.real_variable_tags[r2]?))
          = some tag) ∧
      (∀ (r2 : Nat), r2 ≠ r → c1.real_variable_tags[r2]? = c.real_variable_tags[r2]?) ∧
      c1.real_variable_tags.length = c.real_variable_tags.length ∧
      c1.current_tag = c.current_tag ∧ c1.tau = c.tau ∧
      c1.real_variable_index = c.real_variable_index := by
  have hlt : r < c.real_variable_tags.length := (List.getElem?_eq_some_iff.mp ht).1
  have hset : (c.real_variable_tags.set r tag)[r]? = some tag := by
    simp [hlt]
  refine ⟨{ c with real_variable_tags := c.real_variable_tags.set r tag }, ?_, hset, ?_, ?_,
    ?_, rfl, rfl, rfl⟩
  · unfold assign_tag
    simp [htag, hr, ht]
  · intro v2 hv2
    show (c.real_variable_index[v2]?.bind
      (fun (r2 : Nat) => (c.real_variable_tags.set r tag)[r2]?)) = some tag
    rw [hv2]
    exact hset
  · intro r2 hne
    show (c.real_variable_tags.set r tag)[r2]? = c.real_variable_tags[r2]?
    rw [List.getElem?_set_ne (fun h => hne h.symm)]
  · show (c.real_variable_tags.set r tag).length = c.real_variable_tags.length
    exact List.length_set _ _ _

/-- Witness for C23 with `DUMMY_TAG = 0`: after `get_new_tag()` returned 1, tagging variable 0
with 1 succeeds and the tag table becomes `[1, 0]`. -/
theorem assign_tag_sets_class_tag_witness :
    ∃ c1, assign_tag 0 (get_new_tag small_composer).2 0 1 = Outcome.ok c1 ∧
      c1.real_variable_tags[0]? = some 1 ∧
      (∀ (v2 : Nat), (get_new_tag small_composer).2.real_variable_index[v2]? = some 0 →
        (c1.real_variable_index[v2]?.bind (fun (r2 : Nat) => c1.real_variable_tags[r2]?))
          = some 1) ∧
      (∀ (r2 : Nat), r2 ≠ 0 →
        c1.real_variable_tags[r2]? = (get_new_tag small_composer).2.real_variable_tags[r2]?) ∧
      c1.real_variable_tags.length = (get_new_tag small_composer).2.real_variable_tags.length ∧
      c1.current_tag = (get_new_tag small_composer).2.current_tag ∧
      c1.tau = (get_new_tag small_composer).2.tau ∧
      c1.real_variable_index = (get_new_tag small_composer).2.real_variable_index :=
  assign_tag_sets_class_tag 0 (get_new_tag small_composer).2 0 1 0 rfl rfl (by decide)

/-- C24 (the code at the failing input): for `num_bits = DEFAULT_PLOOKUP_RANGE_BITNUM = 14`,
`create_range_constraint` passes the target range `1ULL << 14 = 16384` to
`create_new_range_constraint` (recorded here in `num_gates` by the callee), whereas
`DEFAULT_PLOOKUP_RANGE_SIZE = (1 << 14) - 1 = 16383`. -/
theorem default_width_target_range :
    DEFAULT_PLOOKUP_RANGE_BITNUM = 14 ∧ DEFAULT_PLOOKUP_RANGE_SIZE = 16383 ∧
    u64_shift_left_one DEFAULT_PLOOKUP_RANGE_BITNUM = 16384 ∧
    (create_range_constraint (fun _ range c => { c with num_gates := range })
      (fun _ bits _ _ c => ([], { c with num_gates := bits })) small_composer 0
      DEFAULT_PLOOKUP_RANGE_BITNUM "").num_gates = 16384 ∧
    (create_range_constraint (fun _ range c => { c with num_gates := range })
      (fun _ bits _ _ c => ([], { c with num_gates := bits })) small_composer 0
      DEFAULT_PLOOKUP_RANGE_BITNUM "").num_gates ≠ DEFAULT_PLOOKUP_RANGE_SIZE := by
  decide

/-- C25: `RamRecord::operator<` is a strict weak ordering (irreflexive, asymmetric,
transitive, with transitive incomparability) that reads only `index` and `timestamp`; two
records are incomparable exactly when they agree on both; on a list of records with pairwise
distinct `(index, timestamp)` pairs any two different records are comparable, and two sorted
arrangements of the same records are the same list. -/
theorem ram_operator_lt_strict_weak :
    (∀ a : RamRecord, a.operator_lt a = false) ∧
    (∀ a b : RamRecord, a.operator_lt b = true → b.operator_lt a = false) ∧
    (∀ a b c : RamRecord, a.operator_lt b = true → b.operator_lt c = true →
      a.operator_lt c = true) ∧
    (∀ a b c : RamRecord, (a.operator_lt b = false ∧ b.operator_lt a = false) →
      (b.operator_lt c = false ∧ c.operator_lt b = false) →
      (a.operator_lt c = false ∧ c.operator_lt a = false)) ∧
    (∀ a b a2 b2 : RamRecord, a.index = a2.index → a.timestamp = a2.timestamp →
      b.index = b2.index → b.timestamp = b2.timestamp →
      a.operator_lt b = a2.operator_lt b2) ∧
    (∀ a b : RamRecord, (a.operator_lt b = false ∧ b.operator_lt a = false) ↔
      (a.index = b.index ∧ a.timestamp = b.timestamp)) ∧
    (∀ l : List RamRecord,
      l.Pairwise (fun a b => ¬ (a.index = b.index ∧ a.timestamp = b.timestamp)) →
      ∀ a ∈ l, ∀ b ∈ l, a ≠ b → a.operator_lt b = true ∨ b.operator_lt a = true) ∧
    (∀ l1 l2 : List RamRecord, l1.Perm l2 →
      l1.Pairwise (fun a b => ¬ (a.index = b.index ∧ a.timestamp = b.timestamp)) →
      is_sorted RamRecord.operator_lt l1 = true → is_sorted RamRecord.operator_lt l2 = true →
      l1 = l2) := by
  have htrans : ∀ x y z : RamRecord, y.operator_lt x = false → z.operator_lt y = false →
      z.operator_lt x = false := by
    intro x y z hxy hyz
    rw [ram_operator_lt_eq_false_iff] at hxy hyz ⊢
    omega
  have hstrict : ∀ l : List RamRecord,
      l.Pairwise (fun a b => ¬ (a.index = b.index ∧ a.timestamp = b.timestamp)) →
      is_sorted RamRecord.operator_lt l = true →
      l.Pairwise (fun a b => a.operator_lt b = true) := by
    intro l hd hs
    have hp := is_sorted_pairwise RamRecord.operator_lt htrans l hs
    refine (hd.and hp).imp ?_
    intro a b hab
    obtain ⟨hne, hle⟩ := hab
    rw [ram_operator_lt_eq_false_iff] at hle
    rw [ram_operator_lt_iff]
    omega
  refine ⟨?_, ?_, ?_, ?_, ?_, ?_, ?_, ?_⟩
  · intro a
    rw [ram_operator_lt_eq_false_iff]
    omega
  · intro a b hab
    rw [ram_operator_lt_iff] at hab
    rw [ram_operator_lt_eq_false_iff]
    omega
  · intro a b c hab hbc
    rw [ram_operator_lt_iff] at hab hbc ⊢
    omega
  · intro a b c hab hbc
    rw [ram_operator_lt_eq_false_iff, ram_operator_lt_eq_false_iff] at hab hbc ⊢
    omega
  · intro a b a2 b2 h1 h2 h3 h4
    simp only [RamRecord.operator_lt, h1, h2, h3, h4]
  · intro a b
    rw [ram_operator_lt_eq_false_iff, ram_operator_lt_eq_false_iff]
    omega
  · intro l hd a ha b hb hne
    have hsym : Symmetric (fun a b : RamRecord =>
        ¬ (a.index = b.index ∧ a.timestamp = b.timestamp)) := by
      intro x y hxy hyx
      exact hxy ⟨hyx.1.symm, hyx.2.symm⟩
    have hkey := hd.forall hsym ha hb hne
    rw [ram_operator_lt_iff, ram_operator_lt_iff]
    omega
  · intro l1 l2 hperm hd hs1 hs2
    have hd2 : l2.Pairwise (fun a b => ¬ (a.index = b.index ∧ a.timestamp = b.timestamp)) :=
      hperm.pairwise hd (fun hxy hyx => hxy ⟨hyx.1.symm, hyx.2.symm⟩)
    haveI : IsAntisymm RamRecord (fun a b => a.operator_lt b = true) :=
      ⟨fun a b hab hba => by
        rw [ram_operator_lt_iff] at hab hba
        omega⟩
    exact List.eq_of_perm_of_sorted hperm (hstrict l1 hd hs1) (hstrict l2 hd2 hs2)

/-- Witness for C25: three records of one array with timestamps 0, 1, 2; the sorted
arrangement by `(index, timestamp)` is the only sorted arrangement. -/
theorem ram_operator_lt_strict_weak_witness :
    is_sorted RamRecord.operator_lt [ram_record_at 0 1, ram_record_at 1 2, ram_record_at 3 0]
      = true ∧
    (ram_record_at 0 1).operator_lt (ram_record_at 3 0) = true ∧
    ∀ l2 : List RamRecord,
      [ram_record_at 0 1, ram_record_at 1 2, ram_record_at 3 0].Perm l2 →
      is_sorted RamRecord.operator_lt l2 = true →
      [ram_record_at 0 1, ram_record_at 1 2, ram_record_at 3 0] = l2 :=
  ⟨by decide, by decide,
   fun l2 hperm hs => ram_operator_lt_strict_weak.2.2.2.2.2.2.2 _ l2 hperm (by decide)
     (by decide) hs⟩

/-- Bounds on the padded size: it is a multiple of `gate_width` between `n` and
`n + gate_width`, the least one that is `≥ n` unless `n = gate_width`, where it is
`2 * gate_width`. -/
theorem padded_size_bounds (gate_width n : Nat) (hw : 0 < gate_width)
    (hn : n + gate_width < 2 ^ 64) :
    gate_width ∣ range_list_padded_size gate_width n ∧
    n ≤ range_list_padded_size gate_width n ∧
    range_list_padded_size gate_width n ≤ n + gate_width ∧
    (n ≠ gate_width → ∀ m, gate_width ∣ m → n ≤ m → range_list_padded_size gate_width n ≤ m) ∧
    (n = gate_width → range_list_padded_size gate_width n = 2 * gate_width) := by
  have hmodlt : n % gate_width < gate_width := Nat.mod_lt _ hw
  have hdiv : gate_width * (n / gate_width) + n % gate_width = n := Nat.div_add_mod n gate_width
  by_cases hng : n = gate_width
  · subst hng
    have hp : range_list_padded_size n n = 2 * n := by
      simp only [range_list_padded_size, range_list_padding, size_add_eq]
      simp only [Nat.mod_self, Nat.sub_zero, if_true, Nat.zero_add]
      rw [Nat.mod_eq_of_lt (by omega : n < 2 ^ 64)]
      omega
    rw [hp]
    exact ⟨Dvd.intro_left 2 rfl, by omega, by omega, fun h => absurd rfl h, fun _ => rfl⟩
  · have hpad : range_list_padded_size gate_width n =
        n + (gate_width - n % gate_width) % gate_width := by
      simp only [range_list_padded_size, range_list_padding, size_add_eq, hng, if_false]
      have : (gate_width - n % gate_width) % gate_width < gate_width := Nat.mod_lt _ hw
      omega
    by_cases hr : n % gate_width = 0
    · have hp : range_list_padded_size gate_width n = n := by
        rw [hpad, hr]
        simp
      rw [hp]
      exact ⟨Nat.dvd_of_mod_eq_zero hr, Nat.le_refl _, by omega, fun _ m _ hm => hm,
        fun h => absurd h hng⟩
    · have hsub : (gate_width - n % gate_width) % gate_width = gate_width - n % gate_width :=
        Nat.mod_eq_of_lt (by omega)
      have hp : range_list_padded_size gate_width n = gate_width * (n / gate_width + 1) := by
        rw [hpad, hsub, Nat.mul_add, Nat.mul_one]
        omega
      have hval : gate_width * (n / gate_width + 1) = n + (gate_width - n % gate_width) := by
        rw [Nat.mul_add, Nat.mul_one]
        omega
      refine ⟨?_, ?_, ?_, ?_, fun h => absurd h hng⟩
      · rw [hp]
        exact Dvd.intro _ rfl
      · rw [hp, hval]
        omega
      · rw [hp, hval]
        omega
      · rintro _ m ⟨k, rfl⟩ hm
        rw [hp]
        apply Nat.mul_le_mul_left
        by_contra hk
        have hk2 : k ≤ n / gate_width := by omega
        have := Nat.mul_le_mul_left gate_width hk2
        omega

/-- The padded size does not decrease when the list grows. -/
theorem padded_size_mono (gate_width n m : Nat) (hw : 0 < gate_width) (hnm : n ≤ m)
    (hm : m + gate_width < 2 ^ 64) :
    range_list_padded_size gate_width n ≤ range_list_padded_size gate_width m := by
  obtain ⟨_, _, _, nmin, nspec⟩ := padded_size_bounds gate_width n hw (by omega)
  obtain ⟨mdvd, mge, _, _, mspec⟩ := padded_size_bounds gate_width m hw hm
  by_cases hn : n = gate_width
  · by_cases hmw : m = gate_width
    · rw [hn, hmw]
    · rw [nspec hn]
      obtain ⟨k, hk⟩ := mdvd
      rw [hk]
      have hk2 : 2 ≤ k := by
        by_contra hlt
        have hk1 : k ≤ 1 := by omega
        have := Nat.mul_le_mul_left gate_width hk1
        omega
      have := Nat.mul_le_mul_left gate_width hk2
      omega
  · by_cases hmw : m = gate_width
    · rw [mspec hmw]
      have := nmin hn gate_width (dvd_refl _) (by omega)
      omega
    · exact nmin hn _ mdvd (by omega)

/-- C26: the number of range gates counted for one range list does not decrease with the size
of the list: for lists of `n <= m` variables (with `m + gate_width + 1 < 2 ^ 64`, so that no
`size_t` operation overflows), the gates counted for the first are at most those counted for
the second, also when `n` or `m` is `gate_width`. -/
theorem range_list_gates_monotone (gate_width : Nat) (first second : Nat × RangeList)
    (hw : 0 < gate_width)
    (hnm : first.2.variable_indices.length ≤ second.2.variable_indices.length)
    (hm : second.2.variable_indices.length + gate_width + 1 < 2 ^ 64) :
    range_loop_body gate_width 0 first ≤ range_loop_body gate_width 0 second ∧
    range_loop_body gate_width 0 first
      = range_list_padded_size gate_width first.2.variable_indices.length / gate_width + 1 ∧
    range_loop_body gate_width 0 second
      = range_list_padded_size gate_width second.2.variable_indices.length / gate_width + 1 := by
  have hmono := padded_size_mono gate_width _ _ hw hnm (by omega)
  obtain ⟨_, _, hub1, _, _⟩ :=
    padded_size_bounds gate_width first.2.variable_indices.length hw (by omega)
  obtain ⟨_, _, hub2, _, _⟩ :=
    padded_size_bounds gate_width second.2.variable_indices.length hw (by omega)
  have hd1 := Nat.div_le_self (range_list_padded_size gate_width
    first.2.variable_indices.length) gate_width
  have hd2 := Nat.div_le_self (range_list_padded_size gate_width
    second.2.variable_indices.length) gate_width
  have hdiv := Nat.div_le_div_right (c := gate_width) hmono
  have h1 : range_loop_body gate_width 0 first
      = range_list_padded_size gate_width first.2.variable_indices.length / gate_width + 1 := by
    simp only [range_loop_body, size_add_eq]
    generalize range_list_padded_size gate_width first.2.variable_indices.length / gate_width
      = q at hd1 ⊢
    omega
  have h2 : range_loop_body gate_width 0 second
      = range_list_padded_size gate_width second.2.variable_indices.length / gate_width + 1 := by
    simp only [range_loop_body, size_add_eq]
    generalize range_list_padded_size gate_width second.2.variable_indices.length / gate_width
      = q at hd2 ⊢
    omega
  refine ⟨?_, h1, h2⟩
  rw [h1, h2]
  exact Nat.succ_le_succ hdiv

/-- Witness for C26 at `gate_width = 4`: lists of 3, 4 and 5 variables are counted as 2, 3
and 3 gates. -/
theorem range_list_gates_monotone_witness :
    range_loop_body 4 0 (7, range_list_of 7 [0, 1, 0]) = 2 ∧
    range_loop_body 4 0 (7, range_list_of 7 [0, 1, 0, 1]) = 3 ∧
    range_loop_body 4 0 (7, range_list_of 7 [0, 1, 0, 1, 0]) = 3 ∧
    range_loop_body 4 0 (7, range_list_of 7 [0, 1, 0])
      ≤ range_loop_body 4 0 (7, range_list_of 7 [0, 1, 0, 1]) ∧
    range_loop_body 4 0 (7, range_list_of 7 [0, 1, 0, 1])
      ≤ range_loop_body 4 0 (7, range_list_of 7 [0, 1, 0, 1, 0]) :=
  ⟨by decide, by decide, by decide,
   (range_list_gates_monotone 4 (7, range_list_of 7 [0, 1, 0])
      (7, range_list_of 7 [0, 1, 0, 1]) (by decide) (by decide) (by decide)).1,
   (range_list_gates_monotone 4 (7, range_list_of 7 [0, 1, 0, 1])
      (7, range_list_of 7 [0, 1, 0, 1, 0]) (by decide) (by decide) (by decide)).1⟩

/-- The padded size of the wrapped `max_timestamp = 2 ^ 64 - 1` is 0 when `gate_width`
divides `2 ^ 64` and is not 1. -/
theorem padded_size_of_wrapped (gate_width : Nat) (hw : 1 < gate_width)
    (hdvd : gate_width ∣ 2 ^ 64) : range_list_padded_size gate_width (2 ^ 64 - 1) = 0 := by
  obtain ⟨k, hk⟩ := hdvd
  have hkpos : 0 < k := by
    rcases Nat.eq_zero_or_pos k with h | h
    · rw [h] at hk
      simp at hk
    · exact h
  have hmt : 2 ^ 64 - 1 = (gate_width - 1) + gate_width * (k - 1) := by
    have h1 : gate_width * k = gate_width * (k - 1) + gate_width := by
      have hk1 : k = (k - 1) + 1 := by omega
      calc gate_width * k = gate_width * ((k - 1) + 1) := by rw [← hk1]
        _ = gate_width * (k - 1) + gate_width := by rw [Nat.mul_add, Nat.mul_one]
    omega
  have hmod : (2 ^ 64 - 1) % gate_width = gate_width - 1 := by
    rw [hmt, Nat.add_mul_mod_self_left]
    exact Nat.mod_eq_of_lt (by omega)
  have hne : (2 ^ 64 - 1 : Nat) ≠ gate_width := by
    intro h
    have h1 : gate_width ∣ 2 ^ 64 - (2 ^ 64 - 1) :=
      Nat.dvd_sub' ⟨k, hk⟩ (h ▸ dvd_refl _)
    have h2 : (2 ^ 64 - (2 ^ 64 - 1) : Nat) = 1 := by norm_num
    rw [h2] at h1
    have := Nat.le_of_dvd (by decide) h1
    omega
  have hone : (gate_width - (gate_width - 1)) % gate_width = 1 := by
    have h1 : gate_width - (gate_width - 1) = 1 := by omega
    rw [h1]
    exact Nat.mod_eq_of_lt hw
  simp only [range_list_padded_size, range_list_padding, hne, if_false, hmod, hone, size_add_eq]
  norm_num

/-- C27: for a RAM array with `s` slots that was never accessed (`access_count = 0`, no
records, every slot `UNINITIALIZED_MEMORY_RECORD`), `max_timestamp = access_count - 1` wraps
to `2 ^ 64 - 1`; when `gate_width` divides `2 ^ 64` and is not 1 (the width 4 of the Ultra
arithmetisation), the padded list size wraps to 0, the timestamp range-check gate count is
exactly 1, and the array adds `2 * s + 2` to `ramcount`. -/
theorem unaccessed_ram_array_gates (gate_width : Nat) (arr : RamTranscript)
    (hw : 1 < gate_width) (hdvd : gate_width ∣ 2 ^ 64)
    (hacc : arr.access_count = 0) (hrec : arr.records = [])
    (hstate : ∀ slot ∈ arr.state, slot = UNINITIALIZED_MEMORY_RECORD) :
    size_sub arr.access_count 1 = 2 ^ 64 - 1 ∧
    range_list_padded_size gate_width (size_sub arr.access_count 1) = 0 ∧
    size_add (range_list_padded_size gate_width (size_sub arr.access_count 1) / gate_width) 1
      = 1 ∧
    ram_loop_body gate_width 0 arr = (2 * arr.state.length + 2) % 2 ^ 64 ∧
    (2 * arr.state.length + 2 < 2 ^ 64 →
      ram_loop_body gate_width 0 arr = 2 * arr.state.length + 2) := by
  have hsub : size_sub arr.access_count 1 = 2 ^ 64 - 1 := by
    rw [hacc]
    decide
  have hpad : range_list_padded_size gate_width (size_sub arr.access_count 1) = 0 := by
    rw [hsub]
    exact padded_size_of_wrapped gate_width hw hdvd
  have hcount : arr.state.countP (fun slot => decide (slot = UNINITIALIZED_MEMORY_RECORD))
      = arr.state.length :=
    List.countP_eq_length.mpr (fun slot hs => by simpa using hstate slot hs)
  have hbody := ram_loop_body_eq gate_width arr 0
  rw [Nat.zero_mod, hpad, hcount, hrec] at hbody
  have hval : ram_loop_body gate_width 0 arr = (2 * arr.state.length + 2) % 2 ^ 64 := by
    rw [hbody]
    simp only [List.length_nil, Nat.zero_div, Nat.mul_zero, Nat.add_zero, Nat.zero_add]
  refine ⟨hsub, hpad, ?_, hval, fun hfit => ?_⟩
  · rw [hpad, Nat.zero_div]
    decide
  · rw [hval]
    exact Nat.mod_eq_of_lt hfit

/-- Witness for C27 at `gate_width = 4`: an array of three slots that was never accessed adds
`2 * 3 + 2 = 8` gates. -/
theorem unaccessed_ram_array_gates_witness :
    ram_loop_body 4 0
      { state := [UNINITIALIZED_MEMORY_RECORD, UNINITIALIZED_MEMORY_RECORD,
          UNINITIALIZED_MEMORY_RECORD], records := [], access_count := 0 } = 8 :=
  (unaccessed_ram_array_gates 4
    { state := [UNINITIALIZED_MEMORY_RECORD, UNINITIALIZED_MEMORY_RECORD,
        UNINITIALIZED_MEMORY_RECORD], records := [], access_count := 0 }
    (by decide) (by decide) rfl rfl (by decide)).2.2.2.2 (by decide)

/-- C28 (the code at the failing input): on `busy_composer`, which is not finalised and has a
RAM array counted as 4 gates, the printed `gates` plus the printed `plookup` plus the printed
`range table init cost` is 14 (on `size_t`), while `get_num_gates()` is 18; the difference is
`ramcount`, which the printed total leaves out. -/
theorem printed_total_omits_ram :
    busy_composer.circuit_finalised = false ∧
    (print_num_gates 4 busy_composer).ramcount = 4 ∧
    size_add (size_add (print_num_gates 4 busy_composer).total
      (print_num_gates 4 busy_composer).plookupcount)
      (print_num_gates 4 busy_composer).constant_rangecount = 14 ∧
    get_num_gates 4 busy_composer = 18 ∧
    size_add (size_add (print_num_gates 4 busy_composer).total
      (print_num_gates 4 busy_composer).plookupcount)
      (print_num_gates 4 busy_composer).constant_rangecount ≠ get_num_gates 4 busy_composer := by
  decide

theorem add_recursive_proof_loop {F : Type}
    (set_public_input : Nat → UltraComposer F → UltraComposer F)
    (hframe : ∀ idx c,
      (set_public_input idx c).contains_recursive_proof = c.contains_recursive_proof ∧
      (set_public_input idx c).recursive_proof_public_input_indices
        = c.recursive_proof_public_input_indices)
    (idxs : List Nat) : ∀ c : UltraComposer F,
    (idxs.foldl (add_recursive_proof_loop_body set_public_input) c).contains_recursive_proof
      = c.contains_recursive_proof ∧
    (idxs.foldl (add_recursive_proof_loop_body set_public_input)
        c).recursive_proof_public_input_indices
      = c.recursive_proof_public_input_indices
        ++ observed_public_input_indices set_public_input c idxs ∧
    (observed_public_input_indices set_public_input c idxs).length = idxs.length := by
  induction idxs with
  | nil =>
    intro c
    simp [observed_public_input_indices]
  | cons idx rest ih =>
    intro c
    obtain ⟨h1, h2, h3⟩ := ih (add_recursive_proof_loop_body set_public_input c idx)
    obtain ⟨f1, f2⟩ := hframe idx c
    refine ⟨?_, ?_, ?_⟩
    · rw [List.foldl_cons, h1]
      exact f1
    · rw [List.foldl_cons, h2]
      simp only [add_recursive_proof_loop_body, observed_public_input_indices, f2,
        List.append_assoc, List.singleton_append]
    · simp only [observed_public_input_indices, List.length_cons, h3]

/-- C29: whatever the list of `k` witness indices, `add_recursive_proof` calls
`failure("added recursive proof when one already exists")` exactly when
`contains_recursive_proof` was already true, and then runs its loop from that composer with
`contains_recursive_proof` set. When `set_public_input` (of the composer base) leaves
`contains_recursive_proof` and `recursive_proof_public_input_indices` alone, the flag is true
afterwards and exactly `k` entries are appended to `recursive_proof_public_input_indices`,
the `i`-th being `(uint32_t)(public_inputs.size() - 1)` as observed right after the `i`-th
call of `set_public_input`. -/
theorem add_recursive_proof_spec {F : Type}
    (set_public_input : Nat → UltraComposer F → UltraComposer F)
    (c : UltraComposer F) (idxs : List Nat)
    (hframe : ∀ idx c,
      (set_public_input idx c).contains_recursive_proof = c.contains_recursive_proof ∧
      (set_public_input idx c).recursive_proof_public_input_indices
        = c.recursive_proof_public_input_indices) :
    (c.contains_recursive_proof = true →
      add_recursive_proof set_public_input c idxs
        = idxs.foldl (add_recursive_proof_loop_body set_public_input)
            { failure "added recursive proof when one already exists" c with
              contains_recursive_proof := true }) ∧
    (c.contains_recursive_proof = false →
      add_recursive_proof set_public_input c idxs
        = idxs.foldl (add_recursive_proof_loop_body set_public_input)
            { c with contains_recursive_proof := true }) ∧
    (add_recursive_proof set_public_input c idxs).contains_recursive_proof = true ∧
    (∃ appended : List Nat, appended.length = idxs.length ∧
      (add_recursive_proof set_public_input c idxs).recursive_proof_public_input_indices
        = c.recursive_proof_public_input_indices ++ appended ∧
      appended = observed_public_input_indices set_public_input
        { (if c.contains_recursive_proof then
            failure "added recursive proof when one already exists" c else c) with
          contains_recursive_proof := true } idxs) := by
  obtain ⟨h1, h2, h3⟩ := add_recursive_proof_loop set_public_input hframe idxs
    { (if c.contains_recursive_proof then
        failure "added recursive proof when one already exists" c else c) with
      contains_recursive_proof := true }
  refine ⟨?_, ?_, h1, _, h3, ?_, rfl⟩
  · intro hc
    simp only [add_recursive_proof, hc, if_true]
  · intro hc
    simp only [add_recursive_proof, hc, Bool.false_eq_true, if_false]
  · show UltraComposer.recursive_proof_public_input_indices
      (idxs.foldl (add_recursive_proof_loop_body set_public_input) _) = _
    rw [h2]
    congr 1
    cases c.contains_recursive_proof <;> rfl

/-- Witness for C29: on a composer without a recursive proof, adding the proof outputs
`[0, 1]` makes them the public inputs 0 and 1 and records no failure; adding a second proof
`[1]` records the failure and still appends one entry. -/
theorem add_recursive_proof_spec_witness :
    (add_recursive_proof append_public_input small_composer
      [0, 1]).recursive_proof_public_input_indices = [0, 1] ∧
    (add_recursive_proof append_public_input small_composer [0, 1]).failed = false ∧
    (add_recursive_proof append_public_input small_composer
      [0, 1]).contains_recursive_proof = true ∧
    (add_recursive_proof append_public_input
      (add_recursive_proof append_public_input small_composer [0, 1])
      [1]).recursive_proof_public_input_indices = [0, 1, 2] ∧
    (add_recursive_proof append_public_input
      (add_recursive_proof append_public_input small_composer [0, 1]) [1]).err
      = "added recursive proof when one already exists" :=
  ⟨by decide, by decide,
   (add_recursive_proof_spec append_public_input small_composer [0, 1]
     (fun _ _ => ⟨rfl, rfl⟩)).2.2.1,
   by decide, by decide⟩

end plonk

/-! ## The constructor gate and the witness of the polynomial circuit: theorems -/

namespace smt_polynomials

open proof_system

/-- C21: the gate `{ one_idx, one_idx, one_idx, 1, 1, 1, 1, -4 }` that the constructors create
holds under every assignment in which the variable `one_idx` is 1, in every commutative
ring: `1 * 1 * 1 + 1 * 1 + 1 * 1 + 1 * 1 - 4 = 0`. In the standard constructor the row of this
gate is in the gate table, the constructor stores the value 1 for `one_idx`, and the row
holds under the stored values. -/
theorem constructor_gate_satisfied {F : Type} [CommRing F] [DecidableEq F] :
    (∀ (one_idx : Nat) (w : Nat → F), w one_idx = 1 →
      (constructor_gate one_idx : poly_triple F).holds w ∧
      (constructor_gate one_idx : poly_triple F).row.holds w) ∧
    (constructor_gate (StandardCircuitBuilder.new : StandardCircuitBuilder F).one_idx).row
      ∈ (StandardCircuitBuilder.new : StandardCircuitBuilder F).gates ∧
    builder_assignment (StandardCircuitBuilder.new : StandardCircuitBuilder F)
      (StandardCircuitBuilder.new : StandardCircuitBuilder F).one_idx = 1 ∧
    (constructor_gate (StandardCircuitBuilder.new : StandardCircuitBuilder F).one_idx).row.holds
      (builder_assignment (StandardCircuitBuilder.new : StandardCircuitBuilder F)) := by
  have hgen : ∀ (one_idx : Nat) (w : Nat → F), w one_idx = 1 →
      (constructor_gate one_idx : poly_triple F).holds w ∧
      (constructor_gate one_idx : poly_triple F).row.holds w := by
    intro one_idx w h
    constructor
    · simp only [poly_triple.holds, constructor_gate, h]
      ring
    · simp only [GateRow.holds, poly_triple.row, constructor_gate, h]
      ring
  have hone : builder_assignment (StandardCircuitBuilder.new : StandardCircuitBuilder F)
      (StandardCircuitBuilder.new : StandardCircuitBuilder F).one_idx = 1 := by
    by_cases h01 : (0 : F) = 1
    · haveI := subsingleton_of_zero_eq_one h01
      exact Subsingleton.elim _ _
    · obtain ⟨nv, _, no, _⟩ := new_spec h01
      simp only [builder_assignment, nv, no]
      rfl
  refine ⟨hgen, ?_, hone, (hgen _ _ hone).2⟩
  simp [StandardCircuitBuilder.new, StandardCircuitBuilder.create_poly_gate, constructor_gate,
    poly_triple.row]

/-- Witness for C21 over the integers: with the value 1 at index 1, the gate on index 1
holds. -/
theorem constructor_gate_satisfied_witness :
    (constructor_gate 1 : poly_triple Int).holds (fun i => if i = 1 then 1 else 0) ∧
    (StandardCircuitBuilder.new : StandardCircuitBuilder Int).one_idx = 1 ∧
    (StandardCircuitBuilder.new : StandardCircuitBuilder Int).variables_ = [0, 1] :=
  ⟨(constructor_gate_satisfied.1 1 (fun i => if i = 1 then 1 else 0) rfl).1, by decide,
   by decide⟩

/-- The rows the second loop appends are the expected pairs. -/
theorem eval_fold_gates {F : Type} [CommRing F] (z_idx : Nat) (z : F)
    (coeffs : List (F × Nat)) : ∀ st : EvalLoop F,
    (coeffs.foldl (eval_loop_body z_idx z) st).builder.gates
      = st.builder.gates ++
        (evaluation_gate_pairs z_idx st.res_idx st.builder.variables_.length
          (coeffs.map Prod.snd)).flatMap (fun p => [p.1, p.2]) := by
  induction coeffs with
  | nil =>
    intro st
    simp [evaluation_gate_pairs]
  | cons coeff rest ih =>
    intro st
    obtain ⟨bv, bg, _, _, _, _, _, bi⟩ := eval_loop_body_spec z_idx z st coeff
    rw [List.foldl_cons, ih, bg, bi, bv]
    simp [evaluation_gate_pairs, List.flatMap_cons]

/-- The shape of the expected pairs: one pair per coefficient variable, a multiplication row
by the variable `z_idx` followed by an addition row that reads the product. -/
theorem evaluation_gate_pairs_shape {F : Type} [CommRing F] (z_idx : Nat)
    (coeff_idxs : List Nat) : ∀ (res_idx next : Nat),
    (evaluation_gate_pairs z_idx res_idx next coeff_idxs :
      List (GateRow F × GateRow F)).length = coeff_idxs.length ∧
    ∀ p ∈ (evaluation_gate_pairs z_idx res_idx next coeff_idxs : List (GateRow F × GateRow F)),
      (p.1.q_m = 1 ∧ p.1.q_1 = 0 ∧ p.1.q_2 = 0 ∧ p.1.q_3 = -1 ∧ p.1.q_c = 0) ∧
      (p.2.q_m = 0 ∧ p.2.q_1 = 1 ∧ p.2.q_2 = 1 ∧ p.2.q_3 = -1 ∧ p.2.q_c = 0) ∧
      p.1.w_r = z_idx ∧ p.2.w_l = p.1.w_o ∧ p.2.w_r ∈ coeff_idxs := by
  induction coeff_idxs with
  | nil =>
    intro res_idx next
    simp [evaluation_gate_pairs]
  | cons coeff_idx rest ih =>
    intro res_idx next
    obtain ⟨hl, hp⟩ := ih (next + 1) (next + 2)
    constructor
    · simp only [evaluation_gate_pairs, List.length_cons, hl]
    · intro p hmem
      simp only [evaluation_gate_pairs, List.mem_cons] at hmem
      rcases hmem with rfl | hmem
      · simp
      · obtain ⟨h1, h2, h3, h4, h5⟩ := hp p hmem
        exact ⟨h1, h2, h3, h4, List.mem_cons_of_mem _ h5⟩

theorem coeff_loop_values {F : Type} [CommRing F] [DecidableEq F] (random_element : Nat → F)
    (pub_coeffs : Bool) (n : Nat) :
    ∀ i, i < n → ∃ idx, (coeff_loop random_element n pub_coeffs).idxs[i]? = some idx ∧
      (coeff_loop random_element n pub_coeffs).builder.variables_[idx]?
        = some (random_element i) := by
  induction n with
  | zero => intro i hi; omega
  | succ n ih =>
    intro i hi
    obtain ⟨hlen, _, _, _, _, _, _, _, _⟩ := coeff_loop_spec random_element pub_coeffs n
    obtain ⟨bv, _, _, _, _, _, _, bi⟩ :=
      coeff_loop_body_spec random_element pub_coeffs (coeff_loop random_element n pub_coeffs) n
    rw [coeff_loop_succ, bv, bi]
    by_cases hlt : i < n
    · obtain ⟨idx, h1, h2⟩ := ih i hlt
      refine ⟨idx, ?_, getElem?_of_extension (List.prefix_append _ _) _ _ h2⟩
      rw [List.getElem?_append_left (by omega)]
      exact h1
    · have hin : i = n := by omega
      subst hin
      refine ⟨(coeff_loop random_element i pub_coeffs).builder.variables_.length, ?_, ?_⟩
      · rw [List.getElem?_append_right (by omega)]
        simp [hlen]
      · rw [List.getElem?_append_right (Nat.le_refl _)]
        simp

/-- Under the values the builder stores (when `0 ≠ 1`), the coefficient variables hold the
random coefficients. -/
theorem builder_assignment_coeffs {F : Type} [CommRing F] [DecidableEq F]
    (random_element : Nat → F) (n : Nat) (pub_coeffs : Bool) :
    (List.range n).map (fun i => builder_assignment
        (polynomial_evaluation_circuit random_element n pub_coeffs)
        (circuit_variable (polynomial_evaluation_circuit random_element n pub_coeffs)
          ("coeff_" ++ toString i)))
      = (List.range n).map random_element := by
  obtain ⟨_, _, _, _, hcoeff, _, _, _⟩ := circuit_names random_element n pub_coeffs
  have hfr := eval_fold_frame
    ((coeff_loop random_element n pub_coeffs).builder.add_variable (10 : F)).1 (10 : F)
    ((coeff_loop random_element n pub_coeffs).coeffs.zip
      (coeff_loop random_element n pub_coeffs).idxs)
    { builder := ((((coeff_loop random_element n pub_coeffs).builder.add_variable
          (10 : F)).2.set_variable_name
          ((coeff_loop random_element n pub_coeffs).builder.add_variable (10 : F)).1
          "point").assert_equal
          (coeff_loop random_element n pub_coeffs).builder.zero_idx 0)
      res := 0
      res_idx := (coeff_loop random_element n pub_coeffs).builder.zero_idx }
  have hstart : (coeff_loop random_element n pub_coeffs).builder.variables_ ++ [(10 : F)]
      <+: (eval_loop random_element n pub_coeffs).builder.variables_ := hfr.2.1
  have hext : (coeff_loop random_element n pub_coeffs).builder.variables_
      <+: (eval_loop random_element n pub_coeffs).builder.variables_ :=
    (List.prefix_append _ _).trans hstart
  apply List.map_congr_left
  intro i hi
  obtain ⟨idx, h1, h2⟩ := coeff_loop_values random_element pub_coeffs n i
    (List.mem_range.mp hi)
  rw [hcoeff i idx h1]
  exact getD_of_getElem? _ _ _ (getElem?_of_extension hext _ _ h2)

/-- C30: for every `n` and every choice of the coefficients, the values that
`polynomial_evaluation_circuit` stores while building satisfy every row of its gate table;
the rows it appends to those of the constructor are exactly `n` pairs of a multiplication
row (`mul = res * point`) and an addition row (`add = mul + coeff_i`), each holding under the
stored values; and the stored value of "result" is the Horner evaluation of the coefficients
at `z = 10`. -/
theorem builder_witness_satisfies_gates {F : Type} [CommRing F] [DecidableEq F]
    (random_element : Nat → F) (n : Nat) (pub_coeffs : Bool) :
    (∀ g ∈ (polynomial_evaluation_circuit random_element n pub_coeffs).gates,
      g.holds (builder_assignment (polynomial_evaluation_circuit random_element n pub_coeffs))) ∧
    (∃ pairs : List (GateRow F × GateRow F), pairs.length = n ∧
      (polynomial_evaluation_circuit random_element n pub_coeffs).gates
        = (StandardCircuitBuilder.new : StandardCircuitBuilder F).gates
          ++ pairs.flatMap (fun p => [p.1, p.2]) ∧
      ∀ p ∈ pairs,
        (p.1.q_m = 1 ∧ p.1.q_1 = 0 ∧ p.1.q_2 = 0 ∧ p.1.q_3 = -1 ∧ p.1.q_c = 0) ∧
        (p.2.q_m = 0 ∧ p.2.q_1 = 1 ∧ p.2.q_2 = 1 ∧ p.2.q_3 = -1 ∧ p.2.q_c = 0) ∧
        p.1.w_r = circuit_variable
          (polynomial_evaluation_circuit random_element n pub_coeffs) "point" ∧
        p.2.w_l = p.1.w_o ∧
        builder_assignment (polynomial_evaluation_circuit random_element n pub_coeffs) p.1.w_o
          = builder_assignment (polynomial_evaluation_circuit random_element n pub_coeffs)
              p.1.w_l
            * builder_assignment (polynomial_evaluation_circuit random_element n pub_coeffs)
              p.1.w_r ∧
        builder_assignment (polynomial_evaluation_circuit random_element n pub_coeffs) p.2.w_o
          = builder_assignment (polynomial_evaluation_circuit random_element n pub_coeffs)
              p.2.w_l
            + builder_assignment (polynomial_evaluation_circuit random_element n pub_coeffs)
              p.2.w_r) ∧
    builder_assignment (polynomial_evaluation_circuit random_element n pub_coeffs)
      (circuit_variable (polynomial_evaluation_circuit random_element n pub_coeffs) "result")
      = ((List.range n).map random_element).foldl (fun ev coeff => ev * 10 + coeff) 0 := by
  obtain ⟨_, hpoint, _, _, _, hg, _, _⟩ := circuit_names random_element n pub_coeffs
  obtain ⟨hi, hc, cg, _, _, _, _, _, _⟩ := coeff_loop_spec random_element pub_coeffs n
  have hgates : ∀ g ∈ (polynomial_evaluation_circuit random_element n pub_coeffs).gates,
      g.holds (builder_assignment
        (polynomial_evaluation_circuit random_element n pub_coeffs)) := by
    by_cases h01 : (0 : F) = 1
    · haveI := subsingleton_of_zero_eq_one h01
      intro g _
      exact Subsingleton.elim _ _
    · exact (builder_assignment_satisfies random_element n pub_coeffs h01).1.1
  have hrows := eval_fold_gates
    ((coeff_loop random_element n pub_coeffs).builder.add_variable (10 : F)).1 (10 : F)
    ((coeff_loop random_element n pub_coeffs).coeffs.zip
      (coeff_loop random_element n pub_coeffs).idxs)
    { builder := ((((coeff_loop random_element n pub_coeffs).builder.add_variable
          (10 : F)).2.set_variable_name
          ((coeff_loop random_element n pub_coeffs).builder.add_variable (10 : F)).1
          "point").assert_equal
          (coeff_loop random_element n pub_coeffs).builder.zero_idx 0)
      res := 0
      res_idx := (coeff_loop random_element n pub_coeffs).builder.zero_idx }
  have hsnd : ((coeff_loop random_element n pub_coeffs).coeffs.zip
      (coeff_loop random_element n pub_coeffs).idxs).map Prod.snd
      = (coeff_loop random_element n pub_coeffs).idxs :=
    List.map_snd_zip _ _ (by rw [hc, hi])
  obtain ⟨plen, pshape⟩ := evaluation_gate_pairs_shape (F := F)
    (coeff_loop random_element n pub_coeffs).builder.variables_.length
    (coeff_loop random_element n pub_coeffs).idxs
    (coeff_loop random_element n pub_coeffs).builder.zero_idx
    ((coeff_loop random_element n pub_coeffs).builder.variables_ ++ [(10 : F)]).length
  have hgeq : (polynomial_evaluation_circuit random_element n pub_coeffs).gates
      = (StandardCircuitBuilder.new : StandardCircuitBuilder F).gates
        ++ (evaluation_gate_pairs
            (coeff_loop random_element n pub_coeffs).builder.variables_.length
            (coeff_loop random_element n pub_coeffs).builder.zero_idx
            ((coeff_loop random_element n pub_coeffs).builder.variables_ ++ [(10 : F)]).length
            (coeff_loop random_element n pub_coeffs).idxs).flatMap (fun p => [p.1, p.2]) := by
    rw [hg, ← cg, ← hsnd]
    exact hrows
  refine ⟨hgates, ⟨_, plen.trans hi, hgeq, ?_⟩, ?_⟩
  · intro p hp
    obtain ⟨s1, s2, hr, hl, _⟩ := pshape p hp
    have hm1 : p.1 ∈ (polynomial_evaluation_circuit random_element n pub_coeffs).gates := by
      rw [hgeq]
      exact List.mem_append_right _ (List.mem_flatMap.mpr ⟨p, hp, by simp⟩)
    have hm2 : p.2 ∈ (polynomial_evaluation_circuit random_element n pub_coeffs).gates := by
      rw [hgeq]
      exact List.mem_append_right _ (List.mem_flatMap.mpr ⟨p, hp, by simp⟩)
    have h1 := hgates p.1 hm1
    have h2 := hgates p.2 hm2
    obtain ⟨a1, a2, a3, a4, a5⟩ := s1
    obtain ⟨b1, b2, b3, b4, b5⟩ := s2
    simp only [GateRow.holds, a1, a2, a3, a4, a5] at h1
    simp only [GateRow.holds, b1, b2, b3, b4, b5] at h2
    refine ⟨⟨a1, a2, a3, a4, a5⟩, ⟨b1, b2, b3, b4, b5⟩, hr.trans hpoint.symm, hl, ?_, ?_⟩
    · linear_combination (-1 : F) * h1
    · linear_combination (-1 : F) * h2
  · by_cases h01 : (0 : F) = 1
    · haveI := subsingleton_of_zero_eq_one h01
      exact Subsingleton.elim _ _
    · obtain ⟨hsat, hp10⟩ := builder_assignment_satisfies random_element n pub_coeffs h01
      rw [result_eq_horner random_element n pub_coeffs _ hsat.1, hsat.2.2.1, hp10,
        builder_assignment_coeffs random_element n pub_coeffs]

/-- Witness for C30 over the integers: for the coefficients 3 and 4 the stored value of
"result" is `(0 * 10 + 3) * 10 + 4 = 34`, and the builder has the three rows of the
constructor and two pairs of rows. -/
theorem builder_witness_satisfies_gates_witness :
    builder_assignment (polynomial_evaluation_circuit (fun i => (i : Int) + 3) 2 true)
      (circuit_variable (polynomial_evaluation_circuit (fun i => (i : Int) + 3) 2 true)
        "result") = 34 ∧
    (polynomial_evaluation_circuit (fun i => (i : Int) + 3) 2 true).gates.length = 3 + 2 * 2 ∧
    ∀ g ∈ (polynomial_evaluation_circuit (fun i => (i : Int) + 3) 2 true).gates,
      g.holds (builder_assignment
        (polynomial_evaluation_circuit (fun i => (i : Int) + 3) 2 true)) :=
  ⟨(builder_witness_satisfies_gates (fun i => (i : Int) + 3) 2 true).2.2.trans (by decide),
   by decide,
   (builder_witness_satisfies_gates (fun i => (i : Int) + 3) 2 true).1⟩

/-! ## The named variables of the polynomial circuit and its satisfying assignments -/

/-- The variables of the coefficients are consecutive and follow those of the constructor. -/
theorem coeff_loop_indices {F : Type} [CommRing F] [DecidableEq F] (random_element : Nat → F)
    (pub_coeffs : Bool) (n : Nat) :
    (coeff_loop random_element n pub_coeffs).builder.variables_.length
      = (StandardCircuitBuilder.new : StandardCircuitBuilder F).variables_.length + n ∧
    (coeff_loop random_element n pub_coeffs).idxs
      = (List.range n).map (fun i =>
          (StandardCircuitBuilder.new : StandardCircuitBuilder F).variables_.length + i) := by
  induction n with
  | zero => simp [coeff_loop]
  | succ n ih =>
    obtain ⟨hl, hi⟩ := ih
    obtain ⟨bv, _, _, _, _, _, _, bi⟩ :=
      coeff_loop_body_spec random_element pub_coeffs (coeff_loop random_element n pub_coeffs) n
    rw [coeff_loop_succ]
    constructor
    · rw [bv, List.length_append, hl]
      rfl
    · rw [bi, hi, hl, List.range_succ, List.map_append]
      rfl

/-- The final `res_idx` of the second loop is a variable of the final builder. -/
theorem eval_fold_res_idx_lt {F : Type} [CommRing F] (z_idx : Nat) (z : F)
    (coeffs : List (F × Nat)) : ∀ st : EvalLoop F,
    st.res_idx < st.builder.variables_.length →
    (coeffs.foldl (eval_loop_body z_idx z) st).res_idx
      < (coeffs.foldl (eval_loop_body z_idx z) st).builder.variables_.length := by
  induction coeffs with
  | nil => intro st h; exact h
  | cons coeff rest ih =>
    intro st _
    obtain ⟨bv, _, _, _, _, _, _, bi⟩ := eval_loop_body_spec z_idx z st coeff
    rw [List.foldl_cons]
    apply ih
    rw [bi, bv, List.length_append]
    simp

/-- The pairs of rows of the second loop can be satisfied whatever the earlier variables
hold: every assignment `w0` has an extension that agrees with it below `next` and under
which all the pairs hold. -/
theorem evaluation_gate_pairs_extend {F : Type} [CommRing F] (z_idx : Nat)
    (coeff_idxs : List Nat) : ∀ (res_idx next : Nat) (w0 : Nat → F),
    res_idx < next → z_idx < next → (∀ c ∈ coeff_idxs, c < next) →
    ∃ w : Nat → F, (∀ j, j < next → w j = w0 j) ∧
      ∀ p ∈ (evaluation_gate_pairs z_idx res_idx next coeff_idxs : List (GateRow F × GateRow F)),
        p.1.holds w ∧ p.2.holds w := by
  induction coeff_idxs with
  | nil =>
    intro res_idx next w0 _ _ _
    exact ⟨w0, fun _ _ => rfl, by simp [evaluation_gate_pairs]⟩
  | cons c rest ih =>
    intro res_idx next w0 hres hz hc
    have hcn : c < next := hc c (List.mem_cons_self _ _)
    obtain ⟨w, hagree, hrows⟩ := ih (next + 1) (next + 2)
      (fun j => if j = next then w0 res_idx * w0 z_idx
        else if j = next + 1 then w0 res_idx * w0 z_idx + w0 c else w0 j)
      (by omega) (by omega)
      (fun c2 hc2 => by
        have := hc c2 (List.mem_cons_of_mem _ hc2)
        omega)
    have hold : ∀ j, j < next → w j = w0 j := by
      intro j hj
      rw [hagree j (by omega)]
      simp [show j ≠ next by omega, show j ≠ next + 1 by omega]
    have wmul : w next = w0 res_idx * w0 z_idx := by
      rw [hagree next (by omega)]
      simp
    have wadd : w (next + 1) = w0 res_idx * w0 z_idx + w0 c := by
      rw [hagree (next + 1) (by omega)]
      simp
    refine ⟨w, hold, ?_⟩
    intro p hp
    simp only [evaluation_gate_pairs, List.mem_cons] at hp
    rcases hp with rfl | hp
    · constructor
      · simp only [GateRow.holds, hold res_idx hres, hold z_idx hz, wmul]
        ring
      · simp only [GateRow.holds, hold c hcn, wmul, wadd]
        ring
    · exact hrows p hp

/-- The gate table of the circuit: the rows of the constructor, then one pair of rows per
coefficient. -/
theorem circuit_gates {F : Type} [CommRing F] [DecidableEq F] (random_element : Nat → F)
    (n : Nat) (pub_coeffs : Bool) :
    (polynomial_evaluation_circuit random_element n pub_coeffs).gates
      = (StandardCircuitBuilder.new : StandardCircuitBuilder F).gates
        ++ (evaluation_gate_pairs
            (coeff_loop random_element n pub_coeffs).builder.variables_.length
            (coeff_loop random_element n pub_coeffs).builder.zero_idx
            ((coeff_loop random_element n pub_coeffs).builder.variables_ ++ [(10 : F)]).length
            (coeff_loop random_element n pub_coeffs).idxs).flatMap (fun p => [p.1, p.2]) := by
  obtain ⟨_, _, _, _, _, hg, _, _⟩ := circuit_names random_element n pub_coeffs
  obtain ⟨hi, hc, cg, _, _, _, _, _, _⟩ := coeff_loop_spec random_element pub_coeffs n
  have hrows := eval_fold_gates
    ((coeff_loop random_element n pub_coeffs).builder.add_variable (10 : F)).1 (10 : F)
    ((coeff_loop random_element n pub_coeffs).coeffs.zip
      (coeff_loop random_element n pub_coeffs).idxs)
    { builder := ((((coeff_loop random_element n pub_coeffs).builder.add_variable
          (10 : F)).2.set_variable_name
          ((coeff_loop random_element n pub_coeffs).builder.add_variable (10 : F)).1
          "point").assert_equal
          (coeff_loop random_element n pub_coeffs).builder.zero_idx 0)
      res := 0
      res_idx := (coeff_loop random_element n pub_coeffs).builder.zero_idx }
  have hsnd : ((coeff_loop random_element n pub_coeffs).coeffs.zip
      (coeff_loop random_element n pub_coeffs).idxs).map Prod.snd
      = (coeff_loop random_element n pub_coeffs).idxs :=
    List.map_snd_zip _ _ (by rw [hc, hi])
  rw [hg, ← cg, ← hsnd]
  exact hrows

/-- The names "result", "point" and "coeff_i" for `i < n` are names the builder gave, each to
a variable it created. -/
theorem circuit_registered {F : Type} [CommRing F] [DecidableEq F] (random_element : Nat → F)
    (n : Nat) (pub_coeffs : Bool) :
    ((circuit_variable (polynomial_evaluation_circuit random_element n pub_coeffs) "result",
        "result") ∈ (polynomial_evaluation_circuit random_element n pub_coeffs).variable_names ∧
      circuit_variable (polynomial_evaluation_circuit random_element n pub_coeffs) "result"
        < (polynomial_evaluation_circuit random_element n pub_coeffs).variables_.length) ∧
    ((circuit_variable (polynomial_evaluation_circuit random_element n pub_coeffs) "point",
        "point") ∈ (polynomial_evaluation_circuit random_element n pub_coeffs).variable_names ∧
      circuit_variable (polynomial_evaluation_circuit random_element n pub_coeffs) "point"
        < (polynomial_evaluation_circuit random_element n pub_coeffs).variables_.length) ∧
    ∀ i, i < n →
      (circuit_variable (polynomial_evaluation_circuit random_element n pub_coeffs)
          ("coeff_" ++ toString i), "coeff_" ++ toString i)
        ∈ (polynomial_evaluation_circuit random_element n pub_coeffs).variable_names ∧
      circuit_variable (polynomial_evaluation_circuit random_element n pub_coeffs)
          ("coeff_" ++ toString i)
        < (polynomial_evaluation_circuit random_element n pub_coeffs).variables_.length := by
  obtain ⟨hres, hpoint, _, _, hcoeff, _, hv, _⟩ := circuit_names random_element n pub_coeffs
  obtain ⟨_, _, _, _, hz, _, cv, hn, _⟩ := coeff_loop_spec random_element pub_coeffs n
  obtain ⟨_, fv, fn, _, _, _⟩ := eval_fold_frame
    ((coeff_loop random_element n pub_coeffs).builder.add_variable (10 : F)).1 (10 : F)
    ((coeff_loop random_element n pub_coeffs).coeffs.zip
      (coeff_loop random_element n pub_coeffs).idxs)
    { builder := ((((coeff_loop random_element n pub_coeffs).builder.add_variable
          (10 : F)).2.set_variable_name
          ((coeff_loop random_element n pub_coeffs).builder.add_variable (10 : F)).1
          "point").assert_equal
          (coeff_loop random_element n pub_coeffs).builder.zero_idx 0)
      res := 0
      res_idx := (coeff_loop random_element n pub_coeffs).builder.zero_idx }
  have hnames : (polynomial_evaluation_circuit random_element n pub_coeffs).variable_names
      = ((eval_loop random_element n pub_coeffs).res_idx, "result")
        :: ((coeff_loop random_element n pub_coeffs).builder.variables_.length, "point")
        :: (coeff_loop random_element n pub_coeffs).builder.variable_names := by
    show _ :: (eval_loop random_element n pub_coeffs).builder.variable_names = _
    congr 1
  have hstart : (coeff_loop random_element n pub_coeffs).builder.variables_ ++ [(10 : F)]
      <+: (eval_loop random_element n pub_coeffs).builder.variables_ := fv
  have hlen : (coeff_loop random_element n pub_coeffs).builder.variables_.length + 1
      ≤ (eval_loop random_element n pub_coeffs).builder.variables_.length := by
    have := hstart.length_le
    simpa using this
  have hreslt : (eval_loop random_element n pub_coeffs).res_idx
      < (eval_loop random_element n pub_coeffs).builder.variables_.length :=
    eval_fold_res_idx_lt
      ((coeff_loop random_element n pub_coeffs).builder.add_variable (10 : F)).1 (10 : F)
      ((coeff_loop random_element n pub_coeffs).coeffs.zip
        (coeff_loop random_element n pub_coeffs).idxs)
      { builder := ((((coeff_loop random_element n pub_coeffs).builder.add_variable
            (10 : F)).2.set_variable_name
            ((coeff_loop random_element n pub_coeffs).builder.add_variable (10 : F)).1
            "point").assert_equal
            (coeff_loop random_element n pub_coeffs).builder.zero_idx 0)
        res := 0
        res_idx := (coeff_loop random_element n pub_coeffs).builder.zero_idx }
      (by
        show (coeff_loop random_element n pub_coeffs).builder.zero_idx
          < ((coeff_loop random_element n pub_coeffs).builder.variables_ ++ [(10 : F)]).length
        rw [hz, new_frame.2.2, List.length_append]
        simp)
  rw [hv, hnames, hres, hpoint]
  refine ⟨⟨List.mem_cons_self _ _, hreslt⟩,
    ⟨List.mem_cons_of_mem _ (List.mem_cons_self _ _), by omega⟩, ?_⟩
  intro i hi
  obtain ⟨idx, h1, h2⟩ := coeff_loop_values random_element pub_coeffs n i hi
  have hidx : idx < (coeff_loop random_element n pub_coeffs).builder.variables_.length :=
    (List.getElem?_eq_some_iff.mp h2).1
  rw [hcoeff i idx h1]
  refine ⟨List.mem_cons_of_mem _ (List.mem_cons_of_mem _ ?_), by omega⟩
  exact List.mem_of_find?_eq_some (hn i idx h1)

/-- The variables "point" and "coeff_i" are free: whatever values are chosen for them, the
circuit has a satisfying assignment that gives them these values. -/
theorem circuit_complete {F : Type} [CommRing F] [DecidableEq F] (random_element : Nat → F)
    (n : Nat) (pub_coeffs : Bool) (point : F) (coeff : Nat → F) :
    ∃ w : Nat → F,
      satisfied_by (polynomial_evaluation_circuit random_element n pub_coeffs) w ∧
      w (circuit_variable (polynomial_evaluation_circuit random_element n pub_coeffs) "point")
        = point ∧
      ∀ i, i < n →
        w (circuit_variable (polynomial_evaluation_circuit random_element n pub_coeffs)
          ("coeff_" ++ toString i)) = coeff i := by
  by_cases h01 : (0 : F) = 1
  · haveI := subsingleton_of_zero_eq_one h01
    exact ⟨fun _ => 0, ⟨fun g _ => Subsingleton.elim _ _, fun p _ => Subsingleton.elim _ _,
      Subsingleton.elim _ _, Subsingleton.elim _ _⟩, Subsingleton.elim _ _,
      fun i _ => Subsingleton.elim _ _⟩
  · obtain ⟨nv, nz, no, ng⟩ := new_spec h01
    obtain ⟨_, hpoint, hzero, hone, hcoeff, _, _, hcopy⟩ :=
      circuit_names random_element n pub_coeffs
    obtain ⟨hlen, hidx⟩ := coeff_loop_indices random_element pub_coeffs n
    obtain ⟨_, _, _, _, cz, _, _, _, _⟩ := coeff_loop_spec random_element pub_coeffs n
    have hgeq := circuit_gates random_element n pub_coeffs
    rw [nv] at hlen hidx
    simp only [List.length_cons, List.length_nil, Nat.zero_add] at hlen hidx
    rw [List.length_append, hlen, hidx, cz, nz] at hgeq
    obtain ⟨w, hagree, hrows⟩ := evaluation_gate_pairs_extend (1 + 1 + n)
      ((List.range n).map (fun i => 1 + 1 + i)) 0 (1 + 1 + n + [(10 : F)].length)
      (fun j => if j = 0 then (0 : F) else if j = 1 then 1
        else if j = 1 + 1 + n then point else coeff (j - 2))
      (by simp) (by simp)
      (fun c hc => by
        obtain ⟨i, hi, rfl⟩ := List.mem_map.mp hc
        have := List.mem_range.mp hi
        simp only [List.length_singleton]
        omega)
    have hw0 : w 0 = 0 := by
      rw [hagree 0 (by simp)]
      simp
    have hw1 : w 1 = 1 := by
      rw [hagree 1 (by simp)]
      simp
    refine ⟨w, ⟨?_, ?_, ?_, ?_⟩, ?_, ?_⟩
    · intro g hgm
      rw [hgeq, ng] at hgm
      rcases List.mem_append.mp hgm with hgm | hgm
      · simp only [List.mem_cons, List.mem_singleton, List.not_mem_nil, or_false] at hgm
        rcases hgm with rfl | rfl | rfl
        · simp only [GateRow.holds, hw0]
          ring
        · simp only [GateRow.holds, hw0, hw1]
          ring
        · simp only [GateRow.holds, hw1]
          ring
      · obtain ⟨p, hp, hgp⟩ := List.mem_flatMap.mp hgm
        simp only [List.mem_cons, List.mem_singleton, List.not_mem_nil, or_false] at hgp
        rcases hgp with rfl | rfl
        · exact (hrows p hp).1
        · exact (hrows p hp).2
    · intro p hp
      rw [hcopy] at hp
      simp only [List.mem_singleton] at hp
      subst hp
      simp only [nz]
    · rw [hzero, nz]
      exact hw0
    · rw [hone, no]
      exact hw1
    · rw [hpoint, hlen, hagree (1 + 1 + n) (by simp)]
      have h2 : ¬ (1 + 1 + n = 0) := by omega
      have h3 : ¬ (1 + 1 + n = 1) := by omega
      simp only [h2, h3, if_false, if_true]
    · intro i hi
      have hget : (coeff_loop random_element n pub_coeffs).idxs[i]? = some (1 + 1 + i) := by
        rw [hidx, List.getElem?_map, List.getElem?_range hi]
        rfl
      rw [hcoeff i _ hget, hagree (1 + 1 + i) (by simp only [List.length_singleton]; omega)]
      have h2 : ¬ (1 + 1 + i = 0) := by omega
      have h3 : ¬ (1 + 1 + i = 1) := by omega
      have h4 : ¬ (1 + 1 + i = 1 + 1 + n) := by omega
      have h5 : 1 + 1 + i - 2 = i := by omega
      simp only [h2, h3, h4, if_false, h5]

/-- C17: the names "result", "point" and "coeff_i" (`i < n`) of the circuit built by
`polynomial_evaluation_circuit(n, pub_coeffs)` are names the builder gave to variables it
created. For every `n` and every assignment `w` of ring values to the variables under which
every row of the gate table holds and the variable "zero" is 0, the variable "result" is the
Horner evaluation `ev_n` of the values of "coeff_0", ..., "coeff_(n-1)" at the value of
"point", where `ev_0 = 0` and `ev_(i+1) = ev_i * point + coeff_i`; this is the term
`polynomial_evaluation` builds, so the constraint `result != ev` cannot be met. The statement
is not empty: whatever values are chosen for "point" and for the coefficients, the circuit
has a satisfying assignment with these values, and under it "result" is their Horner
evaluation. -/
theorem polynomial_evaluation_correct {F : Type} [CommRing F] [DecidableEq F]
    (random_element : Nat → F) (n : Nat) (pub_coeffs : Bool) :
    (((circuit_variable (polynomial_evaluation_circuit random_element n pub_coeffs) "result",
        "result") ∈ (polynomial_evaluation_circuit random_element n pub_coeffs).variable_names ∧
      circuit_variable (polynomial_evaluation_circuit random_element n pub_coeffs) "result"
        < (polynomial_evaluation_circuit random_element n pub_coeffs).variables_.length) ∧
     ((circuit_variable (polynomial_evaluation_circuit random_element n pub_coeffs) "point",
        "point") ∈ (polynomial_evaluation_circuit random_element n pub_coeffs).variable_names ∧
      circuit_variable (polynomial_evaluation_circuit random_element n pub_coeffs) "point"
        < (polynomial_evaluation_circuit random_element n pub_coeffs).variables_.length) ∧
     ∀ i, i < n →
      (circuit_variable (polynomial_evaluation_circuit random_element n pub_coeffs)
          ("coeff_" ++ toString i), "coeff_" ++ toString i)
        ∈ (polynomial_evaluation_circuit random_element n pub_coeffs).variable_names ∧
      circuit_variable (polynomial_evaluation_circuit random_element n pub_coeffs)
          ("coeff_" ++ toString i)
        < (polynomial_evaluation_circuit random_element n pub_coeffs).variables_.length) ∧
    (∀ w : Nat → F,
      (∀ g ∈ (polynomial_evaluation_circuit random_element n pub_coeffs).gates, g.holds w) →
      w (circuit_variable (polynomial_evaluation_circuit random_element n pub_coeffs) "zero")
        = 0 →
      w (circuit_variable (polynomial_evaluation_circuit random_element n pub_coeffs) "result")
        = ((List.range n).map (fun i => w (circuit_variable
              (polynomial_evaluation_circuit random_element n pub_coeffs)
              ("coeff_" ++ toString i)))).foldl
            (fun ev coeff => ev * w (circuit_variable
              (polynomial_evaluation_circuit random_element n pub_coeffs) "point") + coeff) 0 ∧
      w (circuit_variable (polynomial_evaluation_circuit random_element n pub_coeffs) "result")
        = polynomial_evaluation (polynomial_evaluation_circuit random_element n pub_coeffs)
            w n true ∧
      ¬ result_differs (polynomial_evaluation_circuit random_element n pub_coeffs) w n true) ∧
    (∀ (point : F) (coeff : Nat → F), ∃ w : Nat → F,
      satisfied_by (polynomial_evaluation_circuit random_element n pub_coeffs) w ∧
      w (circuit_variable (polynomial_evaluation_circuit random_element n pub_coeffs) "point")
        = point ∧
      (∀ i, i < n →
        w (circuit_variable (polynomial_evaluation_circuit random_element n pub_coeffs)
          ("coeff_" ++ toString i)) = coeff i) ∧
      w (circuit_variable (polynomial_evaluation_circuit random_element n pub_coeffs) "result")
        = ((List.range n).map coeff).foldl (fun ev c => ev * point + c) 0) := by
  refine ⟨circuit_registered random_element n pub_coeffs, ?_, ?_⟩
  · intro w hgates hzero
    have h := result_eq_horner random_element n pub_coeffs w hgates
    have h2 : w (circuit_variable (polynomial_evaluation_circuit random_element n pub_coeffs)
        "result") = polynomial_evaluation
          (polynomial_evaluation_circuit random_element n pub_coeffs) w n true := by
      rw [h]
      simp only [polynomial_evaluation, if_true]
    refine ⟨?_, h2, fun hd => hd h2⟩
    rw [h, hzero]
  · intro point coeff
    obtain ⟨w, hsat, hp, hc⟩ := circuit_complete random_element n pub_coeffs point coeff
    refine ⟨w, hsat, hp, hc, ?_⟩
    have hmap : (List.range n).map (fun i => w (circuit_variable
          (polynomial_evaluation_circuit random_element n pub_coeffs)
          ("coeff_" ++ toString i)))
        = (List.range n).map coeff :=
      List.map_congr_left (fun i hi => hc i (List.mem_range.mp hi))
    rw [result_eq_horner random_element n pub_coeffs w hsat.1, hsat.2.2.1, hp, hmap]

/-- Witness for C17 in the scalar field of the test, `n = 30`, public coefficients
`1, 2, ..., 30`: the values the builder stores satisfy every row, and under them "result" is
the evaluation that `polynomial_evaluation` builds. -/
theorem polynomial_evaluation_correct_witness :
    satisfied_by (polynomial_evaluation_circuit (fun i => (i : ZMod r) + 1) 30 true)
      (builder_assignment (polynomial_evaluation_circuit (fun i => (i : ZMod r) + 1) 30 true)) ∧
    ¬ result_differs (polynomial_evaluation_circuit (fun i => (i : ZMod r) + 1) 30 true)
      (builder_assignment (polynomial_evaluation_circuit (fun i => (i : ZMod r) + 1) 30 true))
      30 true :=
  ⟨(builder_assignment_satisfies (fun i => (i : ZMod r) + 1) 30 true zero_ne_one_mod_r).1,
   ((polynomial_evaluation_correct (fun i => (i : ZMod r) + 1) 30 true).2.1
      (builder_assignment (polynomial_evaluation_circuit (fun i => (i : ZMod r) + 1) 30 true))
      (builder_assignment_satisfies (fun i => (i : ZMod r) + 1) 30 true zero_ne_one_mod_r).1.1
      (builder_assignment_satisfies (fun i => (i : ZMod r) + 1) 30 true
        zero_ne_one_mod_r).1.2.2.1).2.2⟩

end smt_polynomials
